import Mathlib

/-!
# maps_creator: channel-packing planner and compositor

A shallow embedding of `src/maps_creator.cpp`.

* The global table `g_MapChannels` is a value of type `List MapChannel`; the
  functions that read or mutate the global take the table as an argument and
  return the new table.
* `int` variables are `Int`; `uint32_t` arithmetic is `Nat` arithmetic taken
  `% 2 ^ 32`; `uint8_t` values are `Nat`.
* The collaborators (`std::filesystem::exists`, `stbi_load`, `stbi_write_png`)
  are fields of an environment `Env`.
* A destination raster is a `List (Option Nat)`: `none` is a byte of the
  freshly allocated buffer that has not been stored to yet.  `new` always
  succeeds, and a store outside the allocation is not recorded.
* A local `int` that the program reads before any assignment (the `width`
  and `height` of `OutputImage` after a failed `stbi_load`) takes its value
  from the environment, so that a theorem about all environments holds
  whatever such a local contains.
-/

namespace MapsCreator

/-! ## Data model -/

namespace ChannelIndices

/-- The enumerators of `enum ChannelIndex : uint32_t`. -/
abbrev Red : Nat := 0
abbrev Green : Nat := 1
abbrev Blue : Nat := 2
abbrev Alpha : Nat := 3
abbrev Count : Nat := 4

end ChannelIndices

abbrev ChannelIndex := Nat

namespace Maps

/-- The enumerators of `enum Map : uint32_t`. -/
abbrev Map1 : Nat := 1
abbrev Map2 : Nat := 2
abbrev Map3 : Nat := 3
abbrev Count : Nat := 4

end Maps

abbrev Map := Nat

inductive Maps1AlphaState where
  | None
  | Occlusion
  | SelfIllum
  | TintMask
  | Subsurface
  deriving DecidableEq, Repr

/-- The value of `uint32_t(state)`: enumerators are numbered from zero in
declaration order. -/
def Maps1AlphaState.code : Maps1AlphaState → Nat
  | .None => 0
  | .Occlusion => 1
  | .SelfIllum => 2
  | .TintMask => 3
  | .Subsurface => 4

structure MapChannel where
  AlphaState : Maps1AlphaState
  Name : String
  DefaultValue : Nat
  MapIndex : Map
  Indices : List ChannelIndex
  deriving DecidableEq, Repr

def ImageName (textureName : String) (channel : MapChannel) : String :=
  textureName ++ "_" ++ channel.Name ++ ".png"

def MapName (textureName : String) (idx : Nat) : String :=
  textureName ++ "_maps" ++ toString idx

def MapFileName (textureName : String) (idx : Nat) : String :=
  MapName textureName idx ++ ".png"

def VMTName (textureName : String) : String :=
  textureName ++ ".vmt"

/-- The initial value of the table.  `uint8_t(0.95f * 255.0f)` is `242`
(the product is 242.25) and `uint8_t(0.04f * 255.0f)` is `10` (10.2). -/
def g_MapChannels : List MapChannel :=
  [ ⟨.None,      "albedo",    255, Maps.Map1, [ChannelIndices.Red, ChannelIndices.Green, ChannelIndices.Blue]⟩,
    ⟨.None,      "alpha",     255, Maps.Map1, [ChannelIndices.Alpha]⟩,
    ⟨.None,      "roughness", 242, Maps.Map2, [ChannelIndices.Red]⟩,
    ⟨.None,      "metalness", 10,  Maps.Map2, [ChannelIndices.Blue]⟩,
    ⟨.None,      "normal",    127, Maps.Map2, [ChannelIndices.Green, ChannelIndices.Alpha]⟩,
    ⟨.TintMask,  "tintmask",  255, Maps.Map3, [ChannelIndices.Red]⟩,
    ⟨.Occlusion, "occlusion", 255, Maps.Map3, [ChannelIndices.Green]⟩,
    ⟨.TintMask,  "selfillum", 255, Maps.Map3, [ChannelIndices.Blue]⟩ ]

/-- The position of the entry `g_AlphaChannel` refers to:
`auto& g_AlphaChannel = g_MapChannels[1]`. -/
def g_AlphaChannelIndex : Nat := 1

/-- A decoded image: what `stbi_load` stores through `&width`, `&height` and
the RGBA buffer it returns (four bytes per pixel, rows top to bottom). -/
structure Image where
  width : Int
  height : Int
  data : List Nat
  deriving DecidableEq, Repr

/-- The collaborators of one run.

* `fileExists` is `std::filesystem::exists`.
* `stbi_load` is `stbi_load(..., STBI_rgb_alpha)`; `none` is a null result.
* `uninit i` is what the locals `width` and `height` of `OutputImage` hold in
  the iteration for table entry `i` when `stbi_load` returned null: they are
  declared without an initialiser and `stbi_load` does not store to them on
  failure, so the program reads an indeterminate value.
* `stbi_write_png file w h data` tells whether the encoder succeeded. -/
structure Env where
  fileExists : String → Bool
  stbi_load : String → Option Image
  uninit : Nat → Int × Int
  stbi_write_png : String → Int → Int → List (Option Nat) → Bool

/-! ## Alpha-state resolver and slot reassignment -/

/-- The loop of `DetermineAlphaState` over the table, with its early return. -/
def DetermineAlphaState (env : Env) (textureName : String) :
    List MapChannel → Maps1AlphaState
  | [] => Maps1AlphaState.None
  | channel :: rest =>
    if channel.AlphaState ≠ Maps1AlphaState.None
        ∧ env.fileExists (ImageName textureName channel) = true then
      channel.AlphaState
    else
      DetermineAlphaState env textureName rest

/-- The two `std::swap` calls on entry `i` and the alpha entry. -/
def swapWithAlpha (reg : List MapChannel) (i : Nat) : List MapChannel :=
  match reg[i]?, reg[g_AlphaChannelIndex]? with
  | some channel, some alpha =>
    (reg.set i { channel with MapIndex := alpha.MapIndex, Indices := alpha.Indices }).set
      g_AlphaChannelIndex { alpha with MapIndex := channel.MapIndex, Indices := channel.Indices }
  | _, _ => reg

/-- The body of the loop of `FixupAlphaState` for the entry at position `i`. -/
def fixupStep (alphaState : Maps1AlphaState) (reg : List MapChannel) (i : Nat) :
    List MapChannel :=
  match reg[i]? with
  | some channel => if channel.AlphaState = alphaState then swapWithAlpha reg i else reg
  | none => reg

def FixupAlphaState (reg : List MapChannel) (alphaState : Maps1AlphaState) :
    List MapChannel :=
  if alphaState = Maps1AlphaState.None then reg
  else (List.range reg.length).foldl (fixupStep alphaState) reg

/-- An entry that can claim the alpha slot: its tag is not `None` and its
source file exists. -/
def Candidate (env : Env) (textureName : String) (c : MapChannel) : Prop :=
  c.AlphaState ≠ Maps1AlphaState.None ∧ env.fileExists (ImageName textureName c) = true

instance (env : Env) (textureName : String) (c : MapChannel) :
    Decidable (Candidate env textureName c) := by
  unfold Candidate; infer_instance

/-! ## Compositor -/

/-- The right-hand side `src != nullptr ? src[i] : defaultValue` of the
assignment in `CopyData`.  A null `src` is `none`; a load outside the source
buffer gives `none`. -/
def srcOrDefault (src : Option (List Nat)) (i : Nat) (defaultValue : Nat) : Option Nat :=
  match src with
  | some s => s[i]?
  | none => some defaultValue

/-- The body of the inner loop of `CopyData` at the pixel `(x, y)`.
`pixelStart` is a `uint32_t`, and so is the sum of `pixelStart` and a channel
index.  A store outside `dst` is not recorded. -/
def copyPixel (src : Option (List Nat)) (width : Nat) (dstIndex srcIndex : ChannelIndex)
    (defaultValue : Nat) (y : Nat) (dst : List (Option Nat)) (x : Nat) : List (Option Nat) :=
  let pixelStart := (y * width * ChannelIndices.Count + x * ChannelIndices.Count) % 2 ^ 32
  dst.set ((pixelStart + dstIndex) % 2 ^ 32)
    (srcOrDefault src ((pixelStart + srcIndex) % 2 ^ 32) defaultValue)

/-- The two nested loops of `CopyData`: `y` runs below `height` and `x` below
`width`.  The body only runs with `0 ≤ x < width`, where `width` and
`width.toNat` agree. -/
def CopyData (dst : List (Option Nat)) (src : Option (List Nat)) (width height : Int)
    (dstIndex srcIndex : ChannelIndex) (defaultValue : Nat) : List (Option Nat) :=
  (List.range height.toNat).foldl (fun dst y =>
    (List.range width.toNat).foldl
      (copyPixel src width.toNat dstIndex srcIndex defaultValue y) dst) dst

/-- The locals of one iteration of the loop over maps in `OutputImage`. -/
structure MapState where
  lastWidth : Int
  lastHeight : Int
  mapData : Option (List (Option Nat))
  usedSomethingOtherThanDefaults : Bool
  deriving DecidableEq, Repr

/-- The locals as initialised at the top of the loop over maps:
`lastWidth = 0, lastHeight = 0`, `mapData = nullptr` and
`usedSomethingOtherThanDefaults = false`. -/
def MapState.init : MapState := ⟨0, 0, none, false⟩

/-- The values of `width` and `height` after the call of `stbi_load` in the
iteration for table entry `idx`. -/
def loadedSize (env : Env) (idx : Nat) (channelData : Option Image) : Int × Int :=
  match channelData with
  | some img => (img.width, img.height)
  | none => env.uninit idx

/-- The loop `for (i = 0; i < channel.Indices.size(); i++) CopyData(...)`. -/
def copyChannel (mapData : List (Option Nat)) (channelData : Option Image)
    (width height : Int) (channel : MapChannel) : List (Option Nat) :=
  (List.range channel.Indices.length).foldl (fun buf i =>
    CopyData buf (channelData.map Image.data) width height (channel.Indices.getD i 0) i
      channel.DefaultValue) mapData

/-- One iteration of the loop over the table inside `OutputImage`, for the
entry `channel` at position `idx`.  The result `none` is the `return false` of
the dimension check. -/
def channelBody (env : Env) (textureName : String) (map : Nat) (st : MapState) (idx : Nat)
    (channel : MapChannel) : Option MapState :=
  if channel.MapIndex ≠ map then some st
  else
    let channelData := env.stbi_load (ImageName textureName channel)
    let width := (loadedSize env idx channelData).1
    let height := (loadedSize env idx channelData).2
    let used := st.usedSomethingOtherThanDefaults || channelData.isSome
    match st.mapData with
    | some mapData =>
      if st.lastWidth ≠ width ∨ st.lastHeight ≠ height then none
      else some ⟨width, height, some (copyChannel mapData channelData width height channel), used⟩
    | none =>
      let mapData := List.replicate ((width * height * ChannelIndices.Count) % 2 ^ 32).toNat none
      some ⟨width, height, some (copyChannel mapData channelData width height channel), used⟩

/-- The loop over the table inside `OutputImage`; `idx` is the position of the
head of the remaining entries. -/
def channelLoop (env : Env) (textureName : String) (map : Nat) :
    Nat → List MapChannel → MapState → Option MapState
  | _, [], st => some st
  | idx, channel :: rest, st =>
    match channelBody env textureName map st idx channel with
    | none => none
    | some st' => channelLoop env textureName map (idx + 1) rest st'

/-- One call of `stbi_write_png`: the map, the arguments and the result. -/
structure PngWrite where
  map : Nat
  fileName : String
  width : Int
  height : Int
  data : List (Option Nat)
  ok : Bool
  deriving DecidableEq, Repr

/-- What the loop over maps has produced so far: whether it ran to its end
(`false` is a `return false`), the bit-set `writtenMaps` and the calls of
`stbi_write_png` in order. -/
structure MapsResult where
  completed : Bool
  writtenMaps : Nat → Bool
  pngWrites : List PngWrite

/-- The loop `for (map = Maps::Map1; map < Maps::Count; map++)` of
`OutputImage`, over the list of the remaining map numbers. -/
def mapLoop (env : Env) (textureName : String) (reg : List MapChannel) :
    List Nat → (Nat → Bool) → List PngWrite → MapsResult
  | [], writtenMaps, writes => ⟨true, writtenMaps, writes⟩
  | map :: rest, writtenMaps, writes =>
    match channelLoop env textureName map 0 reg MapState.init with
    | none => ⟨false, writtenMaps, writes⟩
    | some st =>
      match st.mapData with
      | some mapData =>
        if st.usedSomethingOtherThanDefaults = false then
          mapLoop env textureName reg rest writtenMaps writes
        else
          let writtenMaps' := Function.update writtenMaps map true
          let ok := env.stbi_write_png (MapFileName textureName map) st.lastWidth
            st.lastHeight mapData
          let writes' := writes ++
            [⟨map, MapFileName textureName map, st.lastWidth, st.lastHeight, mapData, ok⟩]
          if ok = false then ⟨false, writtenMaps', writes'⟩
          else mapLoop env textureName reg rest writtenMaps' writes'
      | none => mapLoop env textureName reg rest writtenMaps writes

/-- The text `OutputVMT` streams into the file.  `writtenMaps.size()` is
`Maps::Count`. -/
def OutputVMT (state : Maps1AlphaState) (textureName : String) (writtenMaps : Nat → Bool) :
    String :=
  let header := "\"PBRStandard\"" ++ "\n" ++ "\x7b" ++ "\n"
    ++ "  $maps1alpha " ++ toString state.code ++ "\n"
  let body := (List.range Maps.Count).foldl (fun file i =>
    if writtenMaps i = false then file
    else file ++ "  $maps" ++ toString i ++ " \"" ++ MapName textureName i ++ "\"\n") header
  body ++ "\x7d" ++ "\n"

/-- The observable outcome of `OutputImage`: the returned flag, the table and
alpha state after the reassignment, `writtenMaps`, the encoder calls and the
descriptor files written (name and text). -/
structure Run where
  ret : Bool
  registry : List MapChannel
  alphaState : Maps1AlphaState
  writtenMaps : Nat → Bool
  pngWrites : List PngWrite
  vmtWrites : List (String × String)

/-- The map numbers the loop of `OutputImage` visits: `Map1` up to, not
including, `Maps::Count`. -/
def mapNumbers : List Nat := List.range' Maps.Map1 (Maps.Count - Maps.Map1)

def OutputImage (env : Env) (reg : List MapChannel) (textureName : String) : Run :=
  let alphaState := DetermineAlphaState env textureName reg
  let reg' := FixupAlphaState reg alphaState
  let r := mapLoop env textureName reg' mapNumbers (fun _ => false) []
  if r.completed = true then
    ⟨true, reg', alphaState, r.writtenMaps, r.pngWrites,
      [(VMTName textureName, OutputVMT alphaState textureName r.writtenMaps)]⟩
  else
    ⟨false, reg', alphaState, r.writtenMaps, r.pngWrites, []⟩

/-! ## Auxiliary definitions for the proofs -/

/-- The offset the inner loop of `CopyData` stores to at the pixel `(x, y)`. -/
def rowIndex (W di y : Nat) (x : Nat) : Nat :=
  ((y * W * ChannelIndices.Count + x * ChannelIndices.Count) % 2 ^ 32 + di) % 2 ^ 32

/-- The value the inner loop of `CopyData` stores at the pixel `(x, y)`. -/
def rowValue (src : Option (List Nat)) (W si d y : Nat) (x : Nat) : Option Nat :=
  srcOrDefault src (((y * W * ChannelIndices.Count + x * ChannelIndices.Count) % 2 ^ 32 + si)
    % 2 ^ 32) d

/-- The values of `width` and `height` in the iteration for the entry `c` at
position `idx` of the table. -/
def sizeAt (env : Env) (textureName : String) (idx : Nat) (c : MapChannel) : Int × Int :=
  loadedSize env idx (env.stbi_load (ImageName textureName c))

/-- The target slots of an entry are distinct RGBA slots. -/
def SlotsOk (c : MapChannel) : Prop :=
  c.Indices.Nodup ∧ (∀ s ∈ c.Indices, s < ChannelIndices.Count) ∧
    c.Indices.length ≤ ChannelIndices.Count

instance (c : MapChannel) : Decidable (SlotsOk c) := by
  unfold SlotsOk; infer_instance

/-- No two entries of the table target the same slot of the same map. -/
def SlotsDisjoint (reg : List MapChannel) : Prop :=
  (∀ c ∈ reg, SlotsOk c) ∧
    reg.Pairwise (fun a b => a.MapIndex = b.MapIndex → ∀ s ∈ a.Indices, s ∉ b.Indices)

instance (reg : List MapChannel) : Decidable (SlotsDisjoint reg) := by
  unfold SlotsDisjoint; infer_instance

/-- The call of `stbi_write_png` the loop over maps makes for `map` when the
loop over the table ended in state `st` with the raster `buf`. -/
def pngWriteOf (env : Env) (textureName : String) (map : Nat) (st : MapState)
    (buf : List (Option Nat)) : PngWrite :=
  ⟨map, MapFileName textureName map, st.lastWidth, st.lastHeight, buf,
    env.stbi_write_png (MapFileName textureName map) st.lastWidth st.lastHeight buf⟩

/-- The map `map` reaches the encoder: the loop over the table ends in `st`
with the raster `buf` and something other than defaults was used. -/
def Encodes (env : Env) (textureName : String) (reg : List MapChannel) (map : Nat)
    (st : MapState) (buf : List (Option Nat)) : Prop :=
  channelLoop env textureName map 0 reg MapState.init = some st ∧ st.mapData = some buf ∧
    st.usedSomethingOtherThanDefaults = true

/-- An entry assigned to `map` whose source image decodes. -/
def Decodes (env : Env) (textureName : String) (map : Nat) (c : MapChannel) : Prop :=
  c.MapIndex = map ∧ (env.stbi_load (ImageName textureName c)).isSome = true

/-- What `stbi_load` guarantees of an image it returns when four channels are
requested: positive dimensions, a buffer of `width * height * 4` bytes, and a
buffer size that fits an `int`. -/
def Image.WellFormed (img : Image) : Prop :=
  0 < img.width ∧ 0 < img.height ∧ img.width * img.height * 4 < 2 ^ 31 ∧
    (img.data.length : Int) = img.width * img.height * 4

/-- Every image the decoder returns is well formed. -/
def Env.WellFormed (env : Env) : Prop :=
  ∀ (file : String) (img : Image), env.stbi_load file = some img → img.WellFormed

/-! ## The descriptor as the specification words it -/

/-- The integer code of an alpha state, in decimal, as the specification lists
the codes. -/
def specAlphaCode : Maps1AlphaState → String
  | .None => "0"
  | .Occlusion => "1"
  | .SelfIllum => "2"
  | .TintMask => "3"
  | .Subsurface => "4"

/-- The reference line of the specification for map index `i`:
`  $maps<i> "<name>_maps<i>"`. -/
def specMapLine (textureName : String) (i : Nat) : String :=
  "  $maps" ++ toString i ++ " \"" ++ textureName ++ "_maps" ++ toString i ++ "\"" ++ "\n"

/-- The descriptor of the specification: the line `"PBRStandard"`, an opening
brace, the `$maps1alpha` line, one reference line for each index of the
bit-set whose bit is set, in ascending order, and a closing brace. -/
def specDescriptor (state : Maps1AlphaState) (textureName : String)
    (writtenMaps : Nat → Bool) : String :=
  String.join (["\"PBRStandard\"\n", "\x7b\n", "  $maps1alpha " ++ specAlphaCode state ++ "\n"]
    ++ (([0, 1, 2, 3].filter (fun i => writtenMaps i)).map (specMapLine textureName))
    ++ ["\x7d\n"])

/-! ## Concrete environments -/

/-- A file system holding `tex_selfillum.png` only; nothing decodes. -/
def envSelfIllumOnly : Env where
  fileExists := fun s => s == "tex_selfillum.png"
  stbi_load := fun _ => none
  uninit := fun _ => (0, 0)
  stbi_write_png := fun _ _ _ _ => true

/-- Scenario C in small: `tex_roughness.png` is 1 by 1 and
`tex_metalness.png` is 2 by 1; no other file loads.  The stale `width` and
`height` of a failed load are 0. -/
def envScenarioC : Env where
  fileExists := fun s => s == "tex_roughness.png" || s == "tex_metalness.png"
  stbi_load := fun s =>
    if s = "tex_roughness.png" then some ⟨1, 1, [200, 200, 200, 255]⟩
    else if s = "tex_metalness.png" then some ⟨2, 1, [9, 9, 9, 255, 8, 8, 8, 255]⟩
    else none
  uninit := fun _ => (0, 0)
  stbi_write_png := fun _ _ _ _ => true

/-- Only `tex_albedo.png` loads, as a 1 by 1 image.  After a failed load
`width` and `height` still hold the 1 by 1 of the load before. -/
def envAlbedoOnly : Env where
  fileExists := fun s => s == "tex_albedo.png"
  stbi_load := fun s => if s = "tex_albedo.png" then some ⟨1, 1, [10, 20, 30, 40]⟩ else none
  uninit := fun _ => (1, 1)
  stbi_write_png := fun _ _ _ _ => true

/-- The files `tex_albedo.png` and `tex_alpha.png` load as 1 by 1 images. -/
def envAlbedoAlpha : Env where
  fileExists := fun s => s == "tex_albedo.png" || s == "tex_alpha.png"
  stbi_load := fun s =>
    if s = "tex_albedo.png" then some ⟨1, 1, [10, 20, 30, 40]⟩
    else if s = "tex_alpha.png" then some ⟨1, 1, [77, 78, 79, 80]⟩
    else none
  uninit := fun _ => (1, 1)
  stbi_write_png := fun _ _ _ _ => true

/-- The files `tex_albedo.png` and `tex_alpha.png` load as 2 by 2 images and
`tex_metalness.png` as a 1 by 1 image; `tex_roughness.png` and
`tex_normal.png` are missing.  After a failed load `width` and `height` still
hold the 2 by 2 of the last successful load. -/
def envMissingRoughness : Env where
  fileExists := fun s =>
    s == "tex_albedo.png" || s == "tex_alpha.png" || s == "tex_metalness.png"
  stbi_load := fun s =>
    if s = "tex_albedo.png" then some ⟨2, 2, List.replicate 16 100⟩
    else if s = "tex_alpha.png" then some ⟨2, 2, List.replicate 16 255⟩
    else if s = "tex_metalness.png" then some ⟨1, 1, [9, 9, 9, 255]⟩
    else none
  uninit := fun _ => (2, 2)
  stbi_write_png := fun _ _ _ _ => true

/-- The positions at which the loop of `FixupAlphaState` takes its `if` branch
and performs the two `std::swap` calls, in order. -/
def fixupSwaps (reg : List MapChannel) (alphaState : Maps1AlphaState) : List Nat :=
  if alphaState = Maps1AlphaState.None then []
  else
    ((List.range reg.length).foldl (fun (acc : List MapChannel × List Nat) i =>
      match acc.1[i]? with
      | some channel =>
        if channel.AlphaState = alphaState then (swapWithAlpha acc.1 i, acc.2 ++ [i]) else acc
      | none => acc) (reg, [])).2

/-- A file system holding `tex_tintmask.png` only; nothing decodes. -/
def envTintMaskOnly : Env where
  fileExists := fun s => s == "tex_tintmask.png"
  stbi_load := fun _ => none
  uninit := fun _ => (0, 0)
  stbi_write_png := fun _ _ _ _ => true

/-- A file system holding `tex_occlusion.png` and `tex_selfillum.png`, and no
`tex_tintmask.png`; nothing decodes. -/
def envOcclusionSelfIllum : Env where
  fileExists := fun s => s == "tex_occlusion.png" || s == "tex_selfillum.png"
  stbi_load := fun _ => none
  uninit := fun _ => (0, 0)
  stbi_write_png := fun _ _ _ _ => true

/-! ## Entry points -/

def g_UsageString : String :=
  "maps_creator.exe <texture_name>\nWill output maps1, maps2, [and maps3 if required] in the most efficient way for a given material.\nThis will read files with <texture_name>_channel, where channel can be one of:"

/-- The lines `PrintUsage` sends to the standard output: the usage string,
then the name of every entry of the table. -/
def PrintUsage (reg : List MapChannel) : List String :=
  g_UsageString :: reg.map MapChannel.Name

/-- What a call of `Start` did: the flag it returns, the lines of the usage
branch when that branch ran, the run of `OutputImage` when it was called, and
the table afterwards. -/
structure StartResult where
  ret : Bool
  usage : Option (List String)
  run : Option Run
  registry : List MapChannel

/-- The function `Start`: with an empty name it prints a message and the
usage and returns `true`; otherwise it returns what `OutputImage` returns. -/
def Start (env : Env) (reg : List MapChannel) (textureName : String) : StartResult :=
  if textureName = "" then
    ⟨true, some ("You need to specify a texture name." :: PrintUsage reg), none, reg⟩
  else
    ⟨(OutputImage env reg textureName).ret, none, some (OutputImage env reg textureName),
      (OutputImage env reg textureName).registry⟩

/-- The calls of `stbi_write_png` made during a call of `Start`. -/
def StartResult.pngWrites (r : StartResult) : List PngWrite :=
  match r.run with
  | some run => run.pngWrites
  | none => []

/-- The descriptor files written during a call of `Start`. -/
def StartResult.vmtWrites (r : StartResult) : List (String × String) :=
  match r.run with
  | some run => run.vmtWrites
  | none => []

/-- The function `main` on the argument vector `argv` (`argc` is its length):
the texture name is `argv[1]` when `argc >= 2` and the empty string otherwise;
the exit code is 1 when `Start` returns `false` and 0 otherwise. -/
def main (env : Env) (reg : List MapChannel) (argv : List String) : Nat × StartResult :=
  let textureName := if argv.length ≥ 2 then argv.getD 1 "" else ""
  let r := Start env reg textureName
  (if r.ret = false then 1 else 0, r)

/-- The slot assignment of an entry: its map and its target slots. -/
def slotsOf (c : MapChannel) : Nat × List Nat := (c.MapIndex, c.Indices)

/-- Every (map, slot) pair a table writes, entry by entry. -/
def targets (reg : List MapChannel) : List (Nat × Nat) :=
  reg.flatMap (fun c => c.Indices.map (fun s => (c.MapIndex, s)))

/-- Scenario B in small: `tex_albedo.png`, `tex_alpha.png` and
`tex_occlusion.png` load as 1 by 1 images and no other file exists.  After a
failed load `width` and `height` still hold the 1 by 1 of the load before. -/
def envScenarioB : Env where
  fileExists := fun s =>
    s == "tex_albedo.png" || s == "tex_alpha.png" || s == "tex_occlusion.png"
  stbi_load := fun s =>
    if s = "tex_albedo.png" then some ⟨1, 1, [10, 20, 30, 40]⟩
    else if s = "tex_alpha.png" then some ⟨1, 1, [77, 78, 79, 80]⟩
    else if s = "tex_occlusion.png" then some ⟨1, 1, [50, 51, 52, 53]⟩
    else none
  uninit := fun _ => (1, 1)
  stbi_write_png := fun _ _ _ _ => true

/-- Scenario A: `tex_albedo.png` (opaque) and `tex_alpha.png` load as 2 by 2
images and no other file exists.  After a failed load `width` and `height`
still hold the 2 by 2 of the load before. -/
def envScenarioA : Env where
  fileExists := fun s => s == "tex_albedo.png" || s == "tex_alpha.png"
  stbi_load := fun s =>
    if s = "tex_albedo.png" then
      some ⟨2, 2, [10, 20, 30, 255, 11, 21, 31, 255, 12, 22, 32, 255, 13, 23, 33, 255]⟩
    else if s = "tex_alpha.png" then
      some ⟨2, 2, [70, 70, 70, 255, 71, 71, 71, 255, 72, 72, 72, 255, 73, 73, 73, 255]⟩
    else none
  uninit := fun _ => (2, 2)
  stbi_write_png := fun _ _ _ _ => true

/-- Scenario A, with other contents of the unassigned locals: after the
failed load of `tex_roughness.png` the locals `width` and `height` hold
2 by 2, and after every other failed load they hold 0 by 0. -/
def envScenarioAStale : Env :=
  { envScenarioA with uninit := fun i => if i = 2 then (2, 2) else (0, 0) }

/-- Scenario B, with other contents of the unassigned locals: after the
failed load of `tex_roughness.png` the locals `width` and `height` hold
1 by 1, and after every other failed load they hold 0 by 0. -/
def envScenarioBStale : Env :=
  { envScenarioB with uninit := fun i => if i = 2 then (1, 1) else (0, 0) }

/-! ## Theorems -/

/-! ### Slot reassignment applied twice (C1) -/

/-- C1, evaluated at `TintMask`: two entries of the table (`tintmask` and
`selfillum`) carry the tag `TintMask`, so one call performs two exchanges with
the alpha entry, and a second call does not undo the first: afterwards
`alpha` sits on (Map3, [Red]), `tintmask` on (Map3, [Blue]) and `selfillum` on
(Map1, [Alpha]), which is not the initial assignment. -/
theorem FixupAlphaState_twice_TintMask :
    (FixupAlphaState (FixupAlphaState g_MapChannels Maps1AlphaState.TintMask)
        Maps1AlphaState.TintMask).map (fun c => (c.Name, c.MapIndex, c.Indices)) =
      [("albedo", 1, [0, 1, 2]), ("alpha", 3, [0]), ("roughness", 2, [0]),
       ("metalness", 2, [2]), ("normal", 2, [1, 3]), ("tintmask", 3, [2]),
       ("occlusion", 3, [1]), ("selfillum", 1, [3])] ∧
    FixupAlphaState (FixupAlphaState g_MapChannels Maps1AlphaState.TintMask)
        Maps1AlphaState.TintMask ≠ g_MapChannels := by
  decide

/-- For every state other than `TintMask` the second call restores the table. -/
theorem FixupAlphaState_twice_other (s : Maps1AlphaState) (hs : s ≠ Maps1AlphaState.TintMask) :
    FixupAlphaState (FixupAlphaState g_MapChannels s) s = g_MapChannels := by
  cases s <;> first | exact absurd rfl hs | decide

/-! ### Alpha-state resolver (C2) -/

theorem DetermineAlphaState_cons (env : Env) (textureName : String) (c : MapChannel)
    (rest : List MapChannel) :
    DetermineAlphaState env textureName (c :: rest) =
      if Candidate env textureName c then c.AlphaState
      else DetermineAlphaState env textureName rest := by
  simp only [DetermineAlphaState, Candidate]

theorem DetermineAlphaState_eq_None_iff (env : Env) (textureName : String)
    (reg : List MapChannel) :
    DetermineAlphaState env textureName reg = Maps1AlphaState.None ↔
      ∀ c ∈ reg, ¬ Candidate env textureName c := by
  induction reg with
  | nil => simp [DetermineAlphaState]
  | cons c rest ih =>
    rw [DetermineAlphaState_cons]
    by_cases hc : Candidate env textureName c
    · simp only [hc, if_true, List.mem_cons, forall_eq_or_imp, not_true_eq_false, false_and,
        iff_false]
      exact hc.1
    · simp only [hc, if_false, List.mem_cons, forall_eq_or_imp, not_false_eq_true, true_and]
      exact ih

theorem DetermineAlphaState_first (env : Env) (textureName : String) :
    ∀ (reg : List MapChannel) (i : Nat) (c : MapChannel), reg[i]? = some c →
      Candidate env textureName c →
      (∀ (j : Nat) (c' : MapChannel), j < i → reg[j]? = some c' →
        ¬ Candidate env textureName c') →
      DetermineAlphaState env textureName reg = c.AlphaState := by
  intro reg
  induction reg with
  | nil => intro i c h; simp at h
  | cons d rest ih =>
    intro i c hi hc hbefore
    rw [DetermineAlphaState_cons]
    cases i with
    | zero =>
      simp only [List.getElem?_cons_zero, Option.some.injEq] at hi
      subst hi
      simp [hc]
    | succ k =>
      have hd : ¬ Candidate env textureName d := hbefore 0 d (Nat.succ_pos k) (by simp)
      simp only [hd, if_false]
      simp only [List.getElem?_cons_succ] at hi
      exact ih k c hi hc (fun j c' hj hj' => hbefore (j + 1) c' (by omega) (by simpa using hj'))

theorem exists_first_candidate (env : Env) (textureName : String) :
    ∀ (reg : List MapChannel), (∃ c ∈ reg, Candidate env textureName c) →
      ∃ (i : Nat) (c : MapChannel), reg[i]? = some c ∧ Candidate env textureName c ∧
        ∀ (j : Nat) (c' : MapChannel), j < i → reg[j]? = some c' →
          ¬ Candidate env textureName c' := by
  intro reg
  induction reg with
  | nil => rintro ⟨c, hc, -⟩; simp at hc
  | cons d rest ih =>
    rintro ⟨c, hmem, hc⟩
    by_cases hd : Candidate env textureName d
    · exact ⟨0, d, by simp, hd, fun j c' hj => absurd hj (Nat.not_lt_zero j)⟩
    · have hrest : ∃ c ∈ rest, Candidate env textureName c := by
        rcases List.mem_cons.1 hmem with h | h
        · subst h; exact absurd hc hd
        · exact ⟨c, h, hc⟩
      obtain ⟨i, c0, hi, hc0, hmin⟩ := ih hrest
      refine ⟨i + 1, c0, by simpa using hi, hc0, ?_⟩
      intro j c' hj hj'
      cases j with
      | zero =>
        simp only [List.getElem?_cons_zero, Option.some.injEq] at hj'
        subst hj'; exact hd
      | succ k =>
        simp only [List.getElem?_cons_succ] at hj'
        exact hmin k c' (by omega) hj'

/-- C2: `DetermineAlphaState` returns `None` exactly when no entry of the table
is tagged with its source file present; otherwise there is an earliest such
entry (position `i`), the result is that entry's tag, which is not `None`, and
the result is the same under every other file-existence predicate that agrees
with this one on the files of the entries up to position `i`, whatever it
says about later entries. -/
theorem DetermineAlphaState_earliest (env : Env) (textureName : String)
    (reg : List MapChannel) :
    (DetermineAlphaState env textureName reg = Maps1AlphaState.None ↔
      ∀ c ∈ reg, ¬ Candidate env textureName c) ∧
    ((DetermineAlphaState env textureName reg = Maps1AlphaState.None ∧
        ∀ c ∈ reg, ¬ Candidate env textureName c) ∨
      ∃ (i : Nat) (c : MapChannel), reg[i]? = some c ∧ Candidate env textureName c ∧
        (∀ (j : Nat) (c' : MapChannel), j < i → reg[j]? = some c' →
          ¬ Candidate env textureName c') ∧
        DetermineAlphaState env textureName reg = c.AlphaState ∧
        c.AlphaState ≠ Maps1AlphaState.None ∧
        ∀ env' : Env,
          (∀ (j : Nat) (c' : MapChannel), j ≤ i → reg[j]? = some c' →
            env'.fileExists (ImageName textureName c') =
              env.fileExists (ImageName textureName c')) →
          DetermineAlphaState env' textureName reg = c.AlphaState) := by
  refine ⟨DetermineAlphaState_eq_None_iff env textureName reg, ?_⟩
  by_cases h : ∃ c ∈ reg, Candidate env textureName c
  · right
    obtain ⟨i, c, hi, hc, hmin⟩ := exists_first_candidate env textureName reg h
    refine ⟨i, c, hi, hc, hmin, DetermineAlphaState_first env textureName reg i c hi hc hmin,
      hc.1, ?_⟩
    intro env' hagree
    refine DetermineAlphaState_first env' textureName reg i c hi ?_ ?_
    · exact ⟨hc.1, by rw [hagree i c (Nat.le_refl i) hi]; exact hc.2⟩
    · intro j c' hj hj' hcand
      refine hmin j c' hj hj' ⟨hcand.1, ?_⟩
      rw [← hagree j c' (Nat.le_of_lt hj) hj']; exact hcand.2
  · left
    have h' : ∀ c ∈ reg, ¬ Candidate env textureName c := fun c hc hcand => h ⟨c, hc, hcand⟩
    exact ⟨(DetermineAlphaState_eq_None_iff env textureName reg).2 h', h'⟩

/-! ### The winning channel after the reassignment (C3) -/

/-- C3, evaluated with `tex_selfillum.png` as the only file: the resolver
returns `TintMask`, the earliest tagged entry with its file present is
`selfillum` (position 7), and after `FixupAlphaState` that entry sits on
(Map3, [Red]), not on (Map1, [Alpha]); the alpha slot of map 1 went to
`tintmask`, whose file is absent. -/
theorem FixupAlphaState_selfillum_only :
    DetermineAlphaState envSelfIllumOnly "tex" g_MapChannels = Maps1AlphaState.TintMask ∧
    (∀ c ∈ g_MapChannels.take 7, ¬ Candidate envSelfIllumOnly "tex" c) ∧
    (∃ c, g_MapChannels[7]? = some c ∧ c.Name = "selfillum" ∧
      Candidate envSelfIllumOnly "tex" c) ∧
    (FixupAlphaState g_MapChannels Maps1AlphaState.TintMask).map
        (fun c => (c.Name, c.MapIndex, c.Indices)) =
      [("albedo", 1, [0, 1, 2]), ("alpha", 3, [2]), ("roughness", 2, [0]),
       ("metalness", 2, [2]), ("normal", 2, [1, 3]), ("tintmask", 1, [3]),
       ("occlusion", 3, [1]), ("selfillum", 3, [0])] := by
  refine ⟨by decide, by decide, ⟨_, rfl, by decide, by decide⟩, by decide⟩

/-- When the winning state is `Occlusion` the exchange is the intended one:
`occlusion` moves to (Map1, [Alpha]) and `alpha` to the slot `occlusion` had. -/
theorem FixupAlphaState_Occlusion :
    (FixupAlphaState g_MapChannels Maps1AlphaState.Occlusion).map
        (fun c => (c.Name, c.MapIndex, c.Indices)) =
      [("albedo", 1, [0, 1, 2]), ("alpha", 3, [1]), ("roughness", 2, [0]),
       ("metalness", 2, [2]), ("normal", 2, [1, 3]), ("tintmask", 3, [0]),
       ("occlusion", 1, [3]), ("selfillum", 3, [2])] := by
  decide

/-! ### Stores into a buffer -/

theorem foldl_set_length {α : Type} (f : Nat → Nat) (g : Nat → α) :
    ∀ (l : List Nat) (buf : List α),
      (l.foldl (fun b i => b.set (f i) (g i)) buf).length = buf.length := by
  intro l
  induction l with
  | nil => intro buf; rfl
  | cons a t ih => intro buf; simp only [List.foldl_cons, ih, List.length_set]

theorem foldl_set_miss {α : Type} (f : Nat → Nat) (g : Nat → α) :
    ∀ (l : List Nat) (buf : List α) (k : Nat), (∀ i ∈ l, f i ≠ k) →
      (l.foldl (fun b i => b.set (f i) (g i)) buf)[k]? = buf[k]? := by
  intro l
  induction l with
  | nil => intro buf k _; rfl
  | cons a t ih =>
    intro buf k h
    simp only [List.foldl_cons]
    rw [ih _ k (fun i hi => h i (List.mem_cons_of_mem a hi)),
      List.getElem?_set_ne (h a (List.mem_cons_self a t))]

theorem foldl_set_hit {α : Type} (f : Nat → Nat) (g : Nat → α) :
    ∀ (l : List Nat) (buf : List α) (i : Nat), i ∈ l → l.Nodup →
      (∀ a ∈ l, ∀ b ∈ l, f a = f b → a = b) → f i < buf.length →
      (l.foldl (fun b i => b.set (f i) (g i)) buf)[f i]? = some (g i) := by
  intro l
  induction l with
  | nil => intro buf i hi; simp at hi
  | cons a t ih =>
    intro buf i hi hnd hinj hlt
    simp only [List.foldl_cons]
    rcases List.mem_cons.1 hi with h | h
    · subst h
      have hnot : i ∉ t := (List.nodup_cons.1 hnd).1
      rw [foldl_set_miss f g t _ (f i), List.getElem?_set_self hlt]
      intro j hj hfj
      have : j = i := hinj j (List.mem_cons_of_mem i hj) i (List.mem_cons_self i t) hfj
      exact hnot (this ▸ hj)
    · refine ih _ i h (List.nodup_cons.1 hnd).2 ?_ (by simpa using hlt)
      intro x hx y hy hxy
      exact hinj x (List.mem_cons_of_mem a hx) y (List.mem_cons_of_mem a hy) hxy

theorem copyPixel_eq (src : Option (List Nat)) (W di si d y : Nat) :
    copyPixel src W di si d y =
      fun b x => b.set (rowIndex W di y x) (rowValue src W si d y x) := rfl

theorem copyRow_length (src : Option (List Nat)) (W di si d y : Nat) (buf : List (Option Nat)) :
    ((List.range W).foldl (copyPixel src W di si d y) buf).length = buf.length := by
  rw [copyPixel_eq]; exact foldl_set_length _ _ _ _

theorem rowIndex_eq (W di y x : Nat) (hdi : di < 4) (hx : x < W)
    (hb : y * W * 4 + W * 4 ≤ 2 ^ 32) : rowIndex W di y x = 4 * (y * W + x) + di := by
  unfold rowIndex
  simp only [ChannelIndices.Count]
  rw [Nat.mod_eq_of_lt (by omega), Nat.mod_eq_of_lt (by omega)]
  omega

theorem rowValue_eq (src : Option (List Nat)) (W si d y x : Nat) (hsi : si < 4) (hx : x < W)
    (hb : y * W * 4 + W * 4 ≤ 2 ^ 32) :
    rowValue src W si d y x = srcOrDefault src (4 * (y * W + x) + si) d := by
  unfold rowValue
  simp only [ChannelIndices.Count]
  rw [Nat.mod_eq_of_lt (by omega), Nat.mod_eq_of_lt (by omega)]
  congr 1
  omega

theorem copyRow_getElem? (src : Option (List Nat)) (W di si d y : Nat) (hdi : di < 4)
    (hsi : si < 4) (hb : y * W * 4 + W * 4 ≤ 2 ^ 32) (buf : List (Option Nat)) (k : Nat)
    (hk : k < buf.length) :
    ((List.range W).foldl (copyPixel src W di si d y) buf)[k]? =
      if k % 4 = di ∧ y * W ≤ k / 4 ∧ k / 4 < y * W + W then
        some (srcOrDefault src (4 * (k / 4) + si) d)
      else buf[k]? := by
  rw [copyPixel_eq]
  split_ifs with h
  · obtain ⟨h1, h2, h3⟩ := h
    have hx : k / 4 - y * W < W := by omega
    have hidx : rowIndex W di y (k / 4 - y * W) = k := by
      rw [rowIndex_eq W di y _ hdi hx hb]; omega
    have := foldl_set_hit (rowIndex W di y) (rowValue src W si d y) (List.range W) buf
      (k / 4 - y * W) (List.mem_range.2 hx) (List.nodup_range W) (by
        intro a ha b hb' hab
        rw [rowIndex_eq W di y a hdi (List.mem_range.1 ha) hb,
          rowIndex_eq W di y b hdi (List.mem_range.1 hb') hb] at hab
        omega) (by rw [hidx]; exact hk)
    rw [hidx] at this
    rw [this, rowValue_eq src W si d y _ hsi hx hb]
    congr 2
    omega
  · apply foldl_set_miss
    intro x hx hxk
    rw [rowIndex_eq W di y x hdi (List.mem_range.1 hx) hb] at hxk
    have := List.mem_range.1 hx
    apply h
    omega

theorem copyRows_length (src : Option (List Nat)) (W di si d : Nat) (dst : List (Option Nat)) :
    ∀ (n : Nat), ((List.range n).foldl (fun dst y =>
        (List.range W).foldl (copyPixel src W di si d y) dst) dst).length = dst.length := by
  intro n
  induction n with
  | zero => rfl
  | succ n ih =>
    rw [List.range_succ, List.foldl_append]
    simp only [List.foldl_cons, List.foldl_nil]
    rw [copyRow_length, ih]

theorem copyRows_getElem? (src : Option (List Nat)) (W di si d : Nat) (hdi : di < 4)
    (hsi : si < 4) (dst : List (Option Nat)) :
    ∀ (n : Nat), n * W * 4 ≤ 2 ^ 32 → ∀ (k : Nat), k < dst.length →
      ((List.range n).foldl (fun dst y =>
        (List.range W).foldl (copyPixel src W di si d y) dst) dst)[k]? =
      if k % 4 = di ∧ k / 4 < n * W then some (srcOrDefault src (4 * (k / 4) + si) d)
      else dst[k]? := by
  intro n
  induction n with
  | zero => intro _ k _; simp
  | succ n ih =>
    intro hb k hk
    have hsucc : (n + 1) * W = n * W + W := Nat.succ_mul n W
    have hb' : n * W * 4 + W * 4 ≤ 2 ^ 32 := by rw [hsucc] at hb; omega
    rw [List.range_succ, List.foldl_append]
    simp only [List.foldl_cons, List.foldl_nil]
    rw [copyRow_getElem? src W di si d n hdi hsi hb' _ k (by rw [copyRows_length]; exact hk),
      ih (by omega) k hk, hsucc]
    by_cases h1 : k % 4 = di <;> by_cases h2 : k / 4 < n * W <;>
      by_cases h3 : k / 4 < n * W + W <;>
      first | (simp [h1, h2, h3]; done) | (exfalso; omega)

theorem CopyData_length (dst : List (Option Nat)) (src : Option (List Nat)) (width height : Int)
    (di si d : Nat) : (CopyData dst src width height di si d).length = dst.length :=
  copyRows_length src width.toNat di si d dst height.toNat

/-- What `CopyData` leaves at offset `k` of the destination: in slot
`dstIndex` of a pixel below `width * height` the source byte of slot
`srcIndex` of that pixel (or the default), and the former content elsewhere. -/
theorem CopyData_getElem? (dst : List (Option Nat)) (src : Option (List Nat))
    (width height : Int) (di si d : Nat) (hdi : di < 4) (hsi : si < 4)
    (hb : height.toNat * width.toNat * 4 ≤ 2 ^ 32) (k : Nat) (hk : k < dst.length) :
    (CopyData dst src width height di si d)[k]? =
      if k % 4 = di ∧ k / 4 < height.toNat * width.toNat then
        some (srcOrDefault src (4 * (k / 4) + si) d)
      else dst[k]? :=
  copyRows_getElem? src width.toNat di si d hdi hsi dst height.toNat hb k hk
/-! ### One channel -/

theorem copyChannel_steps_length (buf : List (Option Nat)) (cd : Option Image) (w h : Int)
    (c : MapChannel) : ∀ (m : Nat),
    ((List.range m).foldl (fun buf i =>
      CopyData buf (cd.map Image.data) w h (c.Indices.getD i 0) i c.DefaultValue) buf).length
      = buf.length := by
  intro m
  induction m with
  | zero => rfl
  | succ m ih =>
    rw [List.range_succ, List.foldl_append]
    simp only [List.foldl_cons, List.foldl_nil]
    rw [CopyData_length, ih]

theorem copyChannel_length (buf : List (Option Nat)) (cd : Option Image) (w h : Int)
    (c : MapChannel) : (copyChannel buf cd w h c).length = buf.length :=
  copyChannel_steps_length buf cd w h c c.Indices.length

theorem getD_lt_of_SlotsOk (c : MapChannel) (hc : SlotsOk c) (i : Nat)
    (hi : i < c.Indices.length) : c.Indices.getD i 0 < 4 := by
  have : c.Indices.getD i 0 = c.Indices[i] := by
    simp [List.getD, List.getElem?_eq_getElem hi]
  rw [this]
  exact hc.2.1 _ (List.getElem_mem hi)

theorem getD_inj_of_SlotsOk (c : MapChannel) (hc : SlotsOk c) (i j : Nat)
    (hi : i < c.Indices.length) (hj : j < c.Indices.length)
    (h : c.Indices.getD i 0 = c.Indices.getD j 0) : i = j := by
  have e1 : c.Indices.getD i 0 = c.Indices[i] := by
    simp [List.getD, List.getElem?_eq_getElem hi]
  have e2 : c.Indices.getD j 0 = c.Indices[j] := by
    simp [List.getD, List.getElem?_eq_getElem hj]
  rw [e1, e2] at h
  exact (List.Nodup.getElem_inj_iff hc.1).1 h

theorem getD_mem (l : List Nat) (i : Nat) (hi : i < l.length) : l.getD i 0 ∈ l := by
  have : l.getD i 0 = l[i] := by simp [List.getD, List.getElem?_eq_getElem hi]
  rw [this]; exact List.getElem_mem hi

theorem copyChannel_steps_miss (buf : List (Option Nat)) (cd : Option Image) (w h : Int)
    (c : MapChannel) (hc : SlotsOk c) (hb : h.toNat * w.toNat * 4 ≤ 2 ^ 32) (k : Nat)
    (hk : k < buf.length) :
    ∀ (m : Nat), m ≤ c.Indices.length →
      ((∀ j, j < m → c.Indices.getD j 0 ≠ k % 4) ∨ h.toNat * w.toNat ≤ k / 4) →
      ((List.range m).foldl (fun buf i =>
        CopyData buf (cd.map Image.data) w h (c.Indices.getD i 0) i c.DefaultValue) buf)[k]?
        = buf[k]? := by
  intro m
  induction m with
  | zero => intro _ _; rfl
  | succ m ih =>
    intro hm hmiss
    rw [List.range_succ, List.foldl_append]
    simp only [List.foldl_cons, List.foldl_nil]
    have hlen4 : c.Indices.length ≤ 4 := hc.2.2
    rw [CopyData_getElem? _ _ w h _ _ _ (getD_lt_of_SlotsOk c hc m (by omega)) (by omega) hb k
      (by rw [copyChannel_steps_length]; exact hk)]
    have hcond : ¬ (k % 4 = c.Indices.getD m 0 ∧ k / 4 < h.toNat * w.toNat) := by
      rintro ⟨h1, h2⟩
      rcases hmiss with h' | h'
      · exact h' m (Nat.lt_succ_self m) h1.symm
      · omega
    rw [if_neg hcond]
    refine ih (by omega) ?_
    rcases hmiss with h' | h'
    · exact Or.inl (fun j hj => h' j (by omega))
    · exact Or.inr h'

theorem copyChannel_steps_hit (buf : List (Option Nat)) (cd : Option Image) (w h : Int)
    (c : MapChannel) (hc : SlotsOk c) (hb : h.toNat * w.toNat * 4 ≤ 2 ^ 32) (k : Nat)
    (hk : k < buf.length) (j : Nat) (hj : j < c.Indices.length)
    (hslot : c.Indices.getD j 0 = k % 4) (hp : k / 4 < h.toNat * w.toNat) :
    ∀ (m : Nat), m ≤ c.Indices.length → j < m →
      ((List.range m).foldl (fun buf i =>
        CopyData buf (cd.map Image.data) w h (c.Indices.getD i 0) i c.DefaultValue) buf)[k]?
        = some (srcOrDefault (cd.map Image.data) (4 * (k / 4) + j) c.DefaultValue) := by
  intro m
  induction m with
  | zero => intro _ hjm; omega
  | succ m ih =>
    intro hm hjm
    rw [List.range_succ, List.foldl_append]
    simp only [List.foldl_cons, List.foldl_nil]
    have hlen4 : c.Indices.length ≤ 4 := hc.2.2
    rw [CopyData_getElem? _ _ w h _ _ _ (getD_lt_of_SlotsOk c hc m (by omega)) (by omega) hb k
      (by rw [copyChannel_steps_length]; exact hk)]
    by_cases hjm' : j = m
    · subst hjm'
      rw [if_pos ⟨hslot.symm, hp⟩]
    · have hne : ¬ (k % 4 = c.Indices.getD m 0 ∧ k / 4 < h.toNat * w.toNat) := by
        rintro ⟨h1, -⟩
        exact hjm' (getD_inj_of_SlotsOk c hc j m hj (by omega) (hslot.trans h1))
      rw [if_neg hne]
      exact ih (by omega) (by omega)

/-- A byte no slot of the channel maps to is left alone by `copyChannel`. -/
theorem copyChannel_miss (buf : List (Option Nat)) (cd : Option Image) (w h : Int)
    (c : MapChannel) (hc : SlotsOk c) (hb : h.toNat * w.toNat * 4 ≤ 2 ^ 32) (k : Nat)
    (hk : k < buf.length) (hmiss : k % 4 ∉ c.Indices ∨ h.toNat * w.toNat ≤ k / 4) :
    (copyChannel buf cd w h c)[k]? = buf[k]? := by
  refine copyChannel_steps_miss buf cd w h c hc hb k hk c.Indices.length (Nat.le_refl _) ?_
  rcases hmiss with h' | h'
  · left
    intro j hj hslot
    exact h' (hslot ▸ getD_mem c.Indices j hj)
  · exact Or.inr h'

/-- After `copyChannel`, target slot number `j` of the channel holds, at every
pixel, slot `j` of the source pixel, or the default when nothing was loaded. -/
theorem copyChannel_hit (buf : List (Option Nat)) (cd : Option Image) (w h : Int)
    (c : MapChannel) (hc : SlotsOk c) (hb : h.toNat * w.toNat * 4 ≤ 2 ^ 32) (k : Nat)
    (hk : k < buf.length) (j : Nat) (hj : j < c.Indices.length)
    (hslot : c.Indices.getD j 0 = k % 4) (hp : k / 4 < h.toNat * w.toNat) :
    (copyChannel buf cd w h c)[k]? =
      some (srcOrDefault (cd.map Image.data) (4 * (k / 4) + j) c.DefaultValue) :=
  copyChannel_steps_hit buf cd w h c hc hb k hk j hj hslot hp c.Indices.length (Nat.le_refl _) hj

/-! ### The loop over the table for one map -/

theorem channelBody_skip (env : Env) (textureName : String) (map : Nat) (st : MapState)
    (idx : Nat) (c : MapChannel) (h : c.MapIndex ≠ map) :
    channelBody env textureName map st idx c = some st := by
  simp [channelBody, h]

theorem channelBody_alloc (env : Env) (textureName : String) (map : Nat) (st : MapState)
    (idx : Nat) (c : MapChannel) (h : c.MapIndex = map) (hst : st.mapData = none) :
    channelBody env textureName map st idx c =
      some ⟨(sizeAt env textureName idx c).1, (sizeAt env textureName idx c).2,
        some (copyChannel
          (List.replicate (((sizeAt env textureName idx c).1 * (sizeAt env textureName idx c).2
            * ChannelIndices.Count) % 2 ^ 32).toNat none)
          (env.stbi_load (ImageName textureName c)) (sizeAt env textureName idx c).1
          (sizeAt env textureName idx c).2 c),
        st.usedSomethingOtherThanDefaults || (env.stbi_load (ImageName textureName c)).isSome⟩ := by
  simp [channelBody, h, hst, sizeAt]

theorem channelBody_reuse (env : Env) (textureName : String) (map : Nat) (st : MapState)
    (idx : Nat) (c : MapChannel) (buf : List (Option Nat)) (h : c.MapIndex = map)
    (hst : st.mapData = some buf) :
    channelBody env textureName map st idx c =
      if st.lastWidth ≠ (sizeAt env textureName idx c).1 ∨
          st.lastHeight ≠ (sizeAt env textureName idx c).2 then none
      else some ⟨(sizeAt env textureName idx c).1, (sizeAt env textureName idx c).2,
        some (copyChannel buf (env.stbi_load (ImageName textureName c))
          (sizeAt env textureName idx c).1 (sizeAt env textureName idx c).2 c),
        st.usedSomethingOtherThanDefaults || (env.stbi_load (ImageName textureName c)).isSome⟩ := by
  simp [channelBody, h, hst, sizeAt]

/-- What one visited entry does to the locals, whatever the state before. -/
theorem channelBody_visit (env : Env) (textureName : String) (map : Nat) (st st' : MapState)
    (idx : Nat) (c : MapChannel) (h : c.MapIndex = map)
    (hbody : channelBody env textureName map st idx c = some st') :
    (st'.lastWidth, st'.lastHeight) = sizeAt env textureName idx c ∧
    st'.mapData.isSome = true ∧
    st'.usedSomethingOtherThanDefaults =
      (st.usedSomethingOtherThanDefaults || (env.stbi_load (ImageName textureName c)).isSome) ∧
    (st.mapData.isSome = true →
      st.lastWidth = st'.lastWidth ∧ st.lastHeight = st'.lastHeight) := by
  cases hst : st.mapData with
  | none =>
    rw [channelBody_alloc env textureName map st idx c h hst] at hbody
    injection hbody with hbody
    subst hbody
    simp
  | some buf =>
    rw [channelBody_reuse env textureName map st idx c buf h hst] at hbody
    split_ifs at hbody with hne
    injection hbody with hbody
    subst hbody
    simp only [not_or, not_not] at hne
    simp [hne.1, hne.2]

theorem channelLoop_cons (env : Env) (textureName : String) (map idx : Nat) (c : MapChannel)
    (cs : List MapChannel) (st : MapState) :
    channelLoop env textureName map idx (c :: cs) st =
      match channelBody env textureName map st idx c with
      | none => none
      | some st' => channelLoop env textureName map (idx + 1) cs st' := rfl

theorem channelLoop_basic (env : Env) (textureName : String) (map : Nat) :
    ∀ (cs : List MapChannel) (idx : Nat) (st st' : MapState),
      channelLoop env textureName map idx cs st = some st' →
      (st.mapData.isSome = true →
        st'.lastWidth = st.lastWidth ∧ st'.lastHeight = st.lastHeight) ∧
      (∀ (j : Nat) (c : MapChannel), cs[j]? = some c → c.MapIndex = map →
        sizeAt env textureName (idx + j) c = (st'.lastWidth, st'.lastHeight)) ∧
      st'.usedSomethingOtherThanDefaults = (st.usedSomethingOtherThanDefaults ||
        cs.any (fun c => decide (c.MapIndex = map) &&
          (env.stbi_load (ImageName textureName c)).isSome)) ∧
      st'.mapData.isSome = (st.mapData.isSome ||
        cs.any (fun c => decide (c.MapIndex = map))) := by
  intro cs
  induction cs with
  | nil =>
    intro idx st st' h
    simp only [channelLoop, Option.some.injEq] at h
    subst h
    simp
  | cons c cs ih =>
    intro idx st st' h
    rw [channelLoop_cons] at h
    cases hb : channelBody env textureName map st idx c with
    | none => rw [hb] at h; simp at h
    | some st1 =>
      rw [hb] at h
      simp only at h
      obtain ⟨ih1, ih2, ih3, ih4⟩ := ih (idx + 1) st1 st' h
      by_cases hm : c.MapIndex = map
      · obtain ⟨v1, v2, v3, v4⟩ := channelBody_visit env textureName map st st1 idx c hm hb
        obtain ⟨e1, e2⟩ := ih1 v2
        refine ⟨?_, ?_, ?_, ?_⟩
        · intro hs
          obtain ⟨f1, f2⟩ := v4 hs
          exact ⟨by rw [e1, f1], by rw [e2, f2]⟩
        · intro j d hj hd
          cases j with
          | zero =>
            simp only [List.getElem?_cons_zero, Option.some.injEq] at hj
            subst hj
            rw [Nat.add_zero, ← v1, e1, e2]
          | succ j =>
            simp only [List.getElem?_cons_succ] at hj
            have := ih2 j d hj hd
            rw [show idx + (j + 1) = idx + 1 + j by omega]
            exact this
        · rw [ih3, v3]
          simp [hm, Bool.or_assoc]
        · rw [ih4, v2]
          simp [hm]
      · rw [channelBody_skip env textureName map st idx c hm] at hb
        injection hb with hb
        subst hb
        refine ⟨ih1, ?_, ?_, ?_⟩
        · intro j d hj hd
          cases j with
          | zero =>
            simp only [List.getElem?_cons_zero, Option.some.injEq] at hj
            subst hj
            exact absurd hd hm
          | succ j =>
            simp only [List.getElem?_cons_succ] at hj
            have := ih2 j d hj hd
            rw [show idx + (j + 1) = idx + 1 + j by omega]
            exact this
        · rw [ih3]; simp [hm]
        · rw [ih4]; simp [hm]

/-! ### The raster built for one map -/

theorem channelLoop_length (env : Env) (textureName : String) (map : Nat) :
    ∀ (cs : List MapChannel) (idx : Nat) (st st' : MapState) (buf0 : List (Option Nat)),
      st.mapData = some buf0 →
      channelLoop env textureName map idx cs st = some st' →
      ∃ buf', st'.mapData = some buf' ∧ buf'.length = buf0.length := by
  intro cs
  induction cs with
  | nil =>
    intro idx st st' buf0 hst h
    simp only [channelLoop, Option.some.injEq] at h
    subst h
    exact ⟨buf0, hst, rfl⟩
  | cons c cs ih =>
    intro idx st st' buf0 hst h
    rw [channelLoop_cons] at h
    by_cases hm : c.MapIndex = map
    · rw [channelBody_reuse env textureName map st idx c buf0 hm hst] at h
      split_ifs at h with hne
      simp only at h
      obtain ⟨buf', h1, h2⟩ := ih (idx + 1) _ st' _ rfl h
      exact ⟨buf', h1, by rw [h2, copyChannel_length]⟩
    · rw [channelBody_skip env textureName map st idx c hm] at h
      exact ih (idx + 1) st st' buf0 hst h

/-- A byte that no later entry of the map targets keeps its content until
the loop over the table is over. -/
theorem channelLoop_miss (env : Env) (textureName : String) (map : Nat) (k : Nat) :
    ∀ (cs : List MapChannel) (idx : Nat) (st st' : MapState) (buf0 buf' : List (Option Nat)),
      st.mapData = some buf0 → st'.mapData = some buf' →
      channelLoop env textureName map idx cs st = some st' →
      (∀ c ∈ cs, SlotsOk c) →
      st.lastHeight.toNat * st.lastWidth.toNat * 4 ≤ 2 ^ 32 →
      k < buf0.length →
      (∀ c ∈ cs, c.MapIndex = map → k % 4 ∉ c.Indices) →
      buf'[k]? = buf0[k]? := by
  intro cs
  induction cs with
  | nil =>
    intro idx st st' buf0 buf' hst hst' h _ _ _ _
    simp only [channelLoop, Option.some.injEq] at h
    subst h
    rw [hst] at hst'
    injection hst' with hst'
    rw [hst']
  | cons c cs ih =>
    intro idx st st' buf0 buf' hst hst' h hok hb hk hmiss
    rw [channelLoop_cons] at h
    by_cases hm : c.MapIndex = map
    · rw [channelBody_reuse env textureName map st idx c buf0 hm hst] at h
      split_ifs at h with hne
      simp only at h
      simp only [not_or, not_not] at hne
      have hb1 : (sizeAt env textureName idx c).2.toNat *
          (sizeAt env textureName idx c).1.toNat * 4 ≤ 2 ^ 32 := by
        rw [← hne.1, ← hne.2]; exact hb
      rw [ih (idx + 1) _ st' _ buf' rfl hst' h
        (fun d hd => hok d (List.mem_cons_of_mem c hd)) hb1
        (by rw [copyChannel_length]; exact hk)
        (fun d hd => hmiss d (List.mem_cons_of_mem c hd))]
      exact copyChannel_miss buf0 _ _ _ c (hok c (List.mem_cons_self c cs)) hb1 k hk
        (Or.inl (hmiss c (List.mem_cons_self c cs) hm))
    · rw [channelBody_skip env textureName map st idx c hm] at h
      exact ih (idx + 1) st st' buf0 buf' hst hst' h
        (fun d hd => hok d (List.mem_cons_of_mem c hd)) hb hk
        (fun d hd => hmiss d (List.mem_cons_of_mem c hd))

/-- The content of the final raster at a target slot of a visited entry, for
a loop that starts with the buffer already allocated. -/
theorem channelLoop_hit (env : Env) (textureName : String) (map : Nat) (k : Nat) :
    ∀ (cs : List MapChannel) (idx : Nat) (st st' : MapState) (buf0 buf' : List (Option Nat)),
      st.mapData = some buf0 → st'.mapData = some buf' →
      channelLoop env textureName map idx cs st = some st' →
      SlotsDisjoint cs →
      st.lastHeight.toNat * st.lastWidth.toNat * 4 ≤ 2 ^ 32 →
      k < buf0.length →
      ∀ (j : Nat) (c : MapChannel) (t : Nat), cs[j]? = some c → c.MapIndex = map →
        t < c.Indices.length → c.Indices.getD t 0 = k % 4 →
        k / 4 < st.lastHeight.toNat * st.lastWidth.toNat →
        buf'[k]? = some (srcOrDefault ((env.stbi_load (ImageName textureName c)).map Image.data)
          (4 * (k / 4) + t) c.DefaultValue) := by
  intro cs
  induction cs with
  | nil => intro idx st st' buf0 buf' _ _ _ _ _ _ j c t hj; simp at hj
  | cons c0 cs ih =>
    intro idx st st' buf0 buf' hst hst' h hdis hb hk j c t hj hmc ht hslot hp
    have hok : ∀ d ∈ c0 :: cs, SlotsOk d := hdis.1
    have hpair := List.pairwise_cons.1 hdis.2
    have hdis' : SlotsDisjoint cs :=
      ⟨fun d hd => hok d (List.mem_cons_of_mem c0 hd), hpair.2⟩
    rw [channelLoop_cons] at h
    by_cases hm : c0.MapIndex = map
    · rw [channelBody_reuse env textureName map st idx c0 buf0 hm hst] at h
      split_ifs at h with hne
      simp only at h
      simp only [not_or, not_not] at hne
      have hb1 : (sizeAt env textureName idx c0).2.toNat *
          (sizeAt env textureName idx c0).1.toNat * 4 ≤ 2 ^ 32 := by
        rw [← hne.1, ← hne.2]; exact hb
      have hp1 : k / 4 < (sizeAt env textureName idx c0).2.toNat *
          (sizeAt env textureName idx c0).1.toNat := by
        rw [← hne.1, ← hne.2]; exact hp
      cases j with
      | zero =>
        simp only [List.getElem?_cons_zero, Option.some.injEq] at hj
        subst hj
        rw [channelLoop_miss env textureName map k cs (idx + 1) _ st' _ buf' rfl hst' h
          (fun d hd => hok d (List.mem_cons_of_mem c0 hd)) hb1
          (by rw [copyChannel_length]; exact hk)
          (fun d hd hdm hmem => hpair.1 d hd (hm.trans hdm.symm) (k % 4)
            (hslot ▸ getD_mem c0.Indices t ht) hmem)]
        exact copyChannel_hit buf0 _ _ _ c0 (hok c0 (List.mem_cons_self c0 cs)) hb1 k hk t ht
          hslot hp1
      | succ j =>
        simp only [List.getElem?_cons_succ] at hj
        exact ih (idx + 1) _ st' _ buf' rfl hst' h hdis' hb1
          (by rw [copyChannel_length]; exact hk) j c t hj hmc ht hslot hp1
    · rw [channelBody_skip env textureName map st idx c0 hm] at h
      cases j with
      | zero =>
        simp only [List.getElem?_cons_zero, Option.some.injEq] at hj
        subst hj
        exact absurd hmc hm
      | succ j =>
        simp only [List.getElem?_cons_succ] at hj
        exact ih (idx + 1) st st' buf0 buf' hst hst' h hdis' hb hk j c t hj hmc ht hslot hp

/-- The raster at the end of the loop over the table, started without a
buffer: its length is the allocation size for the final `lastWidth` and
`lastHeight`, and each target slot of each entry of the map holds, at every
pixel, the entry's source slot or its default. -/
theorem channelLoop_fresh (env : Env) (textureName : String) (map : Nat) :
    ∀ (cs : List MapChannel) (idx : Nat) (st st' : MapState) (buf' : List (Option Nat)),
      st.mapData = none → st'.mapData = some buf' →
      channelLoop env textureName map idx cs st = some st' →
      SlotsDisjoint cs →
      st'.lastHeight.toNat * st'.lastWidth.toNat * 4 ≤ 2 ^ 32 →
      buf'.length = ((st'.lastWidth * st'.lastHeight * ChannelIndices.Count) % 2 ^ 32).toNat ∧
      ∀ (k j : Nat) (c : MapChannel) (t : Nat), k < buf'.length → cs[j]? = some c →
        c.MapIndex = map → t < c.Indices.length → c.Indices.getD t 0 = k % 4 →
        k / 4 < st'.lastHeight.toNat * st'.lastWidth.toNat →
        buf'[k]? = some (srcOrDefault ((env.stbi_load (ImageName textureName c)).map Image.data)
          (4 * (k / 4) + t) c.DefaultValue) := by
  intro cs
  induction cs with
  | nil =>
    intro idx st st' buf' hst hst' h
    simp only [channelLoop, Option.some.injEq] at h
    subst h
    rw [hst] at hst'
    simp at hst'
  | cons c0 cs ih =>
    intro idx st st' buf' hst hst' h hdis hb
    have hok : ∀ d ∈ c0 :: cs, SlotsOk d := hdis.1
    have hpair := List.pairwise_cons.1 hdis.2
    have hdis' : SlotsDisjoint cs :=
      ⟨fun d hd => hok d (List.mem_cons_of_mem c0 hd), hpair.2⟩
    rw [channelLoop_cons] at h
    by_cases hm : c0.MapIndex = map
    · rw [channelBody_alloc env textureName map st idx c0 hm hst] at h
      simp only at h
      obtain ⟨hlast, -, -, -⟩ := channelLoop_basic env textureName map cs (idx + 1) _ st' h
      obtain ⟨hw, hh⟩ := hlast rfl
      simp only at hw hh
      obtain ⟨buf1, hbuf1, hlen1⟩ := channelLoop_length env textureName map cs (idx + 1) _ st' _
        rfl h
      rw [hst'] at hbuf1
      injection hbuf1 with hbuf1
      subst hbuf1
      rw [copyChannel_length, List.length_replicate] at hlen1
      have hb1 : (sizeAt env textureName idx c0).2.toNat *
          (sizeAt env textureName idx c0).1.toNat * 4 ≤ 2 ^ 32 := by
        rw [← hw, ← hh]; exact hb
      refine ⟨by rw [hlen1, hw, hh], ?_⟩
      intro k j c t hk hj hmc ht hslot hp
      have hp1 : k / 4 < (sizeAt env textureName idx c0).2.toNat *
          (sizeAt env textureName idx c0).1.toNat := by
        rw [← hw, ← hh]; exact hp
      have hk0 : k < (copyChannel
          (List.replicate (((sizeAt env textureName idx c0).1 * (sizeAt env textureName idx c0).2
            * ChannelIndices.Count) % 2 ^ 32).toNat none)
          (env.stbi_load (ImageName textureName c0)) (sizeAt env textureName idx c0).1
          (sizeAt env textureName idx c0).2 c0).length := by
        rw [copyChannel_length, List.length_replicate, ← hlen1]; exact hk
      cases j with
      | zero =>
        simp only [List.getElem?_cons_zero, Option.some.injEq] at hj
        subst hj
        rw [channelLoop_miss env textureName map k cs (idx + 1) _ st' _ buf' rfl hst' h
          (fun d hd => hok d (List.mem_cons_of_mem c0 hd)) hb1 hk0
          (fun d hd hdm hmem => hpair.1 d hd (hm.trans hdm.symm) (k % 4)
            (hslot ▸ getD_mem c0.Indices t ht) hmem)]
        exact copyChannel_hit _ _ _ _ c0 (hok c0 (List.mem_cons_self c0 cs)) hb1 k
          (by rw [copyChannel_length] at hk0; exact hk0) t ht hslot hp1
      | succ j =>
        simp only [List.getElem?_cons_succ] at hj
        exact channelLoop_hit env textureName map k cs (idx + 1) _ st' _ buf' rfl hst' h hdis'
          hb1 hk0 j c t hj hmc ht hslot hp1
    · rw [channelBody_skip env textureName map st idx c0 hm] at h
      obtain ⟨hl, hcontent⟩ := ih (idx + 1) st st' buf' hst hst' h hdis' hb
      refine ⟨hl, ?_⟩
      intro k j c t hk hj hmc ht hslot hp
      cases j with
      | zero =>
        simp only [List.getElem?_cons_zero, Option.some.injEq] at hj
        subst hj
        exact absurd hmc hm
      | succ j =>
        simp only [List.getElem?_cons_succ] at hj
        exact hcontent k j c t hk hj hmc ht hslot hp

/-! ### The loop over the maps -/

theorem mapLoop_cons_cases (env : Env) (textureName : String) (reg : List MapChannel) (m : Nat)
    (rest : List Nat) (wm : Nat → Bool) (ws : List PngWrite) :
    (channelLoop env textureName m 0 reg MapState.init = none ∧
      mapLoop env textureName reg (m :: rest) wm ws = ⟨false, wm, ws⟩) ∨
    (∃ st, channelLoop env textureName m 0 reg MapState.init = some st ∧
      (st.mapData = none ∨ st.usedSomethingOtherThanDefaults = false) ∧
      mapLoop env textureName reg (m :: rest) wm ws = mapLoop env textureName reg rest wm ws) ∨
    (∃ st buf, Encodes env textureName reg m st buf ∧
      (pngWriteOf env textureName m st buf).ok = false ∧
      mapLoop env textureName reg (m :: rest) wm ws =
        ⟨false, Function.update wm m true, ws ++ [pngWriteOf env textureName m st buf]⟩) ∨
    (∃ st buf, Encodes env textureName reg m st buf ∧
      (pngWriteOf env textureName m st buf).ok = true ∧
      mapLoop env textureName reg (m :: rest) wm ws =
        mapLoop env textureName reg rest (Function.update wm m true)
          (ws ++ [pngWriteOf env textureName m st buf])) := by
  rw [mapLoop]
  cases hcl : channelLoop env textureName m 0 reg MapState.init with
  | none => exact Or.inl ⟨rfl, rfl⟩
  | some st =>
    right
    cases hmd : st.mapData with
    | none => exact Or.inl ⟨st, rfl, Or.inl hmd, by simp [hmd]⟩
    | some buf =>
      by_cases hu : st.usedSomethingOtherThanDefaults = false
      · exact Or.inl ⟨st, rfl, Or.inr hu, by simp [hmd, hu]⟩
      · right
        have hu' : st.usedSomethingOtherThanDefaults = true := by simpa using hu
        by_cases hok : (pngWriteOf env textureName m st buf).ok = false
        · refine Or.inl ⟨st, buf, ⟨hcl, hmd, hu'⟩, hok, ?_⟩
          simp only [pngWriteOf] at hok
          simp [hmd, hu', hok, pngWriteOf]
        · have hok' : (pngWriteOf env textureName m st buf).ok = true := by simpa using hok
          refine Or.inr ⟨st, buf, ⟨hcl, hmd, hu'⟩, hok', ?_⟩
          simp only [pngWriteOf] at hok'
          simp [hmd, hu', hok', pngWriteOf]

/-- Every call of the encoder in the result is one the loop was given or the
call made for a map whose raster reached the encoder. -/
theorem mapLoop_writes (env : Env) (textureName : String) (reg : List MapChannel) :
    ∀ (maps : List Nat) (wm : Nat → Bool) (ws : List PngWrite),
      ∀ w ∈ (mapLoop env textureName reg maps wm ws).pngWrites,
        w ∈ ws ∨ (w.map ∈ maps ∧ ∃ st buf, Encodes env textureName reg w.map st buf ∧
          w = pngWriteOf env textureName w.map st buf) := by
  intro maps
  induction maps with
  | nil => intro wm ws w hw; exact Or.inl (by simpa [mapLoop] using hw)
  | cons m rest ih =>
    intro wm ws w hw
    rcases mapLoop_cons_cases env textureName reg m rest wm ws with
      ⟨-, e⟩ | ⟨st, -, -, e⟩ | ⟨st, buf, henc, -, e⟩ | ⟨st, buf, henc, -, e⟩
    · rw [e] at hw; exact Or.inl hw
    · rw [e] at hw
      rcases ih wm ws w hw with h | ⟨h1, h2⟩
      · exact Or.inl h
      · exact Or.inr ⟨List.mem_cons_of_mem m h1, h2⟩
    · rw [e] at hw
      rcases List.mem_append.1 hw with h | h
      · exact Or.inl h
      · have hw' : w = pngWriteOf env textureName m st buf := by simpa using h
        have hmap : w.map = m := by rw [hw']; rfl
        exact Or.inr ⟨by rw [hmap]; exact List.mem_cons_self m rest, st, buf,
          by rw [hmap]; exact henc, by rw [hmap]; exact hw'⟩
    · rw [e] at hw
      rcases ih _ _ w hw with h | ⟨h1, h2⟩
      · rcases List.mem_append.1 h with h | h
        · exact Or.inl h
        · have hw' : w = pngWriteOf env textureName m st buf := by simpa using h
          have hmap : w.map = m := by rw [hw']; rfl
          exact Or.inr ⟨by rw [hmap]; exact List.mem_cons_self m rest, st, buf,
            by rw [hmap]; exact henc, by rw [hmap]; exact hw'⟩
      · exact Or.inr ⟨List.mem_cons_of_mem m h1, h2⟩

theorem mapLoop_keeps (env : Env) (textureName : String) (reg : List MapChannel) :
    ∀ (maps : List Nat) (wm : Nat → Bool) (ws : List PngWrite),
      (∀ w ∈ ws, w ∈ (mapLoop env textureName reg maps wm ws).pngWrites) ∧
      (∀ m, wm m = true → (mapLoop env textureName reg maps wm ws).writtenMaps m = true) := by
  intro maps
  induction maps with
  | nil => intro wm ws; exact ⟨fun w hw => by simpa [mapLoop] using hw,
      fun m hm => by simpa [mapLoop] using hm⟩
  | cons m rest ih =>
    intro wm ws
    have hup : ∀ m', wm m' = true → Function.update wm m true m' = true := by
      intro m' hm'
      by_cases h : m' = m
      · subst h; simp
      · simp [Function.update, h, hm']
    rcases mapLoop_cons_cases env textureName reg m rest wm ws with
      ⟨-, e⟩ | ⟨st, -, -, e⟩ | ⟨st, buf, -, -, e⟩ | ⟨st, buf, -, -, e⟩
    · rw [e]; exact ⟨fun w hw => hw, fun m' hm' => hm'⟩
    · rw [e]; exact ih wm ws
    · rw [e]; exact ⟨fun w hw => List.mem_append_left _ hw, hup⟩
    · rw [e]
      obtain ⟨h1, h2⟩ := ih (Function.update wm m true)
        (ws ++ [pngWriteOf env textureName m st buf])
      exact ⟨fun w hw => h1 w (List.mem_append_left _ hw), fun m' hm' => h2 m' (hup m' hm')⟩

/-- A bit of `writtenMaps` is set only for a map whose raster reached the
encoder. -/
theorem mapLoop_bit_origin (env : Env) (textureName : String) (reg : List MapChannel) :
    ∀ (maps : List Nat) (wm : Nat → Bool) (ws : List PngWrite) (m : Nat),
      (mapLoop env textureName reg maps wm ws).writtenMaps m = true →
      wm m = true ∨ (m ∈ maps ∧ ∃ st buf, Encodes env textureName reg m st buf) := by
  intro maps
  induction maps with
  | nil => intro wm ws m h; exact Or.inl (by simpa [mapLoop] using h)
  | cons m0 rest ih =>
    intro wm ws m h
    have hup : Function.update wm m0 true m = true → wm m = true ∨ m = m0 := by
      intro hm
      by_cases hmm : m = m0
      · exact Or.inr hmm
      · left; simpa [Function.update, hmm] using hm
    rcases mapLoop_cons_cases env textureName reg m0 rest wm ws with
      ⟨-, e⟩ | ⟨st, -, -, e⟩ | ⟨st, buf, henc, -, e⟩ | ⟨st, buf, henc, -, e⟩
    · rw [e] at h; exact Or.inl h
    · rw [e] at h
      rcases ih wm ws m h with h1 | ⟨h1, h2⟩
      · exact Or.inl h1
      · exact Or.inr ⟨List.mem_cons_of_mem m0 h1, h2⟩
    · rw [e] at h
      rcases hup h with h1 | h1
      · exact Or.inl h1
      · subst h1; exact Or.inr ⟨List.mem_cons_self m rest, st, buf, henc⟩
    · rw [e] at h
      rcases ih _ _ m h with h1 | ⟨h1, h2⟩
      · rcases hup h1 with h3 | h3
        · exact Or.inl h3
        · subst h3; exact Or.inr ⟨List.mem_cons_self m rest, st, buf, henc⟩
      · exact Or.inr ⟨List.mem_cons_of_mem m0 h1, h2⟩

/-- When the loop over the maps runs to its end, the loop over the table
succeeded for every map, every raster that reached the encoder was encoded
with success and has its bit set, and no encoder call made by the loop
failed. -/
theorem mapLoop_completed (env : Env) (textureName : String) (reg : List MapChannel) :
    ∀ (maps : List Nat) (wm : Nat → Bool) (ws : List PngWrite),
      (mapLoop env textureName reg maps wm ws).completed = true →
      (∀ m ∈ maps, ∃ st, channelLoop env textureName m 0 reg MapState.init = some st ∧
        ∀ buf, st.mapData = some buf → st.usedSomethingOtherThanDefaults = true →
          (mapLoop env textureName reg maps wm ws).writtenMaps m = true ∧
          pngWriteOf env textureName m st buf ∈
            (mapLoop env textureName reg maps wm ws).pngWrites ∧
          (pngWriteOf env textureName m st buf).ok = true) ∧
      (∀ w ∈ (mapLoop env textureName reg maps wm ws).pngWrites, w ∈ ws ∨ w.ok = true) := by
  intro maps
  induction maps with
  | nil =>
    intro wm ws _
    exact ⟨fun m hm => by simp at hm, fun w hw => Or.inl (by simpa [mapLoop] using hw)⟩
  | cons m0 rest ih =>
    intro wm ws hc
    rcases mapLoop_cons_cases env textureName reg m0 rest wm ws with
      ⟨-, e⟩ | ⟨st, hcl, hskip, e⟩ | ⟨st, buf, henc, -, e⟩ | ⟨st, buf, henc, hok, e⟩
    · rw [e] at hc; simp at hc
    · rw [e] at hc ⊢
      obtain ⟨h1, h2⟩ := ih wm ws hc
      refine ⟨?_, h2⟩
      intro m hm
      rcases List.mem_cons.1 hm with h | h
      · subst h
        refine ⟨st, hcl, ?_⟩
        intro buf hbuf hu
        rcases hskip with h' | h'
        · rw [h'] at hbuf; simp at hbuf
        · rw [h'] at hu; simp at hu
      · exact h1 m h
    · rw [e] at hc; simp at hc
    · rw [e] at hc ⊢
      obtain ⟨h1, h2⟩ := ih _ _ hc
      obtain ⟨k1, k2⟩ := mapLoop_keeps env textureName reg rest (Function.update wm m0 true)
        (ws ++ [pngWriteOf env textureName m0 st buf])
      refine ⟨?_, ?_⟩
      · intro m hm
        rcases List.mem_cons.1 hm with h | h
        · subst h
          refine ⟨st, henc.1, ?_⟩
          intro buf' hbuf' _
          have hbb : buf' = buf := by
            have := henc.2.1; rw [hbuf'] at this; injection this
          subst hbb
          exact ⟨k2 m (by simp), k1 _ (by simp), hok⟩
        · exact h1 m h
      · intro w hw
        rcases h2 w hw with h | h
        · rcases List.mem_append.1 h with h' | h'
          · exact Or.inl h'
          · have hw' : w = pngWriteOf env textureName m0 st buf := by simpa using h'
            exact Or.inr (by rw [hw']; exact hok)
        · exact Or.inr h

/-- A dimension mismatch in the loop over the table for any map of the list
makes the loop over the maps return early. -/
theorem mapLoop_mismatch (env : Env) (textureName : String) (reg : List MapChannel)
    (maps : List Nat) (wm : Nat → Bool) (ws : List PngWrite) (m : Nat) (hm : m ∈ maps)
    (hnone : channelLoop env textureName m 0 reg MapState.init = none) :
    (mapLoop env textureName reg maps wm ws).completed = false := by
  cases hc : (mapLoop env textureName reg maps wm ws).completed with
  | false => rfl
  | true =>
    obtain ⟨st, hst, -⟩ := (mapLoop_completed env textureName reg maps wm ws hc).1 m hm
    rw [hnone] at hst
    simp at hst

/-! ### Runs of `OutputImage` -/

theorem OutputImage_fields (env : Env) (reg : List MapChannel) (textureName : String) :
    (OutputImage env reg textureName).registry =
      FixupAlphaState reg (DetermineAlphaState env textureName reg) ∧
    (OutputImage env reg textureName).alphaState = DetermineAlphaState env textureName reg ∧
    (OutputImage env reg textureName).ret =
      (mapLoop env textureName (FixupAlphaState reg (DetermineAlphaState env textureName reg))
        mapNumbers (fun _ => false) []).completed ∧
    (OutputImage env reg textureName).writtenMaps =
      (mapLoop env textureName (FixupAlphaState reg (DetermineAlphaState env textureName reg))
        mapNumbers (fun _ => false) []).writtenMaps ∧
    (OutputImage env reg textureName).pngWrites =
      (mapLoop env textureName (FixupAlphaState reg (DetermineAlphaState env textureName reg))
        mapNumbers (fun _ => false) []).pngWrites ∧
    (OutputImage env reg textureName).vmtWrites =
      if (OutputImage env reg textureName).ret = true then
        [(VMTName textureName, OutputVMT (OutputImage env reg textureName).alphaState textureName
          (OutputImage env reg textureName).writtenMaps)]
      else [] := by
  unfold OutputImage
  cases h : (mapLoop env textureName
      (FixupAlphaState reg (DetermineAlphaState env textureName reg))
      mapNumbers (fun _ => false) []).completed <;> simp [h]

theorem mapNumbers_eq : mapNumbers = [1, 2, 3] := by decide

theorem fixed_MapIndex (s : Maps1AlphaState) :
    ∀ c ∈ FixupAlphaState g_MapChannels s, c.MapIndex ∈ mapNumbers := by
  cases s <;> decide

theorem fixed_SlotsDisjoint (s : Maps1AlphaState) :
    SlotsDisjoint (FixupAlphaState g_MapChannels s) := by
  cases s <;> decide

theorem fixed_nonempty (s : Maps1AlphaState) :
    ∀ m ∈ mapNumbers, ∃ c ∈ FixupAlphaState g_MapChannels s, c.MapIndex = m := by
  cases s <;> decide

theorem sizeAt_of_load (env : Env) (textureName : String) (idx : Nat) (c : MapChannel)
    (img : Image) (h : env.stbi_load (ImageName textureName c) = some img) :
    sizeAt env textureName idx c = (img.width, img.height) := by
  simp [sizeAt, loadedSize, h]

/-- Two decoded entries of one map with different dimensions stop the loop
over the table. -/
theorem channelLoop_mismatch (env : Env) (textureName : String) (reg : List MapChannel)
    (i j : Nat) (ci cj : MapChannel) (imgi imgj : Image)
    (hi : reg[i]? = some ci) (hj : reg[j]? = some cj) (hmap : ci.MapIndex = cj.MapIndex)
    (hli : env.stbi_load (ImageName textureName ci) = some imgi)
    (hlj : env.stbi_load (ImageName textureName cj) = some imgj)
    (hdiff : (imgi.width, imgi.height) ≠ (imgj.width, imgj.height)) :
    channelLoop env textureName ci.MapIndex 0 reg MapState.init = none := by
  cases h : channelLoop env textureName ci.MapIndex 0 reg MapState.init with
  | none => rfl
  | some st =>
    obtain ⟨-, hsize, -, -⟩ := channelLoop_basic env textureName ci.MapIndex reg 0 _ st h
    have h1 := hsize i ci hi rfl
    have h2 := hsize j cj hj hmap.symm
    rw [sizeAt_of_load env textureName _ ci imgi hli] at h1
    rw [sizeAt_of_load env textureName _ cj imgj hlj] at h2
    exact absurd (h1.trans h2.symm) hdiff

/-- C4: when two entries assigned to the same map after the reassignment both
decode and their dimensions differ, `OutputImage` returns `false`, no call of
the encoder is made for that map, and no descriptor is written. -/
theorem OutputImage_dimension_guard (env : Env) (textureName : String) (i j : Nat)
    (ci cj : MapChannel) (imgi imgj : Image)
    (hi : (OutputImage env g_MapChannels textureName).registry[i]? = some ci)
    (hj : (OutputImage env g_MapChannels textureName).registry[j]? = some cj)
    (hmap : ci.MapIndex = cj.MapIndex)
    (hli : env.stbi_load (ImageName textureName ci) = some imgi)
    (hlj : env.stbi_load (ImageName textureName cj) = some imgj)
    (hdiff : (imgi.width, imgi.height) ≠ (imgj.width, imgj.height)) :
    (OutputImage env g_MapChannels textureName).ret = false ∧
    (∀ w ∈ (OutputImage env g_MapChannels textureName).pngWrites, w.map ≠ ci.MapIndex) ∧
    (OutputImage env g_MapChannels textureName).vmtWrites = [] := by
  obtain ⟨hreg, -, hret, -, hwr, hvmt⟩ := OutputImage_fields env g_MapChannels textureName
  rw [hreg] at hi hj
  have hnone := channelLoop_mismatch env textureName _ i j ci cj imgi imgj hi hj hmap hli hlj
    hdiff
  have hmem : ci.MapIndex ∈ mapNumbers :=
    fixed_MapIndex _ ci (List.getElem?_mem hi)
  have hfalse : (OutputImage env g_MapChannels textureName).ret = false := by
    rw [hret]
    exact mapLoop_mismatch env textureName _ mapNumbers _ _ ci.MapIndex hmem hnone
  refine ⟨hfalse, ?_, by rw [hvmt, hfalse]; rfl⟩
  intro w hw hwm
  rw [hwr] at hw
  rcases mapLoop_writes env textureName _ mapNumbers _ _ w hw with h | ⟨-, st, buf, henc, -⟩
  · simp at h
  · rw [← hwm, henc.1] at hnone
    simp at hnone

theorem mem_mapNumbers (m : Nat) : m ∈ mapNumbers ↔ Maps.Map1 ≤ m ∧ m < Maps.Count := by
  rw [mapNumbers_eq]
  simp only [List.mem_cons, List.mem_singleton, List.not_mem_nil, or_false, Maps.Map1,
    Maps.Count]
  omega

theorem channelLoop_init_flags (env : Env) (textureName : String) (reg : List MapChannel)
    (m : Nat) (st : MapState)
    (h : channelLoop env textureName m 0 reg MapState.init = some st) :
    (st.usedSomethingOtherThanDefaults = true ↔ ∃ c ∈ reg, Decodes env textureName m c) ∧
    (st.mapData.isSome = true ↔ ∃ c ∈ reg, c.MapIndex = m) := by
  obtain ⟨-, -, hused, hdata⟩ := channelLoop_basic env textureName m reg 0 _ st h
  constructor
  · rw [hused]
    simp [MapState.init, List.any_eq_true, Decodes]
  · rw [hdata]
    simp [MapState.init, List.any_eq_true]

/-- The raster of a map reaches the encoder exactly when the loop over the
table does not stop at a mismatch and one of the map's entries decodes. -/
theorem Encodes_iff (env : Env) (textureName : String) (reg : List MapChannel) (m : Nat)
    (st : MapState) (h : channelLoop env textureName m 0 reg MapState.init = some st) :
    (∃ buf, Encodes env textureName reg m st buf) ↔ ∃ c ∈ reg, Decodes env textureName m c := by
  obtain ⟨hused, hdata⟩ := channelLoop_init_flags env textureName reg m st h
  constructor
  · rintro ⟨buf, -, -, hu⟩
    exact hused.1 hu
  · intro hdec
    have ⟨c, hc, hcm, _⟩ := hdec
    have hsome : st.mapData.isSome = true := hdata.2 ⟨c, hc, hcm⟩
    obtain ⟨buf, hbuf⟩ := Option.isSome_iff_exists.1 hsome
    exact ⟨buf, h, hbuf, hused.2 hdec⟩

/-- C5: in a run of `OutputImage` that returns `true`, for each map number
from `Map1` up to `Maps::Count`, the bit of the map is set in `writtenMaps`
exactly when some entry assigned to the map after the reassignment decodes,
and exactly then the encoder was called for the map (with success); a map all
of whose entries fail to load has its bit clear and no encoder call. -/
theorem OutputImage_writtenMaps_iff (env : Env) (textureName : String)
    (hret : (OutputImage env g_MapChannels textureName).ret = true) (m : Nat)
    (hlo : Maps.Map1 ≤ m) (hhi : m < Maps.Count) :
    ((OutputImage env g_MapChannels textureName).writtenMaps m = true ↔
      ∃ c ∈ (OutputImage env g_MapChannels textureName).registry,
        Decodes env textureName m c) ∧
    ((∃ w ∈ (OutputImage env g_MapChannels textureName).pngWrites, w.map = m ∧ w.ok = true) ↔
      ∃ c ∈ (OutputImage env g_MapChannels textureName).registry,
        Decodes env textureName m c) ∧
    ((∀ c ∈ (OutputImage env g_MapChannels textureName).registry, c.MapIndex = m →
        env.stbi_load (ImageName textureName c) = none) →
      (OutputImage env g_MapChannels textureName).writtenMaps m = false ∧
      ∀ w ∈ (OutputImage env g_MapChannels textureName).pngWrites, w.map ≠ m) := by
  obtain ⟨hreg, -, hr, hwm, hwr, -⟩ := OutputImage_fields env g_MapChannels textureName
  rw [hr] at hret
  rw [hreg, hwm, hwr]
  have hm : m ∈ mapNumbers := (mem_mapNumbers m).2 ⟨hlo, hhi⟩
  obtain ⟨hall, -⟩ := mapLoop_completed env textureName _ mapNumbers _ _ hret
  obtain ⟨st, hst, hdone⟩ := hall m hm
  have henc := Encodes_iff env textureName _ m st hst
  have hbit : (mapLoop env textureName
      (FixupAlphaState g_MapChannels (DetermineAlphaState env textureName g_MapChannels))
      mapNumbers (fun _ => false) []).writtenMaps m = true ↔
      ∃ c ∈ FixupAlphaState g_MapChannels (DetermineAlphaState env textureName g_MapChannels),
        Decodes env textureName m c := by
    constructor
    · intro hb
      rcases mapLoop_bit_origin env textureName _ mapNumbers _ _ m hb with h | ⟨-, st', buf, he⟩
      · simp at h
      · have : st' = st := by
          have := he.1; rw [hst] at this; injection this with this; exact this.symm
        subst this
        exact henc.1 ⟨buf, he⟩
    · intro hd
      obtain ⟨buf, he⟩ := henc.2 hd
      exact (hdone buf he.2.1 he.2.2).1
  have hwrite : (∃ w ∈ (mapLoop env textureName
      (FixupAlphaState g_MapChannels (DetermineAlphaState env textureName g_MapChannels))
      mapNumbers (fun _ => false) []).pngWrites, w.map = m ∧ w.ok = true) ↔
      ∃ c ∈ FixupAlphaState g_MapChannels (DetermineAlphaState env textureName g_MapChannels),
        Decodes env textureName m c := by
    constructor
    · rintro ⟨w, hw, hwmap, -⟩
      rcases mapLoop_writes env textureName _ mapNumbers _ _ w hw with h | ⟨-, st', buf, he, -⟩
      · simp at h
      · rw [hwmap] at he
        have : st' = st := by
          have := he.1; rw [hst] at this; injection this with this; exact this.symm
        subst this
        exact henc.1 ⟨buf, he⟩
    · intro hd
      obtain ⟨buf, he⟩ := henc.2 hd
      obtain ⟨-, h2, h3⟩ := hdone buf he.2.1 he.2.2
      exact ⟨_, h2, rfl, h3⟩
  refine ⟨hbit, hwrite, ?_⟩
  intro hnone
  have hno : ¬ ∃ c ∈ FixupAlphaState g_MapChannels
      (DetermineAlphaState env textureName g_MapChannels), Decodes env textureName m c := by
    rintro ⟨c, hc, hcm, hsome⟩
    rw [hnone c hc hcm] at hsome
    simp at hsome
  constructor
  · cases hb : (mapLoop env textureName
      (FixupAlphaState g_MapChannels (DetermineAlphaState env textureName g_MapChannels))
      mapNumbers (fun _ => false) []).writtenMaps m with
    | false => rfl
    | true => exact absurd (hbit.1 hb) hno
  · intro w hw hwmap
    rcases mapLoop_writes env textureName _ mapNumbers _ _ w hw with h | ⟨-, st', buf, he, -⟩
    · simp at h
    · rw [hwmap] at he
      have : st' = st := by
        have := he.1; rw [hst] at this; injection this with this; exact this.symm
      subst this
      exact hno (henc.1 ⟨buf, he⟩)

/-- The loop over the maps returns early only at a dimension mismatch or at a
failed call of the encoder. -/
theorem mapLoop_abort_cause (env : Env) (textureName : String) (reg : List MapChannel) :
    ∀ (maps : List Nat) (wm : Nat → Bool) (ws : List PngWrite),
      (mapLoop env textureName reg maps wm ws).completed = false →
      (∃ m ∈ maps, channelLoop env textureName m 0 reg MapState.init = none) ∨
      (∃ w ∈ (mapLoop env textureName reg maps wm ws).pngWrites, w.ok = false) := by
  intro maps
  induction maps with
  | nil => intro wm ws h; simp [mapLoop] at h
  | cons m0 rest ih =>
    intro wm ws h
    rcases mapLoop_cons_cases env textureName reg m0 rest wm ws with
      ⟨hn, -⟩ | ⟨st, -, -, e⟩ | ⟨st, buf, -, hok, e⟩ | ⟨st, buf, -, -, e⟩
    · exact Or.inl ⟨m0, List.mem_cons_self m0 rest, hn⟩
    · rw [e] at h ⊢
      rcases ih wm ws h with ⟨m, hm, hn⟩ | h'
      · exact Or.inl ⟨m, List.mem_cons_of_mem m0 hm, hn⟩
      · exact Or.inr h'
    · rw [e]
      exact Or.inr ⟨_, List.mem_append_right _ (List.mem_singleton_self _), hok⟩
    · rw [e] at h ⊢
      rcases ih _ _ h with ⟨m, hm, hn⟩ | h'
      · exact Or.inl ⟨m, List.mem_cons_of_mem m0 hm, hn⟩
      · exact Or.inr h'

/-- C8: `OutputImage` writes the descriptor exactly once, with the text of
`OutputVMT` for the resolved alpha state and `writtenMaps`, when it returns
`true`, and not at all when it returns `false`; it returns `false` whenever
the dimension check fails for a map or a call of the encoder fails, and only
then. -/
theorem OutputImage_descriptor (env : Env) (textureName : String) :
    (((OutputImage env g_MapChannels textureName).ret = true ∧
        (OutputImage env g_MapChannels textureName).vmtWrites =
          [(VMTName textureName,
            OutputVMT (OutputImage env g_MapChannels textureName).alphaState textureName
              (OutputImage env g_MapChannels textureName).writtenMaps)]) ∨
      ((OutputImage env g_MapChannels textureName).ret = false ∧
        (OutputImage env g_MapChannels textureName).vmtWrites = [])) ∧
    ((OutputImage env g_MapChannels textureName).ret = false ↔
      ((∃ m ∈ mapNumbers, channelLoop env textureName m 0
          (OutputImage env g_MapChannels textureName).registry MapState.init = none) ∨
        ∃ w ∈ (OutputImage env g_MapChannels textureName).pngWrites, w.ok = false)) := by
  obtain ⟨hreg, -, hr, -, hwr, hvmt⟩ := OutputImage_fields env g_MapChannels textureName
  constructor
  · cases h : (OutputImage env g_MapChannels textureName).ret with
    | true => left; rw [hvmt, h]; simp
    | false => right; rw [hvmt, h]; simp
  · rw [hreg, hwr, hr]
    constructor
    · exact mapLoop_abort_cause env textureName _ mapNumbers _ _
    · rintro (⟨m, hm, hn⟩ | ⟨w, hw, hok⟩)
      · exact mapLoop_mismatch env textureName _ mapNumbers _ _ m hm hn
      · cases hc : (mapLoop env textureName
          (FixupAlphaState g_MapChannels (DetermineAlphaState env textureName g_MapChannels))
          mapNumbers (fun _ => false) []).completed with
        | false => rfl
        | true =>
          rcases (mapLoop_completed env textureName _ mapNumbers _ _ hc).2 w hw with h | h
          · simp at h
          · rw [hok] at h; simp at h

/-! ### The content of an encoded raster -/

theorem alloc_size (w h : Int) (hw : 0 < w) (hh : 0 < h) (hb : w * h * 4 < 2 ^ 31) :
    ((w * h * ChannelIndices.Count) % 2 ^ 32).toNat = h.toNat * w.toNat * 4 ∧
    h.toNat * w.toNat * 4 < 2 ^ 31 ∧
    ((h.toNat * w.toNat * 4 : Nat) : Int) = w * h * 4 ∧
    ∀ p : Nat, (p : Int) < w * h ↔ p < h.toNat * w.toNat := by
  obtain ⟨W, rfl⟩ := Int.eq_ofNat_of_zero_le (le_of_lt hw)
  obtain ⟨H, rfl⟩ := Int.eq_ofNat_of_zero_le (le_of_lt hh)
  simp only [Int.toNat_ofNat, ChannelIndices.Count]
  have hnat : H * W * 4 < 2 ^ 31 := by
    have : ((W * H * 4 : Nat) : Int) < 2 ^ 31 := by push_cast; exact hb
    have h2 : W * H * 4 < 2 ^ 31 := by exact_mod_cast this
    rw [Nat.mul_comm H W]; exact h2
  have hcast : (W : Int) * (H : Int) * ((4 : Nat) : Int) = ((H * W * 4 : Nat) : Int) := by
    push_cast; ring
  refine ⟨?_, hnat, by push_cast; ring, ?_⟩
  · have h0 : (0 : Int) ≤ (W : Int) * (H : Int) * ((4 : Nat) : Int) := by positivity
    have h1 : (W : Int) * (H : Int) * ((4 : Nat) : Int) < 2 ^ 32 := by
      have : (W : Int) * (H : Int) * ((4 : Nat) : Int) = (W : Int) * (H : Int) * 4 := by
        norm_num
      rw [this]
      calc (W : Int) * (H : Int) * 4 < 2 ^ 31 := hb
        _ < 2 ^ 32 := by norm_num
    rw [Int.emod_eq_of_lt h0 h1, hcast, Int.toNat_ofNat]
  · intro p
    constructor
    · intro hp
      have : ((p : Nat) : Int) < ((H * W : Nat) : Int) := by push_cast; rw [mul_comm]; exact hp
      exact_mod_cast this
    · intro hp
      have : ((p : Nat) : Int) < ((H * W : Nat) : Int) := by exact_mod_cast hp
      push_cast at this
      rw [mul_comm]; exact this

theorem exists_getD_of_mem (l : List Nat) (s : Nat) (hs : s ∈ l) :
    ∃ t, t < l.length ∧ l.getD t 0 = s := by
  obtain ⟨t, ht, hts⟩ := List.getElem_of_mem hs
  exact ⟨t, ht, by simp [List.getD, List.getElem?_eq_getElem ht, hts]⟩

/-- The raster handed to the encoder for a map, described: its dimensions
are those of every decoded entry of the map, its length is
`width * height * 4`, and each target slot of each entry of the map holds at
every pixel the entry's source slot, or its default when the entry did not
load. -/
theorem encoded_raster (env : Env) (textureName : String)
    (s : Maps1AlphaState) (m : Nat) (st : MapState) (buf : List (Option Nat))
    (henv : ∀ c ∈ FixupAlphaState g_MapChannels s, c.MapIndex = m → ∀ img,
      env.stbi_load (ImageName textureName c) = some img → img.WellFormed)
    (henc : Encodes env textureName (FixupAlphaState g_MapChannels s) m st buf) :
    (∃ c ∈ FixupAlphaState g_MapChannels s, ∃ img, c.MapIndex = m ∧
      env.stbi_load (ImageName textureName c) = some img) ∧
    (∀ c ∈ FixupAlphaState g_MapChannels s, ∀ img, c.MapIndex = m →
      env.stbi_load (ImageName textureName c) = some img →
      st.lastWidth = img.width ∧ st.lastHeight = img.height) ∧
    0 < st.lastWidth ∧ 0 < st.lastHeight ∧ st.lastWidth * st.lastHeight * 4 < 2 ^ 31 ∧
    (buf.length : Int) = st.lastWidth * st.lastHeight * 4 ∧
    ∀ c ∈ FixupAlphaState g_MapChannels s, c.MapIndex = m →
      ∀ (t : Nat), t < c.Indices.length → ∀ (p : Nat), (p : Int) < st.lastWidth * st.lastHeight →
        buf[4 * p + c.Indices.getD t 0]? =
          some (srcOrDefault ((env.stbi_load (ImageName textureName c)).map Image.data)
            (4 * p + t) c.DefaultValue) := by
  obtain ⟨hloop, hdata, hused⟩ := henc
  obtain ⟨-, hsize, -, -⟩ := channelLoop_basic env textureName m _ 0 _ st hloop
  have hsame : ∀ c ∈ FixupAlphaState g_MapChannels s, ∀ img, c.MapIndex = m →
      env.stbi_load (ImageName textureName c) = some img →
      st.lastWidth = img.width ∧ st.lastHeight = img.height := by
    intro c hc img hcm hload
    obtain ⟨i, hi⟩ := List.mem_iff_getElem?.1 hc
    have := hsize i c hi hcm
    rw [sizeAt_of_load env textureName _ c img hload] at this
    injection this with h1 h2
    exact ⟨h1.symm, h2.symm⟩
  obtain ⟨c0, hc0, hcm0, hsome0⟩ :=
    (channelLoop_init_flags env textureName _ m st hloop).1.1 hused
  obtain ⟨img0, himg0⟩ := Option.isSome_iff_exists.1 hsome0
  obtain ⟨hw0, hh0⟩ := hsame c0 hc0 img0 hcm0 himg0
  obtain ⟨p1, p2, p3, -⟩ := henv c0 hc0 hcm0 img0 himg0
  rw [← hw0] at p1 p3
  rw [← hh0] at p2 p3
  obtain ⟨a1, a2, a3, a4⟩ := alloc_size st.lastWidth st.lastHeight p1 p2 p3
  obtain ⟨hlen, hcontent⟩ := channelLoop_fresh env textureName m _ 0 MapState.init st buf rfl
    hdata hloop (fixed_SlotsDisjoint s) (by omega)
  rw [a1] at hlen
  refine ⟨⟨c0, hc0, img0, hcm0, himg0⟩, hsame, p1, p2, p3, by rw [hlen, a3], ?_⟩
  intro c hc hcm t ht p hp
  have hp' : p < st.lastHeight.toNat * st.lastWidth.toNat := (a4 p).1 hp
  have hslot : @LT.lt Nat _ (c.Indices.getD t 0) 4 :=
    getD_lt_of_SlotsOk c ((fixed_SlotsDisjoint s).1 c hc) t ht
  obtain ⟨i, hi⟩ := List.mem_iff_getElem?.1 hc
  have hmod : @Eq Nat (c.Indices.getD t 0) ((4 * p + c.Indices.getD t 0) % 4) := by omega
  have := hcontent (4 * p + c.Indices.getD t 0) i c t (by rw [hlen]; omega) hi hcm ht
    hmod (by omega)
  rw [this]
  congr 2
  omega

/-- C6: in every run of `OutputImage` with a well-formed decoder, for every
call of the encoder and every entry assigned to that map whose source image
did not load, each target slot of the entry holds the entry's `DefaultValue`
at every pixel of the raster; the raster's dimensions are those of the
decoded entries of the map (there is one), whatever they are, and its length
is `width * height * 4`. -/
theorem OutputImage_default_substitution (env : Env) (textureName : String)
    (henv : env.WellFormed) (w : PngWrite)
    (hw : w ∈ (OutputImage env g_MapChannels textureName).pngWrites) (c : MapChannel)
    (hc : c ∈ (OutputImage env g_MapChannels textureName).registry)
    (hmap : c.MapIndex = w.map)
    (hmiss : env.stbi_load (ImageName textureName c) = none) :
    (∃ c' ∈ (OutputImage env g_MapChannels textureName).registry, ∃ img,
      c'.MapIndex = w.map ∧ env.stbi_load (ImageName textureName c') = some img ∧
      w.width = img.width ∧ w.height = img.height) ∧
    (w.data.length : Int) = w.width * w.height * 4 ∧
    ∀ s ∈ c.Indices, ∀ (p : Nat), (p : Int) < w.width * w.height →
      w.data[4 * p + s]? = some (some c.DefaultValue) := by
  obtain ⟨hreg, -, -, -, hwr, -⟩ := OutputImage_fields env g_MapChannels textureName
  rw [hreg] at hc ⊢
  rw [hwr] at hw
  rcases mapLoop_writes env textureName _ mapNumbers _ _ w hw with h | ⟨-, st, buf, henc, hweq⟩
  · simp at h
  · obtain ⟨⟨c', hc', img, hcm', hload'⟩, hsame, -, -, -, hlen, hcontent⟩ :=
      encoded_raster env textureName _ w.map st buf (fun c _ _ img h => henv _ img h) henc
    have hwidth : w.width = st.lastWidth := by rw [hweq]; rfl
    have hheight : w.height = st.lastHeight := by rw [hweq]; rfl
    have hdata : w.data = buf := by rw [hweq]; rfl
    obtain ⟨e1, e2⟩ := hsame c' hc' img hcm' hload'
    refine ⟨⟨c', hc', img, hcm', hload', by rw [hwidth, e1], by rw [hheight, e2]⟩,
      by rw [hdata, hwidth, hheight]; exact hlen, ?_⟩
    intro s hs p hp
    obtain ⟨t, ht, hts⟩ := exists_getD_of_mem c.Indices s hs
    rw [hwidth, hheight] at hp
    have := hcontent c hc hmap t ht p hp
    rw [hts, hmiss] at this
    rw [hdata, this]
    rfl

/-! ### Maps all of whose entries decode -/

/-- The loop over the table does not stop when all the sizes it reads for the
entries of the map agree. -/
theorem channelLoop_succeeds (env : Env) (textureName : String) (map : Nat) (d : Int × Int) :
    ∀ (cs : List MapChannel) (idx : Nat) (st : MapState),
      (∀ (j : Nat) (c : MapChannel), cs[j]? = some c → c.MapIndex = map →
        sizeAt env textureName (idx + j) c = d) →
      (st.mapData.isSome = true → (st.lastWidth, st.lastHeight) = d) →
      ∃ st', channelLoop env textureName map idx cs st = some st' := by
  intro cs
  induction cs with
  | nil => intro idx st _ _; exact ⟨st, rfl⟩
  | cons c cs ih =>
    intro idx st hsz hst
    rw [channelLoop_cons]
    have hrest : ∀ (j : Nat) (c' : MapChannel), cs[j]? = some c' → c'.MapIndex = map →
        sizeAt env textureName (idx + 1 + j) c' = d := by
      intro j c' hj hc'
      have := hsz (j + 1) c' (by simpa using hj) hc'
      rw [show idx + (j + 1) = idx + 1 + j by omega] at this
      exact this
    by_cases hm : c.MapIndex = map
    · have h0 : sizeAt env textureName idx c = d := by
        have := hsz 0 c (by simp) hm
        simpa using this
      cases hmd : st.mapData with
      | none =>
        rw [channelBody_alloc env textureName map st idx c hm hmd]
        exact ih (idx + 1) _ hrest (fun _ => by simp [h0])
      | some buf =>
        rw [channelBody_reuse env textureName map st idx c buf hm hmd]
        have hlast := hst (by simp [hmd])
        have hw : st.lastWidth = (sizeAt env textureName idx c).1 := by
          rw [h0, ← hlast]
        have hh : st.lastHeight = (sizeAt env textureName idx c).2 := by
          rw [h0, ← hlast]
        rw [if_neg (by simp [hw, hh])]
        exact ih (idx + 1) _ hrest (fun _ => by simp [h0])
    · rw [channelBody_skip env textureName map st idx c hm]
      exact ih (idx + 1) st hrest hst

/-- A map whose raster reaches the encoder is encoded, unless the loop over
the maps returned early at a map before it. -/
theorem mapLoop_reaches (env : Env) (textureName : String) (reg : List MapChannel) (m : Nat)
    (st : MapState) (buf : List (Option Nat)) (henc : Encodes env textureName reg m st buf)
    (post : List Nat) :
    ∀ (pre : List Nat) (wm : Nat → Bool) (ws : List PngWrite),
      pngWriteOf env textureName m st buf ∈
          (mapLoop env textureName reg (pre ++ m :: post) wm ws).pngWrites ∨
      ((mapLoop env textureName reg (pre ++ m :: post) wm ws).completed = false ∧
        ∀ w ∈ (mapLoop env textureName reg (pre ++ m :: post) wm ws).pngWrites,
          w ∈ ws ∨ w.map ∈ pre) := by
  intro pre
  induction pre with
  | nil =>
    intro wm ws
    left
    simp only [List.nil_append]
    rcases mapLoop_cons_cases env textureName reg m post wm ws with
      ⟨hn, -⟩ | ⟨st', hcl, hskip, -⟩ | ⟨st', buf', he, -, e⟩ | ⟨st', buf', he, -, e⟩
    · rw [henc.1] at hn; simp at hn
    · have : st' = st := by
        have := henc.1; rw [hcl] at this; injection this
      subst this
      rcases hskip with h | h
      · rw [henc.2.1] at h; simp at h
      · rw [henc.2.2] at h; simp at h
    · have hs : st' = st := by
        have := henc.1; rw [he.1] at this; injection this
      subst hs
      have hb : buf' = buf := by
        have := henc.2.1; rw [he.2.1] at this; injection this
      subst hb
      rw [e]
      exact List.mem_append_right _ (List.mem_singleton_self _)
    · have hs : st' = st := by
        have := henc.1; rw [he.1] at this; injection this
      subst hs
      have hb : buf' = buf := by
        have := henc.2.1; rw [he.2.1] at this; injection this
      subst hb
      rw [e]
      exact (mapLoop_keeps env textureName reg post _ _).1 _
        (List.mem_append_right _ (List.mem_singleton_self _))
  | cons a pre ih =>
    intro wm ws
    simp only [List.cons_append]
    rcases mapLoop_cons_cases env textureName reg a (pre ++ m :: post) wm ws with
      ⟨-, e⟩ | ⟨st', -, -, e⟩ | ⟨st', buf', -, -, e⟩ | ⟨st', buf', -, -, e⟩
    · rw [e]; exact Or.inr ⟨rfl, fun w hw => Or.inl hw⟩
    · rw [e]
      rcases ih wm ws with h | ⟨h1, h2⟩
      · exact Or.inl h
      · refine Or.inr ⟨h1, fun w hw => ?_⟩
        rcases h2 w hw with h | h
        · exact Or.inl h
        · exact Or.inr (List.mem_cons_of_mem a h)
    · rw [e]
      refine Or.inr ⟨rfl, fun w hw => ?_⟩
      rcases List.mem_append.1 hw with h | h
      · exact Or.inl h
      · have hw' : w = pngWriteOf env textureName a st' buf' := by simpa using h
        exact Or.inr (by rw [hw']; exact List.mem_cons_self a pre)
    · rw [e]
      rcases ih (Function.update wm a true) (ws ++ [pngWriteOf env textureName a st' buf'])
        with h | ⟨h1, h2⟩
      · exact Or.inl h
      · refine Or.inr ⟨h1, fun w hw => ?_⟩
        rcases h2 w hw with h | h
        · rcases List.mem_append.1 h with h' | h'
          · exact Or.inl h'
          · have hw' : w = pngWriteOf env textureName a st' buf' := by simpa using h'
            exact Or.inr (by rw [hw']; exact List.mem_cons_self a pre)
        · exact Or.inr (List.mem_cons_of_mem a h)

theorem mapNumbers_split (m : Nat) (hm : m ∈ mapNumbers) :
    ∃ pre post, mapNumbers = pre ++ m :: post ∧ ∀ a ∈ pre, a < m := by
  rw [mapNumbers_eq] at hm ⊢
  simp only [List.mem_cons, List.mem_singleton, List.not_mem_nil, or_false] at hm
  rcases hm with h | h | h
  · exact ⟨[], [2, 3], by rw [h]; rfl, by simp⟩
  · exact ⟨[1], [3], by rw [h]; rfl, by simp [h]⟩
  · exact ⟨[1, 2], [], by rw [h]; rfl, by simp [h]⟩

theorem ImageName_literal (textureName : String) (a : Maps1AlphaState) (n : String)
    (d : Nat) (m : Nat) (l : List Nat) :
    ImageName textureName ⟨a, n, d, m, l⟩ = textureName ++ ("_" ++ n ++ ".png") := by
  simp [ImageName, String.append_assoc]

theorem FixupAlphaState_None (reg : List MapChannel) :
    FixupAlphaState reg Maps1AlphaState.None = reg := by
  simp [FixupAlphaState]

/-- C10: for a map all of whose entries (after the reassignment) decode to
well-formed images of common dimensions `W` by `H`, the raster is handed to
the encoder unless the run returned `false` at an earlier map; every raster
handed to the encoder for the map has dimensions `W` by `H` and length
`W * H * 4`, and at every pixel the target slot number `t` of each entry holds
byte `t` of that entry's source pixel.  With the unmodified table (resolved
state `None`) map 1 is (albedo.R, albedo.G, albedo.B, alpha.R) and map 2 is
(roughness.R, normal.R, metalness.R, normal.G). -/
theorem OutputImage_packs_decoded (env : Env) (textureName : String) (m : Nat)
    (hlo : Maps.Map1 ≤ m) (hhi : m < Maps.Count) (W H : Nat) (hW : 0 < W) (hH : 0 < H)
    (hb : W * H * 4 < 2 ^ 31)
    (hdec : ∀ c ∈ (OutputImage env g_MapChannels textureName).registry, c.MapIndex = m →
      ∃ img, env.stbi_load (ImageName textureName c) = some img ∧
        img.width = W ∧ img.height = H ∧ img.data.length = W * H * 4) :
    ((∃ w ∈ (OutputImage env g_MapChannels textureName).pngWrites, w.map = m) ∨
      ((OutputImage env g_MapChannels textureName).ret = false ∧
        ∀ w ∈ (OutputImage env g_MapChannels textureName).pngWrites, w.map < m)) ∧
    (∀ w ∈ (OutputImage env g_MapChannels textureName).pngWrites, w.map = m →
      w.width = W ∧ w.height = H ∧ w.data.length = W * H * 4 ∧
      ∀ c ∈ (OutputImage env g_MapChannels textureName).registry, c.MapIndex = m →
        ∀ img, env.stbi_load (ImageName textureName c) = some img →
        ∀ (t : Nat), t < c.Indices.length → ∀ (p : Nat), p < W * H →
          (∃ b, img.data[4 * p + t]? = some b) ∧
          w.data[4 * p + c.Indices.getD t 0]? = some img.data[4 * p + t]?) ∧
    ((OutputImage env g_MapChannels textureName).alphaState = Maps1AlphaState.None →
      ∀ w ∈ (OutputImage env g_MapChannels textureName).pngWrites, w.map = m →
      ∀ (p : Nat), p < W * H →
        (m = Maps.Map1 → ∀ albedo alpha,
          env.stbi_load (textureName ++ "_albedo.png") = some albedo →
          env.stbi_load (textureName ++ "_alpha.png") = some alpha →
          w.data[4 * p + ChannelIndices.Red]? = some albedo.data[4 * p + 0]? ∧
          w.data[4 * p + ChannelIndices.Green]? = some albedo.data[4 * p + 1]? ∧
          w.data[4 * p + ChannelIndices.Blue]? = some albedo.data[4 * p + 2]? ∧
          w.data[4 * p + ChannelIndices.Alpha]? = some alpha.data[4 * p + 0]?) ∧
        (m = Maps.Map2 → ∀ roughness metalness normal,
          env.stbi_load (textureName ++ "_roughness.png") = some roughness →
          env.stbi_load (textureName ++ "_metalness.png") = some metalness →
          env.stbi_load (textureName ++ "_normal.png") = some normal →
          w.data[4 * p + ChannelIndices.Red]? = some roughness.data[4 * p + 0]? ∧
          w.data[4 * p + ChannelIndices.Green]? = some normal.data[4 * p + 0]? ∧
          w.data[4 * p + ChannelIndices.Blue]? = some metalness.data[4 * p + 0]? ∧
          w.data[4 * p + ChannelIndices.Alpha]? = some normal.data[4 * p + 1]?)) := by
  obtain ⟨hreg, halpha, hr, -, hwr, -⟩ := OutputImage_fields env g_MapChannels textureName
  have hm : m ∈ mapNumbers := (mem_mapNumbers m).2 ⟨hlo, hhi⟩
  have hbI : (W : Int) * (H : Int) * 4 < 2 ^ 31 := by exact_mod_cast hb
  have hwf : ∀ c ∈ (OutputImage env g_MapChannels textureName).registry, c.MapIndex = m →
      ∀ img, env.stbi_load (ImageName textureName c) = some img → img.WellFormed := by
    intro c hc hcm img himg
    obtain ⟨img', h1, h2, h3, h4⟩ := hdec c hc hcm
    rw [himg] at h1
    injection h1 with h1
    subst h1
    refine ⟨by rw [h2]; exact_mod_cast hW, by rw [h3]; exact_mod_cast hH,
      by rw [h2, h3]; exact hbI, ?_⟩
    rw [h2, h3, h4]; push_cast; ring
  have hcontent : ∀ w ∈ (OutputImage env g_MapChannels textureName).pngWrites, w.map = m →
      w.width = W ∧ w.height = H ∧ w.data.length = W * H * 4 ∧
      ∀ c ∈ (OutputImage env g_MapChannels textureName).registry, c.MapIndex = m →
        ∀ img, env.stbi_load (ImageName textureName c) = some img →
        ∀ (t : Nat), t < c.Indices.length → ∀ (p : Nat), p < W * H →
          (∃ b, img.data[4 * p + t]? = some b) ∧
          w.data[4 * p + c.Indices.getD t 0]? = some img.data[4 * p + t]? := by
    intro w hw hwm
    rw [hwr] at hw
    rw [hreg] at hwf hdec ⊢
    rcases mapLoop_writes env textureName _ mapNumbers _ _ w hw with h | ⟨-, st, buf, henc, hweq⟩
    · simp at h
    · rw [hwm] at henc
      obtain ⟨⟨c0, hc0, img0, hcm0, hload0⟩, hsame, -, -, -, hlen, hcont⟩ :=
        encoded_raster env textureName _ m st buf hwf henc
      have hwidth : w.width = st.lastWidth := by rw [hweq]; rfl
      have hheight : w.height = st.lastHeight := by rw [hweq]; rfl
      have hdata : w.data = buf := by rw [hweq]; rfl
      obtain ⟨e1, e2⟩ := hsame c0 hc0 img0 hcm0 hload0
      obtain ⟨img0', g1, g2, g3, -⟩ := hdec c0 hc0 hcm0
      rw [hload0] at g1
      injection g1 with g1
      subst g1
      have hlw : st.lastWidth = W := by rw [e1, g2]
      have hlh : st.lastHeight = H := by rw [e2, g3]
      rw [hlw, hlh] at hlen hcont
      have hlenN : buf.length = W * H * 4 := by
        have : (buf.length : Int) = ((W * H * 4 : Nat) : Int) := by rw [hlen]; push_cast; ring
        exact_mod_cast this
      refine ⟨by rw [hwidth, hlw], by rw [hheight, hlh], by rw [hdata, hlenN], ?_⟩
      intro c hc hcm img himg t ht p hp
      obtain ⟨img', k1, k2, k3, k4⟩ := hdec c hc hcm
      rw [himg] at k1
      injection k1 with k1
      subst k1
      have ht4 : t < 4 := by
        have := ((fixed_SlotsDisjoint _).1 c hc).2.2
        simp only [ChannelIndices.Count] at this
        omega
      have hpI : (p : Int) < (W : Int) * (H : Int) := by exact_mod_cast hp
      have := hcont c hc hcm t ht p hpI
      rw [himg] at this
      simp only [Option.map_some', srcOrDefault] at this
      refine ⟨?_, by rw [hdata, this]⟩
      have hin : 4 * p + t < img.data.length := by rw [k4]; omega
      exact ⟨img.data[4 * p + t], List.getElem?_eq_getElem hin⟩
  refine ⟨?_, hcontent, ?_⟩
  · rw [hreg] at hdec
    obtain ⟨st, hst⟩ := channelLoop_succeeds env textureName m ((W : Int), (H : Int))
      (FixupAlphaState g_MapChannels (DetermineAlphaState env textureName g_MapChannels)) 0
      MapState.init (by
        intro j c hj hcm
        obtain ⟨img, h1, h2, h3, -⟩ := hdec c (List.getElem?_mem hj) hcm
        rw [sizeAt_of_load env textureName _ c img h1, h2, h3])
      (by intro h; simp [MapState.init] at h)
    obtain ⟨c, hc, hcm⟩ := fixed_nonempty
      (DetermineAlphaState env textureName g_MapChannels) m hm
    obtain ⟨img, h1, -⟩ := hdec c hc hcm
    obtain ⟨buf, henc⟩ := (Encodes_iff env textureName _ m st hst).2
      ⟨c, hc, hcm, by rw [h1]; rfl⟩
    obtain ⟨pre, post, hsplit, hpre⟩ := mapNumbers_split m hm
    rw [hwr, hr, hsplit]
    rcases mapLoop_reaches env textureName _ m st buf henc post pre (fun _ => false) [] with
      h | ⟨h1, h2⟩
    · exact Or.inl ⟨_, h, rfl⟩
    · refine Or.inr ⟨h1, fun w hw => ?_⟩
      rcases h2 w hw with h | h
      · simp at h
      · exact hpre _ h
  · intro hnone w hw hwm p hp
    obtain ⟨-, -, -, hc⟩ := hcontent w hw hwm
    rw [hreg, ← halpha, hnone, FixupAlphaState_None] at hc
    constructor
    · intro hm1 albedo alpha hal hap
      have ha := hc ⟨.None, "albedo", 255, Maps.Map1, [0, 1, 2]⟩ (by decide) hm1.symm albedo
        (by rw [ImageName_literal]; exact hal)
      have hb := hc ⟨.None, "alpha", 255, Maps.Map1, [3]⟩ (by decide) hm1.symm alpha
        (by rw [ImageName_literal]; exact hap)
      exact ⟨(ha 0 (by decide) p hp).2, (ha 1 (by decide) p hp).2, (ha 2 (by decide) p hp).2,
        (hb 0 (by decide) p hp).2⟩
    · intro hm2 roughness metalness normal hro hme hno
      have hr := hc ⟨.None, "roughness", 242, Maps.Map2, [0]⟩ (by decide) hm2.symm roughness
        (by rw [ImageName_literal]; exact hro)
      have hmt := hc ⟨.None, "metalness", 10, Maps.Map2, [2]⟩ (by decide) hm2.symm metalness
        (by rw [ImageName_literal]; exact hme)
      have hn := hc ⟨.None, "normal", 127, Maps.Map2, [1, 3]⟩ (by decide) hm2.symm normal
        (by rw [ImageName_literal]; exact hno)
      exact ⟨(hr 0 (by decide) p hp).2, (hn 0 (by decide) p hp).2, (hmt 0 (by decide) p hp).2,
        (hn 1 (by decide) p hp).2⟩

/-! ### The descriptor text (C9) -/

theorem code_toString (state : Maps1AlphaState) :
    toString state.code = specAlphaCode state := by
  cases state <;> rfl

/-- C9: for every alpha state, texture name and bit-set, the text of
`OutputVMT` is the descriptor of the specification: the lines
`"PBRStandard"`, an opening brace, `  $maps1alpha <code>`, then one line
`  $maps<i> "<name>_maps<i>"` for each index with its bit set, in ascending
order and none for an index with its bit clear, then a closing brace. -/
theorem OutputVMT_text (state : Maps1AlphaState) (textureName : String)
    (writtenMaps : Nat → Bool) :
    OutputVMT state textureName writtenMaps = specDescriptor state textureName writtenMaps := by
  have hrange : List.range Maps.Count = [0, 1, 2, 3] := by decide
  unfold OutputVMT specDescriptor
  rw [hrange, code_toString]
  cases h0 : writtenMaps 0 <;> cases h1 : writtenMaps 1 <;> cases h2 : writtenMaps 2 <;>
    cases h3 : writtenMaps 3 <;>
    simp [List.filter, h0, h1, h2, h3, String.join, specMapLine, MapName,
      String.append_assoc] <;>
    (rw [← String.append_assoc "\"PBRStandard\"\n\x7b\n" "  $maps1alpha "]; rfl)

/-! ### Instances on concrete file systems -/

/-- C4 on Scenario C: `roughness` (entry 2) and `metalness` (entry 3) are both
assigned to map 2 and decode to 1 by 1 and 2 by 1; the run returns `false`,
nothing is encoded for map 2 and no descriptor is written. -/
theorem OutputImage_dimension_guard_witness :
    (OutputImage envScenarioC g_MapChannels "tex").registry[2]? =
      some ⟨.None, "roughness", 242, Maps.Map2, [ChannelIndices.Red]⟩ ∧
    (OutputImage envScenarioC g_MapChannels "tex").registry[3]? =
      some ⟨.None, "metalness", 10, Maps.Map2, [ChannelIndices.Blue]⟩ ∧
    ((OutputImage envScenarioC g_MapChannels "tex").ret = false ∧
      (∀ w ∈ (OutputImage envScenarioC g_MapChannels "tex").pngWrites, w.map ≠ Maps.Map2) ∧
      (OutputImage envScenarioC g_MapChannels "tex").vmtWrites = []) :=
  ⟨by decide, by decide,
    OutputImage_dimension_guard envScenarioC "tex" 2 3
      ⟨.None, "roughness", 242, Maps.Map2, [ChannelIndices.Red]⟩
      ⟨.None, "metalness", 10, Maps.Map2, [ChannelIndices.Blue]⟩
      ⟨1, 1, [200, 200, 200, 255]⟩ ⟨2, 1, [9, 9, 9, 255, 8, 8, 8, 255]⟩
      (by decide) (by decide) rfl (by decide) (by decide) (by decide)⟩

/-- C5 on a run with `tex_albedo.png` only: the run returns `true`, and the
bit of map 1 is set exactly because `albedo` decodes. -/
theorem OutputImage_writtenMaps_iff_witness :
    (OutputImage envAlbedoOnly g_MapChannels "tex").ret = true ∧
    ((OutputImage envAlbedoOnly g_MapChannels "tex").writtenMaps 1 = true ↔
      ∃ c ∈ (OutputImage envAlbedoOnly g_MapChannels "tex").registry,
        Decodes envAlbedoOnly "tex" 1 c) :=
  ⟨by decide,
    (OutputImage_writtenMaps_iff envAlbedoOnly "tex" (by decide) 1 (by decide) (by decide)).1⟩

theorem envAlbedoOnly_WellFormed : envAlbedoOnly.WellFormed := by
  intro file img h
  simp only [envAlbedoOnly] at h
  split_ifs at h
  injection h with h
  subst h
  refine ⟨by decide, by decide, by decide, by decide⟩

/-- C6 on a run with `tex_albedo.png` only: the raster of map 1 is encoded,
`alpha` did not load, and its slot `Alpha` holds the default 255 at the one
pixel. -/
theorem OutputImage_default_substitution_witness :
    (⟨1, "tex_maps1.png", 1, 1, [some 10, some 20, some 30, some 255], true⟩ : PngWrite) ∈
      (OutputImage envAlbedoOnly g_MapChannels "tex").pngWrites ∧
    ∀ s ∈ [ChannelIndices.Alpha], ∀ (p : Nat), (p : Int) < 1 * 1 →
      ([some 10, some 20, some 30, some 255] : List (Option Nat))[4 * p + s]? =
        some (some 255) :=
  ⟨by decide,
    (OutputImage_default_substitution envAlbedoOnly "tex" envAlbedoOnly_WellFormed
      ⟨1, "tex_maps1.png", 1, 1, [some 10, some 20, some 30, some 255], true⟩ (by decide)
      ⟨.None, "alpha", 255, Maps.Map1, [ChannelIndices.Alpha]⟩ (by decide) rfl
      (by decide)).2.2⟩

/-- C7, evaluated: `albedo` and `alpha` decode to 2 by 2, `metalness` to
1 by 1 and `roughness` is missing, so within each map the decoded images
agree; the dimension check compares the size left in `width` and `height`
for the missing `roughness` with the 1 by 1 of `metalness`, and the run
returns `false` after encoding map 1, without a descriptor. -/
theorem OutputImage_missing_channel_aborts :
    (OutputImage envMissingRoughness g_MapChannels "tex").ret = false ∧
    (OutputImage envMissingRoughness g_MapChannels "tex").pngWrites.map
      (fun w => (w.map, w.width, w.height, w.ok)) = [(1, 2, 2, true)] ∧
    (OutputImage envMissingRoughness g_MapChannels "tex").vmtWrites = [] ∧
    channelLoop envMissingRoughness "tex" Maps.Map2 0 g_MapChannels MapState.init = none := by
  refine ⟨by decide, by decide, by decide, by decide⟩

theorem envAlbedoAlpha_registry :
    (OutputImage envAlbedoAlpha g_MapChannels "tex").registry = g_MapChannels := by
  decide

theorem envAlbedoAlpha_decodes :
    ∀ c ∈ (OutputImage envAlbedoAlpha g_MapChannels "tex").registry, c.MapIndex = Maps.Map1 →
      ∃ img, envAlbedoAlpha.stbi_load (ImageName "tex" c) = some img ∧
        img.width = ((1 : Nat) : Int) ∧ img.height = ((1 : Nat) : Int) ∧
        img.data.length = 1 * 1 * 4 := by
  rw [envAlbedoAlpha_registry]
  intro c hc hcm
  simp only [g_MapChannels, List.mem_cons, List.mem_singleton, List.not_mem_nil, or_false] at hc
  rcases hc with h | h | h | h | h | h | h | h <;> subst h <;>
    first
    | exact absurd hcm (by decide)
    | exact ⟨_, rfl, rfl, rfl, rfl⟩

/-- C10 on a run where `tex_albedo.png` and `tex_alpha.png` decode to 1 by 1
images: map 1 is encoded as a 1 by 1 raster holding albedo's R, G, B and
alpha's R. -/
theorem OutputImage_packs_decoded_witness :
    (∃ w ∈ (OutputImage envAlbedoAlpha g_MapChannels "tex").pngWrites, w.map = Maps.Map1) ∧
    ∀ w ∈ (OutputImage envAlbedoAlpha g_MapChannels "tex").pngWrites, w.map = Maps.Map1 →
      ∀ (p : Nat), p < 1 * 1 →
        w.data[4 * p + ChannelIndices.Red]? = some (some 10) ∧
        w.data[4 * p + ChannelIndices.Green]? = some (some 20) ∧
        w.data[4 * p + ChannelIndices.Blue]? = some (some 30) ∧
        w.data[4 * p + ChannelIndices.Alpha]? = some (some 77) := by
  have h := OutputImage_packs_decoded envAlbedoAlpha "tex" Maps.Map1 (by decide) (by decide)
    1 1 (by decide) (by decide) (by decide) envAlbedoAlpha_decodes
  refine ⟨?_, ?_⟩
  · rcases h.1 with h1 | ⟨h1, -⟩
    · exact h1
    · exact absurd h1 (by decide)
  · intro w hw hwm p hp
    have hp0 : p = 0 := by omega
    subst hp0
    exact (h.2.2 (by decide) w hw hwm 0 hp).1 rfl ⟨1, 1, [10, 20, 30, 40]⟩
      ⟨1, 1, [77, 78, 79, 80]⟩ rfl rfl

/-- The abort of the run on `envMissingRoughness` does not depend on the
particular stale size: whatever `width` and `height` hold after the failed
load of `roughness`, other than exactly the 1 by 1 of `metalness`, the
dimension check fails and the run returns `false`. -/
theorem missing_roughness_aborts_for_any_stale_size (u : Nat → Int × Int)
    (hu : u 2 ≠ (1, 1)) :
    (OutputImage { envMissingRoughness with uninit := u } g_MapChannels "tex").ret = false := by
  obtain ⟨-, -, hr, -, -, -⟩ :=
    OutputImage_fields { envMissingRoughness with uninit := u } g_MapChannels "tex"
  rw [hr]
  have hstate : DetermineAlphaState { envMissingRoughness with uninit := u } "tex"
      g_MapChannels = Maps1AlphaState.None := rfl
  rw [hstate, FixupAlphaState_None]
  refine mapLoop_mismatch _ "tex" g_MapChannels mapNumbers _ _ Maps.Map2 (by decide) ?_
  cases h : channelLoop { envMissingRoughness with uninit := u } "tex" Maps.Map2 0
      g_MapChannels MapState.init with
  | none => rfl
  | some st =>
    obtain ⟨-, hsize, -, -⟩ := channelLoop_basic _ "tex" Maps.Map2 g_MapChannels 0 _ st h
    have h2 := hsize 2 ⟨.None, "roughness", 242, Maps.Map2, [ChannelIndices.Red]⟩ rfl rfl
    have h3 := hsize 3 ⟨.None, "metalness", 10, Maps.Map2, [ChannelIndices.Blue]⟩ rfl rfl
    have e2 : sizeAt { envMissingRoughness with uninit := u } "tex" (0 + 2)
        ⟨.None, "roughness", 242, Maps.Map2, [ChannelIndices.Red]⟩ = u 2 := rfl
    have e3 : sizeAt { envMissingRoughness with uninit := u } "tex" (0 + 3)
        ⟨.None, "metalness", 10, Maps.Map2, [ChannelIndices.Blue]⟩ = (1, 1) := rfl
    rw [e2] at h2
    rw [e3] at h3
    exact absurd (h2.trans h3.symm) hu

/-! ### The table: tags and the owner of the alpha slot (C15, C16, C20) -/

/-- C15, evaluated with `tex_tintmask.png` as the only file: the resolver
returns `TintMask`, and two entries of the table carry that tag (`tintmask`
and `selfillum`), so the loop of `FixupAlphaState` exchanges with the alpha
entry twice, at positions 5 and 7.  The tag `Occlusion` is carried by one
entry and gives one exchange. -/
theorem TintMask_tagged_twice :
    DetermineAlphaState envTintMaskOnly "tex" g_MapChannels = Maps1AlphaState.TintMask ∧
    (g_MapChannels.filter (fun c => c.AlphaState = Maps1AlphaState.TintMask)).map
      MapChannel.Name = ["tintmask", "selfillum"] ∧
    fixupSwaps g_MapChannels Maps1AlphaState.TintMask = [5, 7] ∧
    (g_MapChannels.filter (fun c => c.AlphaState = Maps1AlphaState.Occlusion)).map
      MapChannel.Name = ["occlusion"] ∧
    fixupSwaps g_MapChannels Maps1AlphaState.Occlusion = [6] := by
  refine ⟨by decide, by decide, by decide, by decide, by decide⟩

/-- C16: in the initial table exactly one entry has `MapIndex = Map1` with
`Alpha` among its `Indices`; it is the entry at position 1, the one
`g_AlphaChannel` refers to, its name is `alpha` and its tag is `None`. -/
theorem alpha_entry_owns_alpha_slot :
    g_MapChannels.filter (fun c => c.MapIndex = Maps.Map1 ∧ ChannelIndices.Alpha ∈ c.Indices) =
      [⟨Maps1AlphaState.None, "alpha", 255, Maps.Map1, [ChannelIndices.Alpha]⟩] ∧
    g_MapChannels[g_AlphaChannelIndex]? =
      some ⟨Maps1AlphaState.None, "alpha", 255, Maps.Map1, [ChannelIndices.Alpha]⟩ ∧
    (∀ (i : Nat) (c : MapChannel), g_MapChannels[i]? = some c → c.MapIndex = Maps.Map1 →
      ChannelIndices.Alpha ∈ c.Indices →
      i = 1 ∧ c.Name = "alpha" ∧ c.AlphaState = Maps1AlphaState.None) := by
  refine ⟨by decide, by decide, ?_⟩
  intro i c hi hm ha
  have hlt : i < 8 := by
    have := (List.getElem?_eq_some.1 hi).1
    simpa [g_MapChannels] using this
  interval_cases i <;> simp [g_MapChannels] at hi <;> subst hi <;> simp_all

/-- The resolver on the initial table, as a cascade over the three files it
looks at, in table order. -/
theorem DetermineAlphaState_initial (env : Env) (textureName : String) :
    DetermineAlphaState env textureName g_MapChannels =
      if env.fileExists (textureName ++ "_tintmask.png") = true then Maps1AlphaState.TintMask
      else if env.fileExists (textureName ++ "_occlusion.png") = true then
        Maps1AlphaState.Occlusion
      else if env.fileExists (textureName ++ "_selfillum.png") = true then
        Maps1AlphaState.TintMask
      else Maps1AlphaState.None := by
  have e1 : ImageName textureName ⟨.TintMask, "tintmask", 255, Maps.Map3, [ChannelIndices.Red]⟩
      = textureName ++ "_tintmask.png" := by rw [ImageName_literal]; rfl
  have e2 : ImageName textureName ⟨.Occlusion, "occlusion", 255, Maps.Map3,
      [ChannelIndices.Green]⟩ = textureName ++ "_occlusion.png" := by
    rw [ImageName_literal]; rfl
  have e3 : ImageName textureName ⟨.TintMask, "selfillum", 255, Maps.Map3,
      [ChannelIndices.Blue]⟩ = textureName ++ "_selfillum.png" := by
    rw [ImageName_literal]; rfl
  simp only [g_MapChannels, DetermineAlphaState, e1, e2, e3]
  simp

/-- C20 as stated fails: with `tex_occlusion.png` and `tex_selfillum.png`
present and no `tex_tintmask.png`, the resolver returns `Occlusion`, not
`TintMask`: the `occlusion` entry comes before the `selfillum` entry. -/
theorem occlusion_precedes_selfillum :
    envOcclusionSelfIllum.fileExists "tex_selfillum.png" = true ∧
    envOcclusionSelfIllum.fileExists "tex_tintmask.png" = false ∧
    DetermineAlphaState envOcclusionSelfIllum "tex" g_MapChannels = Maps1AlphaState.Occlusion ∧
    DetermineAlphaState envOcclusionSelfIllum "tex" g_MapChannels ≠
      Maps1AlphaState.TintMask := by
  refine ⟨by decide, by decide, by decide, by decide⟩

theorem foldl_append_prefix (F : String → Nat → String)
    (hF : ∀ (file : String) (i : Nat), ∃ r, F file i = file ++ r) :
    ∀ (l : List Nat) (init : String), ∃ rest, l.foldl F init = init ++ rest := by
  intro l
  induction l with
  | nil => intro init; exact ⟨"", by simp⟩
  | cons i l ih =>
    intro init
    obtain ⟨r, hr⟩ := hF init i
    obtain ⟨rest, hrest⟩ := ih (F init i)
    refine ⟨r ++ rest, ?_⟩
    rw [List.foldl_cons, hrest, hr, String.append_assoc]

/-- The text of `OutputVMT` starts with the line `"PBRStandard"`, the opening
brace and the `$maps1alpha` line carrying the integer code of the state. -/
theorem OutputVMT_header (state : Maps1AlphaState) (textureName : String)
    (writtenMaps : Nat → Bool) :
    ∃ rest, OutputVMT state textureName writtenMaps =
      "\"PBRStandard\"\n\x7b\n  $maps1alpha " ++ toString state.code ++ "\n" ++ rest := by
  unfold OutputVMT
  obtain ⟨rest, hrest⟩ := foldl_append_prefix (fun file i =>
      if writtenMaps i = false then file
      else file ++ "  $maps" ++ toString i ++ " \"" ++ MapName textureName i ++ "\"\n")
    (by
      intro file i
      by_cases h : writtenMaps i = false
      · exact ⟨"", by simp [h]⟩
      · exact ⟨"  $maps" ++ toString i ++ " \"" ++ MapName textureName i ++ "\"\n", by
          simp [h, String.append_assoc]⟩)
    (List.range Maps.Count)
    ("\"PBRStandard\"" ++ "\n" ++ "\x7b" ++ "\n" ++ "  $maps1alpha " ++ toString state.code
      ++ "\n")
  refine ⟨rest ++ "\x7d" ++ "\n", ?_⟩
  simp only [] at hrest ⊢
  rw [hrest]
  simp only [String.append_assoc]
  rfl

/-- C20, amended: on the initial table the resolver is a cascade over three
files: `TintMask` when the tintmask file exists; otherwise `Occlusion` when
the occlusion file exists; otherwise `TintMask` when the selfillum file
exists; otherwise `None`.  So it returns `None`, `TintMask` or `Occlusion`,
never `SelfIllum` or `Subsurface`, its integer code is 0, 1 or 3, and every
descriptor `OutputImage` writes carries `$maps1alpha 0`, `1` or `3`.  The
tintmask file takes precedence over the occlusion file, and the occlusion
file over the selfillum file. -/
theorem DetermineAlphaState_cascade (env : Env) (textureName : String) :
    DetermineAlphaState env textureName g_MapChannels =
      (if env.fileExists (textureName ++ "_tintmask.png") = true then Maps1AlphaState.TintMask
      else if env.fileExists (textureName ++ "_occlusion.png") = true then
        Maps1AlphaState.Occlusion
      else if env.fileExists (textureName ++ "_selfillum.png") = true then
        Maps1AlphaState.TintMask
      else Maps1AlphaState.None) ∧
    (DetermineAlphaState env textureName g_MapChannels = Maps1AlphaState.None ∨
      DetermineAlphaState env textureName g_MapChannels = Maps1AlphaState.TintMask ∨
      DetermineAlphaState env textureName g_MapChannels = Maps1AlphaState.Occlusion) ∧
    DetermineAlphaState env textureName g_MapChannels ≠ Maps1AlphaState.SelfIllum ∧
    DetermineAlphaState env textureName g_MapChannels ≠ Maps1AlphaState.Subsurface ∧
    ((DetermineAlphaState env textureName g_MapChannels).code = 0 ∨
      (DetermineAlphaState env textureName g_MapChannels).code = 1 ∨
      (DetermineAlphaState env textureName g_MapChannels).code = 3) ∧
    (∀ d ∈ (OutputImage env g_MapChannels textureName).vmtWrites,
      ∃ code rest, (code = "0" ∨ code = "1" ∨ code = "3") ∧
        d.2 = "\"PBRStandard\"\n\x7b\n  $maps1alpha " ++ code ++ "\n" ++ rest) := by
  have hc := DetermineAlphaState_initial env textureName
  have hmem : DetermineAlphaState env textureName g_MapChannels = Maps1AlphaState.None ∨
      DetermineAlphaState env textureName g_MapChannels = Maps1AlphaState.TintMask ∨
      DetermineAlphaState env textureName g_MapChannels = Maps1AlphaState.Occlusion := by
    rw [hc]
    split_ifs <;> simp
  refine ⟨hc, hmem, ?_, ?_, ?_, ?_⟩
  · rcases hmem with h | h | h <;> rw [h] <;> decide
  · rcases hmem with h | h | h <;> rw [h] <;> decide
  · rcases hmem with h | h | h <;> rw [h] <;> decide
  · intro d hd
    obtain ⟨_, hal, _, _, _, hvmt⟩ := OutputImage_fields env g_MapChannels textureName
    rw [hvmt] at hd
    split_ifs at hd
    · rw [List.mem_singleton] at hd
      obtain ⟨rest, hrest⟩ := OutputVMT_header
        (OutputImage env g_MapChannels textureName).alphaState textureName
        (OutputImage env g_MapChannels textureName).writtenMaps
      refine ⟨toString (OutputImage env g_MapChannels textureName).alphaState.code, rest, ?_, ?_⟩
      · rw [hal]
        rcases hmem with h | h | h <;> rw [h] <;> decide
      · rw [hd]; exact hrest
    · simp at hd

/-! ### What the slot reassignment leaves alone (C14) -/

theorem swapWithAlpha_identity (reg : List MapChannel) (i : Nat) :
    (swapWithAlpha reg i).map (fun c => (c.AlphaState, c.Name, c.DefaultValue)) =
      reg.map (fun c => (c.AlphaState, c.Name, c.DefaultValue)) := by
  unfold swapWithAlpha
  split
  · rename_i channel alpha hi ha
    apply List.ext_getElem?
    intro n
    simp only [List.getElem?_map, List.getElem?_set, List.length_set]
    by_cases h1 : g_AlphaChannelIndex = n
    · subst h1
      simp [ha, (List.getElem?_eq_some.1 ha).1]
    · by_cases h2 : i = n
      · subst h2
        simp [h1, hi, (List.getElem?_eq_some.1 hi).1]
      · simp [h1, h2]
  · rfl

theorem fixupStep_identity (s : Maps1AlphaState) (reg : List MapChannel) (i : Nat) :
    (fixupStep s reg i).map (fun c => (c.AlphaState, c.Name, c.DefaultValue)) =
      reg.map (fun c => (c.AlphaState, c.Name, c.DefaultValue)) := by
  unfold fixupStep
  split
  · split_ifs
    · exact swapWithAlpha_identity reg i
    · rfl
  · rfl

theorem fixupSteps_identity (s : Maps1AlphaState) :
    ∀ (l : List Nat) (reg : List MapChannel),
      (l.foldl (fixupStep s) reg).map (fun c => (c.AlphaState, c.Name, c.DefaultValue)) =
        reg.map (fun c => (c.AlphaState, c.Name, c.DefaultValue)) := by
  intro l
  induction l with
  | nil => intro reg; rfl
  | cons i l ih =>
    intro reg
    rw [List.foldl_cons, ih, fixupStep_identity]

/-- C14: for every table and every alpha state, `FixupAlphaState` keeps the
`AlphaState`, `Name` and `DefaultValue` of the entry at every position, so the
number and the order of the entries are unchanged and only `MapIndex` and
`Indices` can differ; for the state `None` the table is returned as it is. -/
theorem FixupAlphaState_frame (reg : List MapChannel) (s : Maps1AlphaState) :
    (FixupAlphaState reg s).map (fun c => (c.AlphaState, c.Name, c.DefaultValue)) =
      reg.map (fun c => (c.AlphaState, c.Name, c.DefaultValue)) ∧
    (FixupAlphaState reg s).length = reg.length ∧
    (∀ (i : Nat) (c : MapChannel), reg[i]? = some c →
      ∃ c', (FixupAlphaState reg s)[i]? = some c' ∧ c'.AlphaState = c.AlphaState ∧
        c'.Name = c.Name ∧ c'.DefaultValue = c.DefaultValue) ∧
    FixupAlphaState reg Maps1AlphaState.None = reg := by
  have hmap : (FixupAlphaState reg s).map (fun c => (c.AlphaState, c.Name, c.DefaultValue)) =
      reg.map (fun c => (c.AlphaState, c.Name, c.DefaultValue)) := by
    unfold FixupAlphaState
    split_ifs
    · rfl
    · exact fixupSteps_identity s _ reg
  refine ⟨hmap, ?_, ?_, ?_⟩
  · have := congrArg List.length hmap
    simpa using this
  · intro i c hi
    have h := congrArg (fun l => l[i]?) hmap
    simp only [List.getElem?_map, hi, Option.map_some'] at h
    cases hf : (FixupAlphaState reg s)[i]? with
    | none => rw [hf] at h; simp at h
    | some c' =>
      rw [hf] at h
      simp only [Option.map_some', Option.some.injEq, Prod.mk.injEq] at h
      exact ⟨c', rfl, h.1, h.2.1, h.2.2⟩
  · simp [FixupAlphaState]

/-! ### The effect of `CopyData` on a buffer of the stated size (C17) -/

/-- C17: for `0 ≤ width`, `0 ≤ height`, `width * height * 4 < 2 ^ 31`, a
destination of `width * height * 4` bytes and slot indices below 4, `CopyData`
returns a buffer of the same length in which, for every pixel
`p < width * height`, the byte `4 * p + dstIndex` is `src[4 * p + srcIndex]`
when a source is given (a defined byte when the source has the size of the
destination) and the default value when the source is null, and every byte at
another slot is the byte of `dst`. -/
theorem CopyData_effect (dst : List (Option Nat)) (src : Option (List Nat))
    (width height : Int) (dstIndex srcIndex : ChannelIndex) (defaultValue : Nat)
    (hw : 0 ≤ width) (hh : 0 ≤ height) (hb : width * height * 4 < 2 ^ 31)
    (hlen : (dst.length : Int) = width * height * 4)
    (hdi : dstIndex < ChannelIndices.Count) (hsi : srcIndex < ChannelIndices.Count) :
    (CopyData dst src width height dstIndex srcIndex defaultValue).length = dst.length ∧
    (∀ (p : Nat), (p : Int) < width * height →
      (∀ s, src = some s →
        (CopyData dst src width height dstIndex srcIndex defaultValue)[4 * p + dstIndex]? =
          some s[4 * p + srcIndex]?) ∧
      (∀ s, src = some s → s.length = dst.length →
        ∃ b, s[4 * p + srcIndex]? = some b ∧
          (CopyData dst src width height dstIndex srcIndex defaultValue)[4 * p + dstIndex]? =
            some (some b)) ∧
      (src = none →
        (CopyData dst src width height dstIndex srcIndex defaultValue)[4 * p + dstIndex]? =
          some (some defaultValue))) ∧
    (∀ (k : Nat), k < dst.length → k % 4 ≠ dstIndex →
      (CopyData dst src width height dstIndex srcIndex defaultValue)[k]? = dst[k]?) := by
  obtain ⟨W, rfl⟩ := Int.eq_ofNat_of_zero_le hw
  obtain ⟨H, rfl⟩ := Int.eq_ofNat_of_zero_le hh
  have hdi' : @LT.lt Nat _ dstIndex 4 := hdi
  have hsi' : @LT.lt Nat _ srcIndex 4 := hsi
  have hbN : W * H * 4 < 2 ^ 31 := by exact_mod_cast hb
  have hlenN : dst.length = W * H * 4 := by exact_mod_cast hlen
  have hcomm : H * W = W * H := Nat.mul_comm H W
  have hb32 : (H : Int).toNat * (W : Int).toNat * 4 ≤ 2 ^ 32 := by
    simp only [Int.toNat_ofNat, hcomm]; omega
  have key : ∀ (p : Nat), (p : Int) < (W : Int) * H →
      (CopyData dst src W H dstIndex srcIndex defaultValue)[4 * p + dstIndex]? =
        some (srcOrDefault src (4 * p + srcIndex) defaultValue) := by
    intro p hp
    have hpN : p < W * H := by exact_mod_cast hp
    have hk : 4 * p + dstIndex < dst.length := by rw [hlenN]; omega
    have hmod : (4 * p + dstIndex) % 4 = dstIndex := by omega
    have hdiv : (4 * p + dstIndex) / 4 = p := by omega
    rw [CopyData_getElem? dst src W H dstIndex srcIndex defaultValue hdi' hsi' hb32 _ hk]
    simp only [Int.toNat_ofNat, hcomm, hmod, hdiv]
    rw [if_pos ⟨trivial, hpN⟩]
  refine ⟨CopyData_length _ _ _ _ _ _ _, ?_, ?_⟩
  · intro p hp
    have hpN : p < W * H := by exact_mod_cast hp
    refine ⟨?_, ?_, ?_⟩
    · intro s hs
      rw [key p hp, hs]; rfl
    · intro s hs hsl
      have hin : 4 * p + srcIndex < s.length := by rw [hsl, hlenN]; omega
      refine ⟨s[4 * p + srcIndex], List.getElem?_eq_getElem hin, ?_⟩
      rw [key p hp, hs]
      simp only [srcOrDefault]
      rw [List.getElem?_eq_getElem hin]
    · intro hs
      rw [key p hp, hs]; rfl
  · intro k hk hne
    rw [CopyData_getElem? dst src W H dstIndex srcIndex defaultValue hdi' hsi' hb32 k hk]
    rw [if_neg]
    intro h
    exact hne h.1

/-- C17 on a 1 by 1 buffer: the source byte of slot `Red` goes to slot
`Alpha` of the destination and the three other bytes stay. -/
theorem CopyData_effect_witness :
    (CopyData [some 1, some 2, some 3, none] (some [77, 78, 79, 80]) 1 1
        ChannelIndices.Alpha ChannelIndices.Red 255).length = 4 ∧
    (CopyData [some 1, some 2, some 3, none] (some [77, 78, 79, 80]) 1 1
        ChannelIndices.Alpha ChannelIndices.Red 255)[4 * 0 + ChannelIndices.Alpha]? =
      some (some 77) ∧
    (CopyData [some 1, some 2, some 3, none] (some [77, 78, 79, 80]) 1 1
        ChannelIndices.Alpha ChannelIndices.Red 255)[1]? = some (some 2) := by
  have h := CopyData_effect [some 1, some 2, some 3, none] (some [77, 78, 79, 80]) 1 1
    ChannelIndices.Alpha ChannelIndices.Red 255 (by decide) (by decide) (by decide)
    (by decide) (by decide) (by decide)
  refine ⟨h.1, ?_, ?_⟩
  · obtain ⟨b, hb, hres⟩ := (h.2.1 0 (by decide)).2.1 [77, 78, 79, 80] rfl rfl
    have : b = 77 := by
      have h0 : ([77, 78, 79, 80] : List Nat)[4 * 0 + ChannelIndices.Red]? = some 77 := by
        decide
      rw [h0] at hb
      exact (Option.some.inj hb).symm
    rw [hres, this]
  · exact h.2.2 1 (by decide) (by decide)

/-! ### A run without a texture name (C13) -/

/-- With a name that is not empty `Start` is the call of `OutputImage`. -/
theorem Start_nonempty (env : Env) (reg : List MapChannel) (textureName : String)
    (h : textureName ≠ "") :
    (Start env reg textureName).run = some (OutputImage env reg textureName) ∧
    (Start env reg textureName).ret = (OutputImage env reg textureName).ret ∧
    (Start env reg textureName).usage = none := by
  simp [Start, h]

/-- C13: with the empty texture name `Start` returns `true` after printing the
usage, `OutputImage` is not called (no resolver, reassignment, compositor or
descriptor writer runs), so nothing is encoded, no descriptor is written, the
table is the one passed in and the result does not depend on the file system;
`main` then exits with code 0, both when no argument is given and when the
argument is the empty string. -/
theorem Start_empty_name (env : Env) (reg : List MapChannel) :
    (Start env reg "").ret = true ∧
    (Start env reg "").run = none ∧
    (Start env reg "").usage =
      some ("You need to specify a texture name." :: g_UsageString :: reg.map MapChannel.Name) ∧
    (Start env reg "").pngWrites = [] ∧
    (Start env reg "").vmtWrites = [] ∧
    (Start env reg "").registry = reg ∧
    (∀ env' : Env, (Start env' reg "").ret = (Start env reg "").ret ∧
      (Start env' reg "").registry = (Start env reg "").registry ∧
      (Start env' reg "").pngWrites = (Start env reg "").pngWrites ∧
      (Start env' reg "").vmtWrites = (Start env reg "").vmtWrites) ∧
    (main env reg []).1 = 0 ∧
    (∀ prog : String, (main env reg [prog]).1 = 0 ∧ (main env reg [prog]).2.run = none ∧
      (main env reg [prog]).2.registry = reg) ∧
    (∀ (prog : String) (rest : List String), (main env reg (prog :: "" :: rest)).1 = 0 ∧
      (main env reg (prog :: "" :: rest)).2.run = none ∧
      (main env reg (prog :: "" :: rest)).2.registry = reg) := by
  refine ⟨rfl, rfl, rfl, rfl, rfl, rfl, fun _ => ⟨rfl, rfl, rfl, rfl⟩, rfl,
    fun _ => ⟨rfl, rfl, rfl⟩, fun prog rest => ?_⟩
  have hlen : (prog :: "" :: rest).length ≥ 2 := by simp
  have hname : (if (prog :: "" :: rest).length ≥ 2 then (prog :: "" :: rest).getD 1 ""
      else "") = "" := by
    rw [if_pos hlen]; rfl
  simp only [main, hname]
  exact ⟨rfl, rfl, rfl⟩

/-! ### The slot assignments are permuted, never duplicated (C18) -/

theorem cons_set_perm {α : Type} (x b : α) :
    ∀ (t : List α) (j : Nat), t[j]? = some b → (b :: t.set j x).Perm (x :: t) := by
  intro t
  induction t with
  | nil => intro j h; simp at h
  | cons y t ih =>
    intro j h
    cases j with
    | zero =>
      simp only [List.getElem?_cons_zero, Option.some.injEq] at h
      subst h
      exact List.Perm.swap _ _ _
    | succ j =>
      simp only [List.getElem?_cons_succ] at h
      simp only [List.set_cons_succ]
      exact ((List.Perm.swap y b _).trans ((ih j h).cons y)).trans (List.Perm.swap x y t)

theorem set_set_perm {α : Type} :
    ∀ (l : List α) (i j : Nat) (a b : α), l[i]? = some a → l[j]? = some b →
      ((l.set i b).set j a).Perm l := by
  intro l
  induction l with
  | nil => intro i j a b h; simp at h
  | cons x t ih =>
    intro i j a b hi hj
    cases i with
    | zero =>
      simp only [List.getElem?_cons_zero, Option.some.injEq] at hi
      subst hi
      cases j with
      | zero =>
        simp only [List.getElem?_cons_zero, Option.some.injEq] at hj
        subst hj
        simp
      | succ j =>
        simp only [List.getElem?_cons_succ] at hj
        simp only [List.set_cons_zero, List.set_cons_succ]
        exact cons_set_perm x b t j hj
    | succ i =>
      simp only [List.getElem?_cons_succ] at hi
      cases j with
      | zero =>
        simp only [List.getElem?_cons_zero, Option.some.injEq] at hj
        subst hj
        simp only [List.set_cons_zero, List.set_cons_succ]
        exact cons_set_perm x a t i hi
      | succ j =>
        simp only [List.getElem?_cons_succ] at hj
        simp only [List.set_cons_succ]
        exact (ih i j a b hi hj).cons x

theorem swapWithAlpha_slots_perm (reg : List MapChannel) (i : Nat) :
    ((swapWithAlpha reg i).map slotsOf).Perm (reg.map slotsOf) := by
  unfold swapWithAlpha
  split
  · rename_i channel alpha hi ha
    rw [List.map_set, List.map_set]
    exact set_set_perm (reg.map slotsOf) i g_AlphaChannelIndex (slotsOf channel) (slotsOf alpha)
      (by rw [List.getElem?_map, hi]; rfl) (by rw [List.getElem?_map, ha]; rfl)
  · exact List.Perm.refl _

theorem fixupStep_slots_perm (s : Maps1AlphaState) (reg : List MapChannel) (i : Nat) :
    ((fixupStep s reg i).map slotsOf).Perm (reg.map slotsOf) := by
  unfold fixupStep
  split
  · split_ifs
    · exact swapWithAlpha_slots_perm reg i
    · exact List.Perm.refl _
  · exact List.Perm.refl _

theorem fixupSteps_slots_perm (s : Maps1AlphaState) :
    ∀ (l : List Nat) (reg : List MapChannel),
      ((l.foldl (fixupStep s) reg).map slotsOf).Perm (reg.map slotsOf) := by
  intro l
  induction l with
  | nil => intro reg; exact List.Perm.refl _
  | cons i l ih =>
    intro reg
    rw [List.foldl_cons]
    exact (ih _).trans (fixupStep_slots_perm s reg i)

theorem FixupAlphaState_slots_perm (reg : List MapChannel) (s : Maps1AlphaState) :
    ((FixupAlphaState reg s).map slotsOf).Perm (reg.map slotsOf) := by
  unfold FixupAlphaState
  split_ifs
  · exact List.Perm.refl _
  · exact fixupSteps_slots_perm s _ reg

theorem FixupAlphaState_iterated_perm :
    ∀ (ss : List Maps1AlphaState) (reg : List MapChannel),
      ((ss.foldl FixupAlphaState reg).map slotsOf).Perm (reg.map slotsOf) := by
  intro ss
  induction ss with
  | nil => intro reg; exact List.Perm.refl _
  | cons s ss ih =>
    intro reg
    rw [List.foldl_cons]
    exact (ih _).trans (FixupAlphaState_slots_perm reg s)

theorem targets_eq (reg : List MapChannel) :
    targets reg = (reg.map slotsOf).flatMap (fun x => x.2.map (fun s => (x.1, s))) := by
  unfold targets
  induction reg with
  | nil => rfl
  | cons c t ih => simp [List.flatMap_cons, ih, slotsOf]

theorem SlotsDisjoint_iff (reg : List MapChannel) :
    SlotsDisjoint reg ↔
      (∀ x ∈ reg.map slotsOf, x.2.Nodup ∧ (∀ s ∈ x.2, s < ChannelIndices.Count) ∧
        x.2.length ≤ ChannelIndices.Count) ∧
      (reg.map slotsOf).Pairwise (fun a b => a.1 = b.1 → ∀ s ∈ a.2, s ∉ b.2) := by
  unfold SlotsDisjoint SlotsOk
  rw [List.pairwise_map]
  simp [slotsOf]

theorem SlotsDisjoint_of_perm (reg reg' : List MapChannel)
    (h : (reg'.map slotsOf).Perm (reg.map slotsOf)) (hd : SlotsDisjoint reg) :
    SlotsDisjoint reg' := by
  rw [SlotsDisjoint_iff] at hd ⊢
  refine ⟨fun x hx => hd.1 x (h.mem_iff.1 hx), ?_⟩
  refine (List.Perm.pairwise_iff ?_ h).2 hd.2
  intro a b hab hba s hs hs'
  exact hab hba.symm s hs' hs

/-- C18: after `FixupAlphaState` for any sequence of alpha states, applied to
the initial table, the (`MapIndex`, `Indices`) pairs of the entries are a
permutation of the initial ones, no (map, slot) pair is written twice (the
list of all targets has no duplicate, and the table satisfies
`SlotsDisjoint`), and exactly one entry has `Map1` with `Alpha` among its
slots.  The empty sequence gives the initial table. -/
theorem FixupAlphaState_slots_permuted (ss : List Maps1AlphaState) :
    ((ss.foldl FixupAlphaState g_MapChannels).map slotsOf).Perm (g_MapChannels.map slotsOf) ∧
    (targets (ss.foldl FixupAlphaState g_MapChannels)).Nodup ∧
    SlotsDisjoint (ss.foldl FixupAlphaState g_MapChannels) ∧
    ((ss.foldl FixupAlphaState g_MapChannels).filter
      (fun c => c.MapIndex = Maps.Map1 ∧ ChannelIndices.Alpha ∈ c.Indices)).length = 1 := by
  have hperm := FixupAlphaState_iterated_perm ss g_MapChannels
  refine ⟨hperm, ?_, ?_, ?_⟩
  · rw [targets_eq]
    refine (List.Perm.nodup_iff (List.Perm.flatMap_right _ hperm)).2 ?_
    rw [← targets_eq]
    decide
  · exact SlotsDisjoint_of_perm g_MapChannels _ hperm (by decide)
  · rw [← List.countP_eq_length_filter]
    have e : ∀ reg : List MapChannel,
        reg.countP (fun c => c.MapIndex = Maps.Map1 ∧ ChannelIndices.Alpha ∈ c.Indices) =
          (reg.map slotsOf).countP (fun x => x.1 = Maps.Map1 ∧ ChannelIndices.Alpha ∈ x.2) := by
      intro reg
      rw [List.countP_map]
      rfl
    rw [e, List.Perm.countP_eq _ hperm, ← e]
    decide

/-! ### Bytes of a raster that no entry targets (C19) -/

/-- A byte of a raster allocated during the loop over the table that no
entry of the map targets is still the byte of the fresh allocation when the
loop is over. -/
theorem channelLoop_untouched (env : Env) (textureName : String) (map : Nat) (k : Nat) :
    ∀ (cs : List MapChannel) (idx : Nat) (st st' : MapState) (buf' : List (Option Nat)),
      st.mapData = none → st'.mapData = some buf' →
      channelLoop env textureName map idx cs st = some st' →
      (∀ c ∈ cs, SlotsOk c) →
      st'.lastHeight.toNat * st'.lastWidth.toNat * 4 ≤ 2 ^ 32 →
      k < buf'.length →
      (∀ c ∈ cs, c.MapIndex = map → k % 4 ∉ c.Indices) →
      buf'[k]? = some none := by
  intro cs
  induction cs with
  | nil =>
    intro idx st st' buf' hst hst' h
    simp only [channelLoop, Option.some.injEq] at h
    subst h
    rw [hst] at hst'
    simp at hst'
  | cons c0 cs ih =>
    intro idx st st' buf' hst hst' h hok hb hk hmiss
    rw [channelLoop_cons] at h
    by_cases hm : c0.MapIndex = map
    · rw [channelBody_alloc env textureName map st idx c0 hm hst] at h
      simp only at h
      obtain ⟨hlast, -, -, -⟩ := channelLoop_basic env textureName map cs (idx + 1) _ st' h
      obtain ⟨hw, hh⟩ := hlast rfl
      simp only at hw hh
      obtain ⟨buf1, hbuf1, hlen1⟩ := channelLoop_length env textureName map cs (idx + 1) _ st' _
        rfl h
      rw [hst'] at hbuf1
      injection hbuf1 with hbuf1
      subst hbuf1
      rw [copyChannel_length, List.length_replicate] at hlen1
      have hb1 : (sizeAt env textureName idx c0).2.toNat *
          (sizeAt env textureName idx c0).1.toNat * 4 ≤ 2 ^ 32 := by
        rw [← hw, ← hh]; exact hb
      have hk1 : k < (((sizeAt env textureName idx c0).1 * (sizeAt env textureName idx c0).2
            * ChannelIndices.Count) % 2 ^ 32).toNat := by
        rw [← hlen1]; exact hk
      rw [channelLoop_miss env textureName map k cs (idx + 1) _ st' _ buf' rfl hst' h
        (fun d hd => hok d (List.mem_cons_of_mem c0 hd)) hb1
        (by rw [copyChannel_length, List.length_replicate]; exact hk1)
        (fun d hd => hmiss d (List.mem_cons_of_mem c0 hd))]
      rw [copyChannel_miss _ _ _ _ c0 (hok c0 (List.mem_cons_self c0 cs)) hb1 k
        (by rw [List.length_replicate]; exact hk1)
        (Or.inl (hmiss c0 (List.mem_cons_self c0 cs) hm))]
      rw [List.getElem?_replicate, if_pos hk1]
    · rw [channelBody_skip env textureName map st idx c0 hm] at h
      exact ih (idx + 1) st st' buf' hst hst' h
        (fun d hd => hok d (List.mem_cons_of_mem c0 hd)) hb hk
        (fun d hd => hmiss d (List.mem_cons_of_mem c0 hd))

/-- After the reassignment for any alpha state no entry of map 3 targets the
slot `Alpha`. -/
theorem fixed_map3_no_alpha (s : Maps1AlphaState) :
    ∀ c ∈ FixupAlphaState g_MapChannels s, c.MapIndex = Maps.Map3 →
      ChannelIndices.Alpha ∉ c.Indices := by
  cases s <;> decide

/-- In every run on well-formed images, every raster handed to the encoder for
map 3 has, at each pixel, a slot `Alpha` that was never stored to. -/
theorem OutputImage_map3_alpha_untouched (env : Env) (textureName : String)
    (henv : env.WellFormed) (w : PngWrite)
    (hw : w ∈ (OutputImage env g_MapChannels textureName).pngWrites)
    (hmap : w.map = Maps.Map3) (p : Nat) (hp : (p : Int) < w.width * w.height) :
    w.data[4 * p + ChannelIndices.Alpha]? = some none := by
  obtain ⟨_, _, _, _, hpw, _⟩ := OutputImage_fields env g_MapChannels textureName
  rw [hpw] at hw
  rcases mapLoop_writes env textureName _ mapNumbers (fun _ => false) [] w hw with h | h
  · simp at h
  · obtain ⟨_, st, buf, henc, hweq⟩ := h
    rw [hmap] at henc hweq
    obtain ⟨_, _, hpw', hph', hbd, hlen, _⟩ := encoded_raster env textureName
      (DetermineAlphaState env textureName g_MapChannels) Maps.Map3 st buf
      (fun c _ _ img himg => henv _ img himg) henc
    obtain ⟨hsz, hlt, hcast, hpix⟩ := alloc_size st.lastWidth st.lastHeight hpw' hph' hbd
    have hwd : w.data = buf := by rw [hweq]; rfl
    have hww : w.width = st.lastWidth := by rw [hweq]; rfl
    have hwh : w.height = st.lastHeight := by rw [hweq]; rfl
    rw [hww, hwh] at hp
    have hpN : p < st.lastHeight.toNat * st.lastWidth.toNat := (hpix p).1 hp
    have hlenN : buf.length = st.lastHeight.toNat * st.lastWidth.toNat * 4 := by
      have : (buf.length : Int) = ((st.lastHeight.toNat * st.lastWidth.toNat * 4 : Nat) : Int) := by
        rw [hlen, hcast]
      exact_mod_cast this
    rw [hwd]
    have hkmod : (4 * p + ChannelIndices.Alpha) % 4 = 3 := by
      simp only [ChannelIndices.Alpha]; omega
    refine channelLoop_untouched env textureName Maps.Map3 (4 * p + ChannelIndices.Alpha)
      _ 0 MapState.init st buf rfl henc.2.1 henc.1
      (fixed_SlotsDisjoint _).1 (by omega)
      (by rw [hlenN]; simp only [ChannelIndices.Alpha]; omega) ?_
    intro c hc hcm
    rw [hkmod]
    exact fixed_map3_no_alpha _ c hc hcm

/-- C19 as stated fails: after the reassignment for the state `Occlusion` no
entry of map 3 targets the slot `Alpha`.  In the run of Scenario B
(`tex_albedo.png`, `tex_alpha.png` and `tex_occlusion.png`, each 1 by 1) the
rasters of maps 1 and 3 are encoded, and the `Alpha` byte of the raster of
map 3 is a byte of the fresh allocation that was never stored to. -/
theorem map3_alpha_never_stored :
    (¬ ∃ c ∈ FixupAlphaState g_MapChannels Maps1AlphaState.Occlusion,
      c.MapIndex = Maps.Map3 ∧ ChannelIndices.Alpha ∈ c.Indices) ∧
    (OutputImage envScenarioB g_MapChannels "tex").alphaState = Maps1AlphaState.Occlusion ∧
    (OutputImage envScenarioB g_MapChannels "tex").ret = true ∧
    (OutputImage envScenarioB g_MapChannels "tex").pngWrites =
      [⟨1, "tex_maps1.png", 1, 1, [some 10, some 20, some 30, some 50], true⟩,
       ⟨3, "tex_maps3.png", 1, 1, [some 255, some 77, some 255, none], true⟩] := by
  refine ⟨by decide, by decide, by decide, by decide⟩

/-- After the reassignment for any alpha state, maps 1 and 2 have an entry
targeting each of the four slots, and map 3 has entries targeting `Red`,
`Green` and `Blue`. -/
theorem fixed_cover (s : Maps1AlphaState) (m slot : Nat)
    (h : (m = Maps.Map1 ∨ m = Maps.Map2) ∧ slot < ChannelIndices.Count ∨
      m = Maps.Map3 ∧ slot < ChannelIndices.Alpha) :
    ∃ c ∈ FixupAlphaState g_MapChannels s, c.MapIndex = m ∧ slot ∈ c.Indices := by
  rcases h with ⟨hm, hslot⟩ | ⟨rfl, hslot⟩
  · have hs : @LT.lt Nat _ slot 4 := hslot
    rcases hm with rfl | rfl <;> interval_cases slot <;> cases s <;> decide
  · have hs : @LT.lt Nat _ slot 3 := hslot
    interval_cases slot <;> cases s <;> decide

/-- A byte of an encoded raster at a target slot of an entry of its map is
defined: it is the default of the entry when its image did not load and a byte
of the image otherwise. -/
theorem raster_byte_defined (env : Env) (textureName : String) (henv : env.WellFormed)
    (w : PngWrite) (hw : w ∈ (OutputImage env g_MapChannels textureName).pngWrites)
    (c : MapChannel) (hc : c ∈ (OutputImage env g_MapChannels textureName).registry)
    (hmap : c.MapIndex = w.map) (slot : Nat) (hslot : slot ∈ c.Indices) (p : Nat)
    (hp : (p : Int) < w.width * w.height) :
    ∃ b, w.data[4 * p + slot]? = some (some b) ∧
      (env.stbi_load (ImageName textureName c) = none → b = c.DefaultValue) ∧
      (∀ img, env.stbi_load (ImageName textureName c) = some img → b ∈ img.data) := by
  obtain ⟨hreg, -, -, -, hwr, -⟩ := OutputImage_fields env g_MapChannels textureName
  rw [hreg] at hc
  rw [hwr] at hw
  rcases mapLoop_writes env textureName _ mapNumbers _ _ w hw with h | ⟨-, st, buf, henc, hweq⟩
  · simp at h
  · obtain ⟨-, hsame, hpw, hph, hbd, hlen, hcontent⟩ :=
      encoded_raster env textureName _ w.map st buf (fun c _ _ img h => henv _ img h) henc
    have hwidth : w.width = st.lastWidth := by rw [hweq]; rfl
    have hheight : w.height = st.lastHeight := by rw [hweq]; rfl
    have hdata : w.data = buf := by rw [hweq]; rfl
    obtain ⟨t, ht, hts⟩ := exists_getD_of_mem c.Indices slot hslot
    rw [hwidth, hheight] at hp
    have hbyte := hcontent c hc hmap t ht p hp
    rw [hts] at hbyte
    rw [hdata, hbyte]
    cases hload : env.stbi_load (ImageName textureName c) with
    | none =>
      refine ⟨c.DefaultValue, rfl, fun _ => rfl, fun img h => by simp at h⟩
    | some img =>
      obtain ⟨e1, e2⟩ := hsame c hc img hmap hload
      obtain ⟨-, -, -, hsize⟩ := henv _ img hload
      obtain ⟨-, -, hcast, hpix⟩ := alloc_size st.lastWidth st.lastHeight hpw hph hbd
      have hpN : p < st.lastHeight.toNat * st.lastWidth.toNat := (hpix p).1 hp
      have ht4 : t < 4 := by
        have := ((fixed_SlotsDisjoint _).1 c hc).2.2
        simp only [ChannelIndices.Count] at this
        omega
      have hsizeN : img.data.length = st.lastHeight.toNat * st.lastWidth.toNat * 4 := by
        have : (img.data.length : Int) =
            ((st.lastHeight.toNat * st.lastWidth.toNat * 4 : Nat) : Int) := by
          rw [hsize, hcast, e1, e2]
        exact_mod_cast this
      have hin : 4 * p + t < img.data.length := by rw [hsizeN]; omega
      refine ⟨img.data[4 * p + t], ?_, fun h => by simp at h, ?_⟩
      · simp only [Option.map_some', srcOrDefault]
        rw [List.getElem?_eq_getElem hin]
      · intro img' himg'
        injection himg' with himg'
        subst himg'
        exact List.getElem_mem hin

/-- C19, amended: in every run on well-formed images and for every raster
handed to the encoder, the raster has `width * height * 4` bytes; when it is
the raster of map 1 or map 2, each of its four slots holds at every pixel a
defined byte (a source byte or the default of the entry that targets the
slot); when it is the raster of map 3, the slots `Red`, `Green` and `Blue`
hold a defined byte at every pixel and the slot `Alpha` is never stored to:
after the reassignment for any alpha state no entry of map 3 targets it. -/
theorem OutputImage_raster_bytes (env : Env) (textureName : String) (henv : env.WellFormed)
    (w : PngWrite) (hw : w ∈ (OutputImage env g_MapChannels textureName).pngWrites) :
    (w.map = Maps.Map1 ∨ w.map = Maps.Map2 ∨ w.map = Maps.Map3) ∧
    (w.data.length : Int) = w.width * w.height * 4 ∧
    (∀ (p : Nat), (p : Int) < w.width * w.height →
      (w.map = Maps.Map1 ∨ w.map = Maps.Map2 →
        ∀ (slot : Nat), slot < ChannelIndices.Count →
          ∃ c ∈ (OutputImage env g_MapChannels textureName).registry, c.MapIndex = w.map ∧
            slot ∈ c.Indices ∧ ∃ b, w.data[4 * p + slot]? = some (some b) ∧
              (env.stbi_load (ImageName textureName c) = none → b = c.DefaultValue)) ∧
      (w.map = Maps.Map3 →
        (∀ (slot : Nat), slot < ChannelIndices.Alpha →
          ∃ c ∈ (OutputImage env g_MapChannels textureName).registry, c.MapIndex = w.map ∧
            slot ∈ c.Indices ∧ ∃ b, w.data[4 * p + slot]? = some (some b) ∧
              (env.stbi_load (ImageName textureName c) = none → b = c.DefaultValue)) ∧
        w.data[4 * p + ChannelIndices.Alpha]? = some none)) ∧
    (∀ (s : Maps1AlphaState), ∀ c ∈ FixupAlphaState g_MapChannels s,
      c.MapIndex = Maps.Map3 → ChannelIndices.Alpha ∉ c.Indices) := by
  obtain ⟨hreg, -, -, -, hwr, -⟩ := OutputImage_fields env g_MapChannels textureName
  have hmapmem : w.map ∈ mapNumbers ∧ (w.data.length : Int) = w.width * w.height * 4 := by
    rw [hwr] at hw
    rcases mapLoop_writes env textureName _ mapNumbers _ _ w hw with h | ⟨hm, st, buf, henc, hweq⟩
    · simp at h
    · obtain ⟨-, -, -, -, -, hlen, -⟩ :=
        encoded_raster env textureName _ w.map st buf (fun c _ _ img h => henv _ img h) henc
      refine ⟨hm, ?_⟩
      have hwidth : w.width = st.lastWidth := by rw [hweq]; rfl
      have hheight : w.height = st.lastHeight := by rw [hweq]; rfl
      have hdata : w.data = buf := by rw [hweq]; rfl
      rw [hdata, hwidth, hheight]; exact hlen
  have hcover : ∀ (p : Nat), (p : Int) < w.width * w.height → ∀ (slot : Nat),
      ((w.map = Maps.Map1 ∨ w.map = Maps.Map2) ∧ slot < ChannelIndices.Count ∨
        w.map = Maps.Map3 ∧ slot < ChannelIndices.Alpha) →
      ∃ c ∈ (OutputImage env g_MapChannels textureName).registry, c.MapIndex = w.map ∧
        slot ∈ c.Indices ∧ ∃ b, w.data[4 * p + slot]? = some (some b) ∧
          (env.stbi_load (ImageName textureName c) = none → b = c.DefaultValue) := by
    intro p hp slot hcase
    obtain ⟨c, hc, hcm, hcs⟩ := fixed_cover
      (DetermineAlphaState env textureName g_MapChannels) w.map slot hcase
    rw [← hreg] at hc
    obtain ⟨b, hb, hdef, -⟩ := raster_byte_defined env textureName henv w hw c hc hcm slot hcs
      p hp
    exact ⟨c, hc, hcm, hcs, b, hb, hdef⟩
  refine ⟨?_, hmapmem.2, ?_, fixed_map3_no_alpha⟩
  · have := hmapmem.1
    rw [mapNumbers_eq] at this
    simpa using this
  · intro p hp
    refine ⟨fun hm slot hslot => hcover p hp slot (Or.inl ⟨hm, hslot⟩), fun hm => ⟨?_, ?_⟩⟩
    · intro slot hslot
      exact hcover p hp slot (Or.inr ⟨hm, hslot⟩)
    · exact OutputImage_map3_alpha_untouched env textureName henv w hw hm p hp

theorem envScenarioB_WellFormed : envScenarioB.WellFormed := by
  intro file img h
  simp only [envScenarioB] at h
  split_ifs at h <;> injection h with h <;> subst h <;>
    exact ⟨by decide, by decide, by decide, by decide⟩

/-- C19 (amended) on Scenario B: the raster of map 3 is encoded with four
bytes, and at its one pixel the slot `Alpha` was never stored to. -/
theorem OutputImage_raster_bytes_witness :
    envScenarioB.WellFormed ∧
    (⟨3, "tex_maps3.png", 1, 1, [some 255, some 77, some 255, none], true⟩ : PngWrite) ∈
      (OutputImage envScenarioB g_MapChannels "tex").pngWrites ∧
    ((([some 255, some 77, some 255, none] : List (Option Nat)).length : Int) = 1 * 1 * 4) ∧
    ([some 255, some 77, some 255, none] : List (Option Nat))[4 * 0 + ChannelIndices.Alpha]? =
      some none :=
  ⟨envScenarioB_WellFormed, by decide,
    (OutputImage_raster_bytes envScenarioB "tex" envScenarioB_WellFormed
      ⟨3, "tex_maps3.png", 1, 1, [some 255, some 77, some 255, none], true⟩ (by decide)).2.1,
    ((OutputImage_raster_bytes envScenarioB "tex" envScenarioB_WellFormed
      ⟨3, "tex_maps3.png", 1, 1, [some 255, some 77, some 255, none], true⟩
      (by decide)).2.2.1 0 (by decide)).2 rfl |>.2⟩

/-! ### The two documented scenarios, apart from the unassigned locals -/

/-- The loop over maps at a map whose raster reaches the encoder. -/
theorem mapLoop_cons_encode (env : Env) (textureName : String) (reg : List MapChannel) (m : Nat)
    (rest : List Nat) (wm : Nat → Bool) (ws : List PngWrite) (st : MapState)
    (buf : List (Option Nat)) (henc : Encodes env textureName reg m st buf) :
    mapLoop env textureName reg (m :: rest) wm ws =
      if (pngWriteOf env textureName m st buf).ok = false then
        ⟨false, Function.update wm m true, ws ++ [pngWriteOf env textureName m st buf]⟩
      else mapLoop env textureName reg rest (Function.update wm m true)
        (ws ++ [pngWriteOf env textureName m st buf]) := by
  obtain ⟨hcl, hmd, hu⟩ := henc
  rw [mapLoop]
  simp [hcl, hmd, hu, pngWriteOf]

/-- The loop over maps at a map all of whose entries fell back to defaults. -/
theorem mapLoop_cons_discard (env : Env) (textureName : String) (reg : List MapChannel) (m : Nat)
    (rest : List Nat) (wm : Nat → Bool) (ws : List PngWrite) (st : MapState)
    (hcl : channelLoop env textureName m 0 reg MapState.init = some st)
    (hu : st.usedSomethingOtherThanDefaults = false) :
    mapLoop env textureName reg (m :: rest) wm ws = mapLoop env textureName reg rest wm ws := by
  rw [mapLoop]
  cases hmd : st.mapData <;> simp [hcl, hmd, hu]

/-- In a raster that reaches the encoder, a target slot of an entry whose
image loaded holds the byte of the image at the entry's source slot, and the
raster has the size of the image. -/
theorem encoded_source (env : Env) (textureName : String) (henv : env.WellFormed)
    (s : Maps1AlphaState) (m : Nat) (st : MapState) (buf : List (Option Nat))
    (henc : Encodes env textureName (FixupAlphaState g_MapChannels s) m st buf)
    (c : MapChannel) (hc : c ∈ FixupAlphaState g_MapChannels s) (hcm : c.MapIndex = m)
    (img : Image) (hload : env.stbi_load (ImageName textureName c) = some img) :
    st.lastWidth = img.width ∧ st.lastHeight = img.height ∧
    ∀ (t : Nat), t < c.Indices.length → ∀ (p : Nat), (p : Int) < img.width * img.height →
      ∃ b, img.data[4 * p + t]? = some b ∧
        buf[4 * p + c.Indices.getD t 0]? = some (some b) := by
  obtain ⟨-, hsame, hpw, hph, hbd, -, hcontent⟩ :=
    encoded_raster env textureName s m st buf (fun c _ _ img h => henv _ img h) henc
  obtain ⟨e1, e2⟩ := hsame c hc img hcm hload
  refine ⟨e1, e2, ?_⟩
  intro t ht p hp
  rw [← e1, ← e2] at hp
  obtain ⟨-, -, -, hsize⟩ := henv _ img hload
  obtain ⟨-, -, hcast, hpix⟩ := alloc_size st.lastWidth st.lastHeight hpw hph hbd
  have hpN : p < st.lastHeight.toNat * st.lastWidth.toNat := (hpix p).1 hp
  have ht4 : t < 4 := by
    have := ((fixed_SlotsDisjoint s).1 c hc).2.2
    simp only [ChannelIndices.Count] at this
    omega
  have hsizeN : img.data.length = st.lastHeight.toNat * st.lastWidth.toNat * 4 := by
    have : (img.data.length : Int) =
        ((st.lastHeight.toNat * st.lastWidth.toNat * 4 : Nat) : Int) := by
      rw [hsize, hcast, e1, e2]
    exact_mod_cast this
  have hin : 4 * p + t < img.data.length := by rw [hsizeN]; omega
  refine ⟨img.data[4 * p + t], List.getElem?_eq_getElem hin, ?_⟩
  rw [hcontent c hc hcm t ht p hp, hload]
  simp only [Option.map_some', srcOrDefault]
  rw [List.getElem?_eq_getElem hin]

theorem MapFileName_literal (textureName : String) :
    MapFileName textureName 1 = textureName ++ "_maps1.png" ∧
    MapFileName textureName 2 = textureName ++ "_maps2.png" ∧
    MapFileName textureName 3 = textureName ++ "_maps3.png" := by
  simp only [MapFileName, MapName, String.append_assoc]
  exact ⟨rfl, rfl, rfl⟩

theorem fixed_Occlusion_entries :
    FixupAlphaState g_MapChannels Maps1AlphaState.Occlusion =
      [ ⟨.None,      "albedo",    255, Maps.Map1, [ChannelIndices.Red, ChannelIndices.Green, ChannelIndices.Blue]⟩,
        ⟨.None,      "alpha",     255, Maps.Map3, [ChannelIndices.Green]⟩,
        ⟨.None,      "roughness", 242, Maps.Map2, [ChannelIndices.Red]⟩,
        ⟨.None,      "metalness", 10,  Maps.Map2, [ChannelIndices.Blue]⟩,
        ⟨.None,      "normal",    127, Maps.Map2, [ChannelIndices.Green, ChannelIndices.Alpha]⟩,
        ⟨.TintMask,  "tintmask",  255, Maps.Map3, [ChannelIndices.Red]⟩,
        ⟨.Occlusion, "occlusion", 255, Maps.Map1, [ChannelIndices.Alpha]⟩,
        ⟨.TintMask,  "selfillum", 255, Maps.Map3, [ChannelIndices.Blue]⟩ ] := by
  decide

/-- Scenario B, what holds whatever the program reads after a failed load:
when `<name>_occlusion.png` exists, `<name>_tintmask.png` does not, and the
albedo, alpha and occlusion images load, albedo and occlusion with equal
dimensions, then the resolved state is `Occlusion`, with integer code 1; the
reassignment puts `occlusion` on slot `Alpha` of map 1 and `alpha` on slot
`Green` of map 3; the encoder is called for map 1, and every raster it is
given for map 1 has the size of the images and holds at every pixel the first
channel of the occlusion image in slot `Alpha` and albedo's R, G, B in the
three other slots; a descriptor, if one is written, carries `$maps1alpha 1`;
and a run that returns `true` has written map 3, with the first channel of
the alpha image in slot `Green`.  Whether the run returns `true` is not
settled by these hypotheses. -/
theorem OutputImage_scenario_B (env : Env) (textureName : String) (henv : env.WellFormed)
    (albedo alpha occlusion : Image)
    (hfo : env.fileExists (textureName ++ "_occlusion.png") = true)
    (hft : env.fileExists (textureName ++ "_tintmask.png") = false)
    (hla : env.stbi_load (textureName ++ "_albedo.png") = some albedo)
    (hlp : env.stbi_load (textureName ++ "_alpha.png") = some alpha)
    (hlo : env.stbi_load (textureName ++ "_occlusion.png") = some occlusion)
    (hdim : occlusion.width = albedo.width ∧ occlusion.height = albedo.height) :
    (OutputImage env g_MapChannels textureName).alphaState = Maps1AlphaState.Occlusion ∧
    (OutputImage env g_MapChannels textureName).alphaState.code = 1 ∧
    (OutputImage env g_MapChannels textureName).registry.map
        (fun c => (c.Name, c.MapIndex, c.Indices)) =
      [("albedo", 1, [0, 1, 2]), ("alpha", 3, [1]), ("roughness", 2, [0]),
       ("metalness", 2, [2]), ("normal", 2, [1, 3]), ("tintmask", 3, [0]),
       ("occlusion", 1, [3]), ("selfillum", 3, [2])] ∧
    (∃ w ∈ (OutputImage env g_MapChannels textureName).pngWrites, w.map = Maps.Map1) ∧
    (∀ w ∈ (OutputImage env g_MapChannels textureName).pngWrites, w.map = Maps.Map1 →
      w.width = albedo.width ∧ w.height = albedo.height ∧
      ∀ (p : Nat), (p : Int) < albedo.width * albedo.height →
        (∃ b, occlusion.data[4 * p + 0]? = some b ∧
          w.data[4 * p + ChannelIndices.Alpha]? = some (some b)) ∧
        (∃ b, albedo.data[4 * p + 0]? = some b ∧
          w.data[4 * p + ChannelIndices.Red]? = some (some b)) ∧
        (∃ b, albedo.data[4 * p + 1]? = some b ∧
          w.data[4 * p + ChannelIndices.Green]? = some (some b)) ∧
        (∃ b, albedo.data[4 * p + 2]? = some b ∧
          w.data[4 * p + ChannelIndices.Blue]? = some (some b))) ∧
    (∀ d ∈ (OutputImage env g_MapChannels textureName).vmtWrites,
      ∃ rest, d.2 = "\"PBRStandard\"\n\x7b\n  $maps1alpha 1\n" ++ rest) ∧
    ((OutputImage env g_MapChannels textureName).ret = true →
      (OutputImage env g_MapChannels textureName).writtenMaps Maps.Map3 = true ∧
      ∃ w ∈ (OutputImage env g_MapChannels textureName).pngWrites, w.map = Maps.Map3 ∧
        ∀ (p : Nat), (p : Int) < alpha.width * alpha.height →
          ∃ b, alpha.data[4 * p + 0]? = some b ∧
            w.data[4 * p + ChannelIndices.Green]? = some (some b)) := by
  have hstate : DetermineAlphaState env textureName g_MapChannels =
      Maps1AlphaState.Occlusion := by
    rw [DetermineAlphaState_initial]
    simp [hft, hfo]
  obtain ⟨hreg, hal, hret, hwm, hwr, hvmt⟩ := OutputImage_fields env g_MapChannels textureName
  rw [hstate] at hreg hal hret hwm hwr
  have nAlbedo : ImageName textureName ⟨.None, "albedo", 255, Maps.Map1,
      [ChannelIndices.Red, ChannelIndices.Green, ChannelIndices.Blue]⟩ =
      textureName ++ "_albedo.png" := by rw [ImageName_literal]; rfl
  have nOcc : ImageName textureName ⟨.Occlusion, "occlusion", 255, Maps.Map1,
      [ChannelIndices.Alpha]⟩ = textureName ++ "_occlusion.png" := by
    rw [ImageName_literal]; rfl
  have nAlpha : ImageName textureName ⟨.None, "alpha", 255, Maps.Map3,
      [ChannelIndices.Green]⟩ = textureName ++ "_alpha.png" := by
    rw [ImageName_literal]; rfl
  have mAlbedo : (⟨.None, "albedo", 255, Maps.Map1,
      [ChannelIndices.Red, ChannelIndices.Green, ChannelIndices.Blue]⟩ : MapChannel) ∈
      FixupAlphaState g_MapChannels Maps1AlphaState.Occlusion := by decide
  have mOcc : (⟨.Occlusion, "occlusion", 255, Maps.Map1, [ChannelIndices.Alpha]⟩ :
      MapChannel) ∈ FixupAlphaState g_MapChannels Maps1AlphaState.Occlusion := by decide
  have mAlpha : (⟨.None, "alpha", 255, Maps.Map3, [ChannelIndices.Green]⟩ : MapChannel) ∈
      FixupAlphaState g_MapChannels Maps1AlphaState.Occlusion := by decide
  -- the loop over the table for map 1 ends with a raster
  obtain ⟨st1, hst1⟩ := channelLoop_succeeds env textureName Maps.Map1
    (albedo.width, albedo.height)
    (FixupAlphaState g_MapChannels Maps1AlphaState.Occlusion) 0 MapState.init (by
      intro j c hj hcm
      rw [fixed_Occlusion_entries] at hj
      have hlt : j < 8 := by
        have := (List.getElem?_eq_some.1 hj).1
        simpa using this
      interval_cases j <;> simp at hj <;> subst hj <;>
        first
        | exact absurd hcm (by decide)
        | exact sizeAt_of_load env textureName _ _ albedo (by rw [nAlbedo]; exact hla)
        | (rw [sizeAt_of_load env textureName _ _ occlusion (by rw [nOcc]; exact hlo),
            hdim.1, hdim.2]))
    (by intro h; simp [MapState.init] at h)
  obtain ⟨buf1, henc1⟩ := (Encodes_iff env textureName _ Maps.Map1 st1 hst1).2
    ⟨_, mAlbedo, rfl, by rw [nAlbedo, hla]; rfl⟩
  have hcontent : ∀ (m : Nat) (st : MapState) (buf : List (Option Nat)),
      Encodes env textureName (FixupAlphaState g_MapChannels Maps1AlphaState.Occlusion) m st buf →
      ∀ (c : MapChannel), c ∈ FixupAlphaState g_MapChannels Maps1AlphaState.Occlusion →
      c.MapIndex = m → ∀ (img : Image), env.stbi_load (ImageName textureName c) = some img →
      st.lastWidth = img.width ∧ st.lastHeight = img.height ∧
      ∀ (t : Nat), t < c.Indices.length → ∀ (p : Nat), (p : Int) < img.width * img.height →
        ∃ b, img.data[4 * p + t]? = some b ∧
          buf[4 * p + c.Indices.getD t 0]? = some (some b) :=
    fun m st buf henc c hc hcm img hload =>
      encoded_source env textureName henv _ m st buf henc c hc hcm img hload
  refine ⟨hal, by rw [hal]; rfl, by rw [hreg]; decide, ?_, ?_, ?_, ?_⟩
  · rw [hwr, mapNumbers_eq, mapLoop_cons_encode env textureName _ 1 _ _ _ st1 buf1 henc1]
    split_ifs
    · exact ⟨pngWriteOf env textureName 1 st1 buf1, by simp, rfl⟩
    · exact ⟨pngWriteOf env textureName 1 st1 buf1,
        (mapLoop_keeps env textureName _ _ _ _).1 _ (by simp), rfl⟩
  · intro w hw hwm1
    rw [hwr] at hw
    rcases mapLoop_writes env textureName _ mapNumbers _ _ w hw with h | ⟨-, st, buf, henc, hweq⟩
    · simp at h
    · rw [hwm1] at henc
      have hwidth : w.width = st.lastWidth := by rw [hweq]; rfl
      have hheight : w.height = st.lastHeight := by rw [hweq]; rfl
      have hdata : w.data = buf := by rw [hweq]; rfl
      obtain ⟨a1, a2, a3⟩ := hcontent _ st buf henc _ mAlbedo rfl albedo
        (by rw [nAlbedo]; exact hla)
      obtain ⟨-, -, o3⟩ := hcontent _ st buf henc _ mOcc rfl occlusion
        (by rw [nOcc]; exact hlo)
      refine ⟨by rw [hwidth, a1], by rw [hheight, a2], ?_⟩
      intro p hp
      rw [hdata]
      refine ⟨o3 0 (by decide) p (by rw [hdim.1, hdim.2]; exact hp), a3 0 (by decide) p hp,
        a3 1 (by decide) p hp, a3 2 (by decide) p hp⟩
  · intro d hd
    rw [hvmt] at hd
    split_ifs at hd
    · rw [List.mem_singleton] at hd
      obtain ⟨rest, hrest⟩ := OutputVMT_header
        (OutputImage env g_MapChannels textureName).alphaState textureName
        (OutputImage env g_MapChannels textureName).writtenMaps
      refine ⟨rest, ?_⟩
      rw [hd, hrest, hal]
      rfl
    · simp at hd
  · intro hr
    rw [hret] at hr
    obtain ⟨hall, -⟩ := mapLoop_completed env textureName _ mapNumbers _ _ hr
    obtain ⟨st3, hst3, hwritten⟩ := hall Maps.Map3 (by decide)
    obtain ⟨buf3, henc3⟩ := (Encodes_iff env textureName _ Maps.Map3 st3 hst3).2
      ⟨_, mAlpha, rfl, by rw [nAlpha, hlp]; rfl⟩
    obtain ⟨h1, h2, -⟩ := hwritten buf3 henc3.2.1 henc3.2.2
    refine ⟨by rw [hwm]; exact h1, _, by rw [hwr]; exact h2, rfl, ?_⟩
    obtain ⟨-, -, c3⟩ := hcontent _ st3 buf3 henc3 _ mAlpha rfl alpha
      (by rw [nAlpha]; exact hlp)
    intro p hp
    exact c3 0 (by decide) p hp

/-- Scenario B with 1 by 1 images: the state is `Occlusion`, its code is 1,
and the encoder is called for map 1. -/
theorem OutputImage_scenario_B_example :
    envScenarioB.WellFormed ∧
    envScenarioB.fileExists ("tex" ++ "_occlusion.png") = true ∧
    envScenarioB.fileExists ("tex" ++ "_tintmask.png") = false ∧
    (OutputImage envScenarioB g_MapChannels "tex").alphaState = Maps1AlphaState.Occlusion ∧
    (OutputImage envScenarioB g_MapChannels "tex").alphaState.code = 1 ∧
    (∃ w ∈ (OutputImage envScenarioB g_MapChannels "tex").pngWrites, w.map = Maps.Map1) :=
  have h := OutputImage_scenario_B envScenarioB "tex" envScenarioB_WellFormed
    ⟨1, 1, [10, 20, 30, 40]⟩ ⟨1, 1, [77, 78, 79, 80]⟩ ⟨1, 1, [50, 51, 52, 53]⟩
    (by decide) (by decide) (by decide) (by decide) (by decide) ⟨rfl, rfl⟩
  ⟨envScenarioB_WellFormed, by decide, by decide, h.1, h.2.1, h.2.2.2.1⟩

/-- The descriptor of a run in which map 1 alone was written, for the state
`None`. -/
theorem OutputVMT_maps1_only (textureName : String) :
    OutputVMT Maps1AlphaState.None textureName (Function.update (fun _ => false) 1 true) =
      "\"PBRStandard\"\n\x7b\n  $maps1alpha 0\n  $maps1 \"" ++ textureName ++ "_maps1\"\n\x7d\n" := by
  have hrange : List.range Maps.Count = [0, 1, 2, 3] := by decide
  unfold OutputVMT
  rw [hrange]
  simp [Function.update, MapName, String.append_assoc]
  rfl

/-- Scenario A under two further premises: the albedo and alpha images load
with equal dimensions, none of the six other files exists or loads, the
encoder succeeds for `<name>_maps1.png`, and the `width` and `height` the
program reads after the failed loads agree within map 2 and within map 3.
Then the run returns `true`; the state is `None` and the table is unchanged;
the one encoder call is for map 1, with the size of the images, albedo's R,
G, B in slots R, G, B and the first channel of the alpha image in slot A at
every pixel; maps 2 and 3 end all-default and are not written; the descriptor
is the one with `$maps1alpha 0` and the single line for `maps1`; and the
defaults of the table are 242 for roughness, 10 for metalness, 127 for normal
and 255 otherwise. -/
theorem OutputImage_scenario_A (env : Env) (textureName : String) (henv : env.WellFormed)
    (albedo alpha : Image)
    (hla : env.stbi_load (textureName ++ "_albedo.png") = some albedo)
    (hlp : env.stbi_load (textureName ++ "_alpha.png") = some alpha)
    (hdim : alpha.width = albedo.width ∧ alpha.height = albedo.height)
    (hft : env.fileExists (textureName ++ "_tintmask.png") = false)
    (hfo : env.fileExists (textureName ++ "_occlusion.png") = false)
    (hfs : env.fileExists (textureName ++ "_selfillum.png") = false)
    (hlr : env.stbi_load (textureName ++ "_roughness.png") = none)
    (hlm : env.stbi_load (textureName ++ "_metalness.png") = none)
    (hln : env.stbi_load (textureName ++ "_normal.png") = none)
    (hlt : env.stbi_load (textureName ++ "_tintmask.png") = none)
    (hlo : env.stbi_load (textureName ++ "_occlusion.png") = none)
    (hls : env.stbi_load (textureName ++ "_selfillum.png") = none)
    (hu2 : env.uninit 3 = env.uninit 2 ∧ env.uninit 4 = env.uninit 2)
    (hu3 : env.uninit 6 = env.uninit 5 ∧ env.uninit 7 = env.uninit 5)
    (hpng : ∀ (w h : Int) (data : List (Option Nat)),
      env.stbi_write_png (textureName ++ "_maps1.png") w h data = true) :
    (OutputImage env g_MapChannels textureName).ret = true ∧
    (OutputImage env g_MapChannels textureName).alphaState = Maps1AlphaState.None ∧
    (OutputImage env g_MapChannels textureName).registry = g_MapChannels ∧
    (∃ data, (OutputImage env g_MapChannels textureName).pngWrites =
        [⟨1, textureName ++ "_maps1.png", albedo.width, albedo.height, data, true⟩] ∧
      (data.length : Int) = albedo.width * albedo.height * 4 ∧
      ∀ (p : Nat), (p : Int) < albedo.width * albedo.height →
        (∃ b, albedo.data[4 * p + 0]? = some b ∧
          data[4 * p + ChannelIndices.Red]? = some (some b)) ∧
        (∃ b, albedo.data[4 * p + 1]? = some b ∧
          data[4 * p + ChannelIndices.Green]? = some (some b)) ∧
        (∃ b, albedo.data[4 * p + 2]? = some b ∧
          data[4 * p + ChannelIndices.Blue]? = some (some b)) ∧
        (∃ b, alpha.data[4 * p + 0]? = some b ∧
          data[4 * p + ChannelIndices.Alpha]? = some (some b))) ∧
    (OutputImage env g_MapChannels textureName).writtenMaps Maps.Map1 = true ∧
    (OutputImage env g_MapChannels textureName).writtenMaps Maps.Map2 = false ∧
    (OutputImage env g_MapChannels textureName).writtenMaps Maps.Map3 = false ∧
    (∀ (m : Nat), m = Maps.Map2 ∨ m = Maps.Map3 →
      ∃ st, channelLoop env textureName m 0 g_MapChannels MapState.init = some st ∧
        st.usedSomethingOtherThanDefaults = false) ∧
    (OutputImage env g_MapChannels textureName).vmtWrites =
      [(textureName ++ ".vmt",
        "\"PBRStandard\"\n\x7b\n  $maps1alpha 0\n  $maps1 \"" ++ textureName ++
          "_maps1\"\n\x7d\n")] ∧
    g_MapChannels.map (fun c => (c.Name, c.DefaultValue)) =
      [("albedo", 255), ("alpha", 255), ("roughness", 242), ("metalness", 10),
       ("normal", 127), ("tintmask", 255), ("occlusion", 255), ("selfillum", 255)] := by
  have hstate : DetermineAlphaState env textureName g_MapChannels = Maps1AlphaState.None := by
    rw [DetermineAlphaState_initial]
    simp [hft, hfo, hfs]
  have hfix : FixupAlphaState g_MapChannels Maps1AlphaState.None = g_MapChannels :=
    FixupAlphaState_None _
  obtain ⟨hreg, hal, hret, hwm, hwr, hvmt⟩ := OutputImage_fields env g_MapChannels textureName
  rw [hstate, hfix] at hreg hret hwm hwr
  rw [hstate] at hal
  have nm : ∀ (a : Maps1AlphaState) (n : String) (d m : Nat) (l : List Nat),
      ImageName textureName ⟨a, n, d, m, l⟩ = textureName ++ ("_" ++ n ++ ".png") :=
    ImageName_literal textureName
  have nAlbedo : textureName ++ ("_" ++ "albedo" ++ ".png") = textureName ++ "_albedo.png" := rfl
  have nAlpha : textureName ++ ("_" ++ "alpha" ++ ".png") = textureName ++ "_alpha.png" := rfl
  have nRough : textureName ++ ("_" ++ "roughness" ++ ".png") =
      textureName ++ "_roughness.png" := rfl
  have nMetal : textureName ++ ("_" ++ "metalness" ++ ".png") =
      textureName ++ "_metalness.png" := rfl
  have nNormal : textureName ++ ("_" ++ "normal" ++ ".png") = textureName ++ "_normal.png" := rfl
  have nTint : textureName ++ ("_" ++ "tintmask" ++ ".png") =
      textureName ++ "_tintmask.png" := rfl
  have nOcc : textureName ++ ("_" ++ "occlusion" ++ ".png") =
      textureName ++ "_occlusion.png" := rfl
  have nSelf : textureName ++ ("_" ++ "selfillum" ++ ".png") =
      textureName ++ "_selfillum.png" := rfl
  -- the sizes read for the entries of each map
  have hsizes : ∀ (m : Nat) (d : Int × Int),
      (m = 1 ∧ d = (albedo.width, albedo.height)) ∨ (m = 2 ∧ d = env.uninit 2) ∨
        (m = 3 ∧ d = env.uninit 5) →
      ∀ (j : Nat) (c : MapChannel), g_MapChannels[j]? = some c → c.MapIndex = m →
        sizeAt env textureName (0 + j) c = d := by
    intro m d hmd j c hj hcm
    have hlt8 : j < 8 := by
      have := (List.getElem?_eq_some.1 hj).1
      simpa [g_MapChannels] using this
    rcases hmd with ⟨rfl, rfl⟩ | ⟨rfl, rfl⟩ | ⟨rfl, rfl⟩ <;>
      interval_cases j <;> simp [g_MapChannels] at hj <;> subst hj <;>
      first
      | exact absurd hcm (by decide)
      | (simp only [sizeAt, nm, nAlbedo, nAlpha, nRough, nMetal, nNormal, nTint, nOcc, nSelf,
          hla, hlp, hlr, hlm, hln, hlt, hlo, hls, loadedSize, hdim.1, hdim.2, hu2.1, hu2.2,
          hu3.1, hu3.2, Nat.zero_add])
  -- no entry of maps 2 and 3 decodes
  have hnodec : ∀ (m : Nat), m = 2 ∨ m = 3 → ¬ ∃ c ∈ g_MapChannels, Decodes env textureName m c := by
    rintro m hm ⟨c, hc, hcm, hload⟩
    simp only [g_MapChannels, List.mem_cons, List.mem_singleton, List.not_mem_nil,
      or_false] at hc
    rcases hm with rfl | rfl <;>
      rcases hc with h | h | h | h | h | h | h | h <;> subst h <;>
      first
      | exact absurd hcm (by decide)
      | (simp only [nm, nRough, nMetal, nNormal, nTint, nOcc, nSelf,
          hlr, hlm, hln, hlt, hlo, hls] at hload
         exact Bool.noConfusion hload)
  have hdiscard : ∀ (m : Nat), m = 2 ∨ m = 3 →
      ∃ st, channelLoop env textureName m 0 g_MapChannels MapState.init = some st ∧
        st.usedSomethingOtherThanDefaults = false := by
    intro m hm
    obtain ⟨st, hst⟩ := channelLoop_succeeds env textureName m
      (if m = 2 then env.uninit 2 else env.uninit 5) g_MapChannels 0 MapState.init
      (hsizes m _ (by rcases hm with rfl | rfl <;> simp))
      (by intro h; simp [MapState.init] at h)
    refine ⟨st, hst, ?_⟩
    have hflag := (channelLoop_init_flags env textureName g_MapChannels m st hst).1
    cases hu : st.usedSomethingOtherThanDefaults with
    | false => rfl
    | true => exact absurd (hflag.1 hu) (hnodec m hm)
  -- map 1 reaches the encoder
  obtain ⟨st1, hst1⟩ := channelLoop_succeeds env textureName 1 (albedo.width, albedo.height)
    g_MapChannels 0 MapState.init (hsizes 1 _ (Or.inl ⟨rfl, rfl⟩))
    (by intro h; simp [MapState.init] at h)
  obtain ⟨buf1, henc1⟩ := (Encodes_iff env textureName _ 1 st1 hst1).2
    ⟨⟨.None, "albedo", 255, Maps.Map1, [ChannelIndices.Red, ChannelIndices.Green,
      ChannelIndices.Blue]⟩, by decide, rfl, by rw [nm, nAlbedo, hla]; rfl⟩
  have henc1' : Encodes env textureName (FixupAlphaState g_MapChannels Maps1AlphaState.None)
      1 st1 buf1 := by rw [hfix]; exact henc1
  obtain ⟨a1, a2, a3⟩ := encoded_source env textureName henv _ 1 st1 buf1 henc1'
    ⟨.None, "albedo", 255, Maps.Map1, [ChannelIndices.Red, ChannelIndices.Green,
      ChannelIndices.Blue]⟩ (by decide) rfl albedo (by rw [nm, nAlbedo]; exact hla)
  obtain ⟨-, -, p3⟩ := encoded_source env textureName henv _ 1 st1 buf1 henc1'
    ⟨.None, "alpha", 255, Maps.Map1, [ChannelIndices.Alpha]⟩ (by decide) rfl alpha
    (by rw [nm, nAlpha]; exact hlp)
  obtain ⟨-, -, -, -, -, hlen1, -⟩ := encoded_raster env textureName _ 1 st1 buf1
    (fun c _ _ img h => henv _ img h) henc1'
  obtain ⟨st2, hst2, hu2'⟩ := hdiscard 2 (Or.inl rfl)
  obtain ⟨st3, hst3, hu3'⟩ := hdiscard 3 (Or.inr rfl)
  have hw1 : pngWriteOf env textureName 1 st1 buf1 =
      ⟨1, textureName ++ "_maps1.png", albedo.width, albedo.height, buf1, true⟩ := by
    simp only [pngWriteOf, (MapFileName_literal textureName).1, hpng, a1, a2]
  have hloop : mapLoop env textureName g_MapChannels mapNumbers (fun _ => false) [] =
      ⟨true, Function.update (fun _ => false) 1 true,
        [⟨1, textureName ++ "_maps1.png", albedo.width, albedo.height, buf1, true⟩]⟩ := by
    rw [mapNumbers_eq, mapLoop_cons_encode env textureName _ 1 _ _ _ st1 buf1 henc1, hw1]
    rw [if_neg (by simp)]
    rw [mapLoop_cons_discard env textureName _ 2 _ _ _ st2 hst2 hu2',
      mapLoop_cons_discard env textureName _ 3 _ _ _ st3 hst3 hu3']
    simp [mapLoop]
  rw [hloop] at hret hwm hwr
  simp only at hret hwm hwr
  refine ⟨hret, hal, hreg, ⟨buf1, hwr, ?_, ?_⟩, ?_, ?_, ?_, hdiscard, ?_, by decide⟩
  · rw [hlen1, a1, a2]
  · intro p hp
    exact ⟨a3 0 (by decide) p hp, a3 1 (by decide) p hp, a3 2 (by decide) p hp,
      p3 0 (by decide) p (by rw [hdim.1, hdim.2]; exact hp)⟩
  · rw [hwm]; rfl
  · rw [hwm]; rfl
  · rw [hwm]; rfl
  · rw [hvmt, if_pos hret, hal, hwm, OutputVMT_maps1_only]
    rfl

theorem envScenarioA_WellFormed : envScenarioA.WellFormed := by
  intro file img h
  simp only [envScenarioA] at h
  split_ifs at h <;> injection h with h <;> subst h <;>
    exact ⟨by decide, by decide, by decide, by decide⟩

/-- Scenario A with 2 by 2 images, when `width` and `height` keep the 2 by 2
of the load before: the run returns `true`, the bit of map 1 is set and those
of maps 2 and 3 are clear, and the descriptor is the one with `$maps1alpha 0`
and the line for `maps1`. -/
theorem OutputImage_scenario_A_example :
    envScenarioA.WellFormed ∧
    envScenarioA.stbi_load ("tex" ++ "_roughness.png") = none ∧
    (OutputImage envScenarioA g_MapChannels "tex").ret = true ∧
    (OutputImage envScenarioA g_MapChannels "tex").writtenMaps Maps.Map1 = true ∧
    (OutputImage envScenarioA g_MapChannels "tex").writtenMaps Maps.Map2 = false ∧
    (OutputImage envScenarioA g_MapChannels "tex").writtenMaps Maps.Map3 = false ∧
    (OutputImage envScenarioA g_MapChannels "tex").vmtWrites =
      [("tex" ++ ".vmt",
        "\"PBRStandard\"\n\x7b\n  $maps1alpha 0\n  $maps1 \"" ++ "tex" ++ "_maps1\"\n\x7d\n")] :=
  have h := OutputImage_scenario_A envScenarioA "tex" envScenarioA_WellFormed
    ⟨2, 2, [10, 20, 30, 255, 11, 21, 31, 255, 12, 22, 32, 255, 13, 23, 33, 255]⟩
    ⟨2, 2, [70, 70, 70, 255, 71, 71, 71, 255, 72, 72, 72, 255, 73, 73, 73, 255]⟩
    (by decide) (by decide) ⟨rfl, rfl⟩ (by decide) (by decide) (by decide)
    (by decide) (by decide) (by decide) (by decide) (by decide) (by decide)
    ⟨rfl, rfl⟩ ⟨rfl, rfl⟩ (fun _ _ _ => rfl)
  ⟨envScenarioA_WellFormed, by decide, h.1, h.2.2.2.2.1, h.2.2.2.2.2.1, h.2.2.2.2.2.2.1,
    h.2.2.2.2.2.2.2.2.1⟩

/-- The success of Scenario A rests on the values `width` and `height` hold
after the failed loads: when those read for `roughness` and `metalness`
differ, the dimension check fails in map 2 and the run returns `false`. -/
theorem scenario_A_stale_sizes_disagree (u : Nat → Int × Int) (hu : u 2 ≠ u 3) :
    (OutputImage { envScenarioA with uninit := u } g_MapChannels "tex").ret = false := by
  obtain ⟨-, -, hr, -, -, -⟩ :=
    OutputImage_fields { envScenarioA with uninit := u } g_MapChannels "tex"
  rw [hr]
  have hstate : DetermineAlphaState { envScenarioA with uninit := u } "tex"
      g_MapChannels = Maps1AlphaState.None := rfl
  rw [hstate, FixupAlphaState_None]
  refine mapLoop_mismatch _ "tex" g_MapChannels mapNumbers _ _ Maps.Map2 (by decide) ?_
  cases h : channelLoop { envScenarioA with uninit := u } "tex" Maps.Map2 0
      g_MapChannels MapState.init with
  | none => rfl
  | some st =>
    obtain ⟨-, hsize, -, -⟩ := channelLoop_basic _ "tex" Maps.Map2 g_MapChannels 0 _ st h
    have h2 := hsize 2 ⟨.None, "roughness", 242, Maps.Map2, [ChannelIndices.Red]⟩ rfl rfl
    have h3 := hsize 3 ⟨.None, "metalness", 10, Maps.Map2, [ChannelIndices.Blue]⟩ rfl rfl
    have e2 : sizeAt { envScenarioA with uninit := u } "tex" (0 + 2)
        ⟨.None, "roughness", 242, Maps.Map2, [ChannelIndices.Red]⟩ = u 2 := rfl
    have e3 : sizeAt { envScenarioA with uninit := u } "tex" (0 + 3)
        ⟨.None, "metalness", 10, Maps.Map2, [ChannelIndices.Blue]⟩ = u 3 := rfl
    rw [e2] at h2
    rw [e3] at h3
    exact absurd (h2.trans h3.symm) hu

/-- The table carried along by `fixupSwaps` is the table `FixupAlphaState`
computes: the recorded positions are those of its `std::swap` calls. -/
theorem fixupSwaps_tracks (s : Maps1AlphaState) :
    ∀ (l : List Nat) (acc : List MapChannel × List Nat),
      (l.foldl (fun (acc : List MapChannel × List Nat) i =>
        match acc.1[i]? with
        | some channel =>
          if channel.AlphaState = s then (swapWithAlpha acc.1 i, acc.2 ++ [i]) else acc
        | none => acc) acc).1 = l.foldl (fixupStep s) acc.1 := by
  intro l
  induction l with
  | nil => intro acc; rfl
  | cons i l ih =>
    intro acc
    rw [List.foldl_cons, List.foldl_cons, ih]
    congr 1
    unfold fixupStep
    cases h : acc.1[i]? with
    | none => rfl
    | some channel =>
      simp only
      split_ifs <;> rfl

/-! ### The scenarios when the unassigned locals differ (C11, C12) -/

/-- C11, evaluated on Scenario A itself (`tex_albedo.png` and `tex_alpha.png`
load as 2 by 2 images, none of the six other files exists or loads): when the
`width` and `height` read after the failed load of `roughness` are 2 by 2 and
those read after the failed load of `metalness` are 0 by 0, the state is
`None`, map 1 is encoded, the dimension check fails in map 2, the run returns
`false`, and no descriptor is written. -/
theorem scenario_A_aborts :
    envScenarioAStale.stbi_load "tex_albedo.png" =
      some ⟨2, 2, [10, 20, 30, 255, 11, 21, 31, 255, 12, 22, 32, 255, 13, 23, 33, 255]⟩ ∧
    envScenarioAStale.stbi_load "tex_alpha.png" =
      some ⟨2, 2, [70, 70, 70, 255, 71, 71, 71, 255, 72, 72, 72, 255, 73, 73, 73, 255]⟩ ∧
    (∀ n ∈ ["roughness", "metalness", "normal", "tintmask", "occlusion", "selfillum"],
      envScenarioAStale.fileExists ("tex_" ++ n ++ ".png") = false ∧
      envScenarioAStale.stbi_load ("tex_" ++ n ++ ".png") = none) ∧
    (OutputImage envScenarioAStale g_MapChannels "tex").alphaState = Maps1AlphaState.None ∧
    channelLoop envScenarioAStale "tex" Maps.Map2 0 g_MapChannels MapState.init = none ∧
    (OutputImage envScenarioAStale g_MapChannels "tex").ret = false ∧
    (OutputImage envScenarioAStale g_MapChannels "tex").pngWrites.map
      (fun w => (w.map, w.fileName, w.width, w.height, w.ok)) =
        [(1, "tex_maps1.png", 2, 2, true)] ∧
    (OutputImage envScenarioAStale g_MapChannels "tex").vmtWrites = [] := by
  refine ⟨by decide, by decide, by decide, by decide, by decide, by decide, by decide,
    by decide⟩

/-- The descriptor of Scenario B rests on the values `width` and `height`
hold after the failed loads: when those read for `roughness` and `metalness`
differ, the dimension check fails in map 2, the run returns `false` and no
descriptor is written. -/
theorem scenario_B_stale_sizes_disagree (u : Nat → Int × Int) (hu : u 2 ≠ u 3) :
    (OutputImage { envScenarioB with uninit := u } g_MapChannels "tex").ret = false ∧
    (OutputImage { envScenarioB with uninit := u } g_MapChannels "tex").vmtWrites = [] := by
  obtain ⟨-, -, hr, -, -, hvmt⟩ :=
    OutputImage_fields { envScenarioB with uninit := u } g_MapChannels "tex"
  have hstate : DetermineAlphaState { envScenarioB with uninit := u } "tex"
      g_MapChannels = Maps1AlphaState.Occlusion := rfl
  have hfalse : (OutputImage { envScenarioB with uninit := u } g_MapChannels "tex").ret =
      false := by
    rw [hr, hstate]
    refine mapLoop_mismatch _ "tex" _ mapNumbers _ _ Maps.Map2 (by decide) ?_
    cases h : channelLoop { envScenarioB with uninit := u } "tex" Maps.Map2 0
        (FixupAlphaState g_MapChannels Maps1AlphaState.Occlusion) MapState.init with
    | none => rfl
    | some st =>
      obtain ⟨-, hsize, -, -⟩ := channelLoop_basic _ "tex" Maps.Map2 _ 0 _ st h
      have h2 := hsize 2 ⟨.None, "roughness", 242, Maps.Map2, [ChannelIndices.Red]⟩
        (by decide) rfl
      have h3 := hsize 3 ⟨.None, "metalness", 10, Maps.Map2, [ChannelIndices.Blue]⟩
        (by decide) rfl
      have e2 : sizeAt { envScenarioB with uninit := u } "tex" (0 + 2)
          ⟨.None, "roughness", 242, Maps.Map2, [ChannelIndices.Red]⟩ = u 2 := rfl
      have e3 : sizeAt { envScenarioB with uninit := u } "tex" (0 + 3)
          ⟨.None, "metalness", 10, Maps.Map2, [ChannelIndices.Blue]⟩ = u 3 := rfl
      rw [e2] at h2
      rw [e3] at h3
      exact absurd (h2.trans h3.symm) hu
  refine ⟨hfalse, ?_⟩
  rw [hvmt, hfalse]
  rfl

/-- C12, evaluated on Scenario B itself (`tex_albedo.png`, `tex_alpha.png` and
`tex_occlusion.png` load as 1 by 1 images, no tintmask or selfillum file):
when the `width` and `height` read after the failed load of `roughness` are
1 by 1 and those read after the failed load of `metalness` are 0 by 0, the
state is `Occlusion` and map 1 is encoded with the occlusion byte in slot
`Alpha`, but the dimension check fails in map 2: the run returns `false`, map
3 is never reached, and no descriptor (so no `$maps1alpha` line) is
written. -/
theorem scenario_B_aborts :
    envScenarioBStale.stbi_load "tex_albedo.png" = some ⟨1, 1, [10, 20, 30, 40]⟩ ∧
    envScenarioBStale.stbi_load "tex_alpha.png" = some ⟨1, 1, [77, 78, 79, 80]⟩ ∧
    envScenarioBStale.stbi_load "tex_occlusion.png" = some ⟨1, 1, [50, 51, 52, 53]⟩ ∧
    envScenarioBStale.fileExists "tex_occlusion.png" = true ∧
    (∀ n ∈ ["tintmask", "selfillum"],
      envScenarioBStale.fileExists ("tex_" ++ n ++ ".png") = false ∧
      envScenarioBStale.stbi_load ("tex_" ++ n ++ ".png") = none) ∧
    (OutputImage envScenarioBStale g_MapChannels "tex").alphaState =
      Maps1AlphaState.Occlusion ∧
    channelLoop envScenarioBStale "tex" Maps.Map2 0
      (OutputImage envScenarioBStale g_MapChannels "tex").registry MapState.init = none ∧
    (OutputImage envScenarioBStale g_MapChannels "tex").ret = false ∧
    (OutputImage envScenarioBStale g_MapChannels "tex").pngWrites =
      [⟨1, "tex_maps1.png", 1, 1, [some 10, some 20, some 30, some 50], true⟩] ∧
    (OutputImage envScenarioBStale g_MapChannels "tex").writtenMaps Maps.Map3 = false ∧
    (OutputImage envScenarioBStale g_MapChannels "tex").vmtWrites = [] := by
  refine ⟨by decide, by decide, by decide, by decide, by decide, by decide, by decide,
    by decide, by decide, by decide, by decide⟩

end MapsCreator
